import Mathlib

/-!
# LANPR feature-line chaining (`lanpr_chain.c`)

A shallow embedding of the chain builder, the polyline simplifier and the
draw-command packer of `source/blender/draw/engines/lanpr/lanpr_chain.c`,
followed by the properties established about them.

Conventions of the embedding

* `float` / `real` values are rationals (rounding is not modelled).
* A pointer to a `LANPR_RenderVert` is the record itself, which carries its
  address, so pointer comparison is comparison of records.
* A pointer to a `LANPR_RenderLine` is the position of the line in
  `rb->AllRenderLines`; the intrusive list is a Lean list.
* A pointer to a chain item is the position of the item in its chain.
* A loop that the C code runs until a condition fails takes a fuel argument
  and `none` is returned when the fuel is used up; `none` is also the result
  of dereferencing a null pointer.
-/

namespace Lanpr

/-! ## Data model -/

/-- Two floats: a position of the frame buffer. -/
abbrev Pos := ℚ × ℚ

/-- `LANPR_RenderVert`: `addr` stands for the address of the vertex, so that
two records are equal exactly when the pointers are. -/
structure LANPR_RenderVert where
  addr : Nat
  FrameBufferCoord : Pos
deriving DecidableEq

/-- `LANPR_RenderLineSegment`; the field `at` of the source is `at_` here. -/
structure LANPR_RenderLineSegment where
  at_ : ℚ
  OccludeLevel : Int
deriving DecidableEq

/-- `LANPR_RenderLine`, with its list of segments in list order
(`Segments.pFirst` is the head). -/
structure LANPR_RenderLine where
  L : LANPR_RenderVert
  R : LANPR_RenderVert
  Flags : Nat
  Segments : List LANPR_RenderLineSegment
deriving DecidableEq

/-- `LANPR_RenderLineChainItem`. -/
structure LANPR_RenderLineChainItem where
  pos : Pos
  LineType : Nat
  OccludeLevel : Int
deriving DecidableEq

/-- `LANPR_RenderLineChain`: the list `Chain` of items, and two ghost fields
that the source does not have.  `picked` is the list of the lines consumed
into the chain, in the order of the points (the lines reached by growing left
come first, then the seed, then the lines reached by growing right).  `raw` is
the list of items as it stood when the simplifier was called. -/
structure LANPR_RenderLineChain where
  Chain : List LANPR_RenderLineChainItem
  picked : List Nat
  raw : List LANPR_RenderLineChainItem
deriving DecidableEq

/-- `LANPR_BoundingArea`: only the list `LinkedLines`, each entry being the
position of a line in `rb->AllRenderLines`. -/
structure LANPR_BoundingArea where
  LinkedLines : List Nat
deriving DecidableEq

/-- What the file uses and does not define (`lanpr_all.h`, `BLI_math`, the
memory pool): the three flag masks, the content of the `n`-th block handed out
by `memStaticAquire` before it is initialised, and the two distance functions. -/
structure Extern where
  LANPR_EDGE_FLAG_ALL_TYPE : Nat
  LANPR_EDGE_FLAG_CHAIN_PICKED : Nat
  LANPR_EDGE_FLAG_INTERSECTION : Nat
  memStaticAquire : Nat → LANPR_RenderLineChainItem
  dist_to_line_segment_v2 : Pos → Pos → Pos → ℚ
  len_v2v2 : Pos → Pos → ℚ

/-- `LANPR_RenderBuffer`: the lines, the chains built so far, the number of
blocks acquired from `RenderDataPool`, and the spatial index that
`lanpr_GetPointBoundingArea` (not defined in the file) looks up. -/
structure LANPR_RenderBuffer where
  AllRenderLines : List LANPR_RenderLine
  Chains : List LANPR_RenderLineChain
  RenderDataPool : Nat
  BoundingAreas : ℚ → ℚ → Option LANPR_BoundingArea

/-- The external `lanpr_GetPointBoundingArea(rb, x, y)`: a lookup in the
spatial index of the buffer, `none` for a null result. -/
def lanpr_GetPointBoundingArea (rb : LANPR_RenderBuffer) (x y : ℚ) :
    Option LANPR_BoundingArea :=
  rb.BoundingAreas x y

/-- Modelled from the spec: the macro `tnsLinearItp` is not defined in the
file; the spec gives each segment "a parametric position at in [0,1] along
L to R", the linear interpolation of the two ends. -/
def tnsLinearItp (l r t : ℚ) : ℚ := l * (1 - t) + r * t

/-! ## Connected line lookup -/

/-- `LANPR_OTHER_RV(rl, rv)`. -/
def LANPR_OTHER_RV (rl : LANPR_RenderLine) (rv : LANPR_RenderVert) : LANPR_RenderVert :=
  if rv = rl.L then rl.R else rl.L

/-- The test of line 42 (and 149): the line has no feature-type bit, or is
already picked. -/
def notPickable (E : Extern) (rl : LANPR_RenderLine) : Bool :=
  (rl.Flags &&& E.LANPR_EDGE_FLAG_ALL_TYPE == 0) ||
    (rl.Flags &&& E.LANPR_EDGE_FLAG_CHAIN_PICKED != 0)

/-- The loop of `lanpr_GetConnectedRenderLine` over the rest of
`ba->LinkedLines`.  The result is the line found (its position and the
record there) and the value stored in `*new_rv`.  An entry that is the position
of no line is skipped. -/
def getConnectedLoop (E : Extern) (lines : List LANPR_RenderLine) (rv : LANPR_RenderVert) :
    List Nat → Option (Nat × LANPR_RenderLine × LANPR_RenderVert)
  | [] => none
  | lip :: rest =>
    match lines[lip]? with
    | none => getConnectedLoop E lines rv rest
    | some nrl =>
      if notPickable E nrl then getConnectedLoop E lines rv rest
      else if rv ≠ nrl.L ∧ rv ≠ nrl.R then
        if nrl.Flags &&& E.LANPR_EDGE_FLAG_INTERSECTION ≠ 0 then
          if rv.FrameBufferCoord.1 = nrl.L.FrameBufferCoord.1 ∧
              rv.FrameBufferCoord.2 = nrl.L.FrameBufferCoord.2 then
            some (lip, nrl, LANPR_OTHER_RV nrl nrl.L)
          else if rv.FrameBufferCoord.1 = nrl.R.FrameBufferCoord.1 ∧
              rv.FrameBufferCoord.2 = nrl.R.FrameBufferCoord.2 then
            some (lip, nrl, LANPR_OTHER_RV nrl nrl.R)
          else getConnectedLoop E lines rv rest
        else getConnectedLoop E lines rv rest
      else some (lip, nrl, LANPR_OTHER_RV nrl rv)

/-- `lanpr_GetConnectedRenderLine(ba, rv, &new_rv)`; `none` is the null result. -/
def lanpr_GetConnectedRenderLine (E : Extern) (lines : List LANPR_RenderLine)
    (ba : LANPR_BoundingArea) (rv : LANPR_RenderVert) :
    Option (Nat × LANPR_RenderLine × LANPR_RenderVert) :=
  getConnectedLoop E lines rv ba.LinkedLines

/-! ## Chain points -/

/-- `lanpr_append_render_line_chain_point`: a block is acquired from the pool
(`pool` blocks were acquired before), `pos` and `LineType` are assigned, and the
item is appended.  `level` is not used by the source.  The result is the new
pool count and the chain. -/
def lanpr_append_render_line_chain_point (E : Extern) (pool : Nat)
    (rlc : LANPR_RenderLineChain) (x y : ℚ) (type : Nat) (_level : Int) :
    Nat × LANPR_RenderLineChain :=
  let rlci : LANPR_RenderLineChainItem :=
    { E.memStaticAquire pool with
      pos := (x, y), LineType := type &&& E.LANPR_EDGE_FLAG_ALL_TYPE }
  (pool + 1, { rlc with Chain := rlc.Chain ++ [rlci] })

/-- `lanpr_push_render_line_chain_point`: as the append, at the front. -/
def lanpr_push_render_line_chain_point (E : Extern) (pool : Nat)
    (rlc : LANPR_RenderLineChain) (x y : ℚ) (type : Nat) (_level : Int) :
    Nat × LANPR_RenderLineChain :=
  let rlci : LANPR_RenderLineChainItem :=
    { E.memStaticAquire pool with
      pos := (x, y), LineType := type &&& E.LANPR_EDGE_FLAG_ALL_TYPE }
  (pool + 1, { rlc with Chain := rlci :: rlc.Chain })

/-! ## Polyline simplifier -/

/-- The test of lines 120 and 131 on an item and its successor:
`next_rlci && (next_rlci->OccludeLevel != rlci->OccludeLevel ||
next_rlci->LineType != rlci->LineType)`. -/
def metaBreak (rlci : LANPR_RenderLineChainItem) (next_rlci : Option LANPR_RenderLineChainItem) :
    Bool :=
  match next_rlci with
  | none => false
  | some n => (n.OccludeLevel != rlci.OccludeLevel) || (n.LineType != rlci.LineType)

/-- The successor of the head of `rest` inside a range that ends at `to`:
the next interior item, or `to` for the last interior item. -/
def nextOf (rest : List LANPR_RenderLineChainItem) (to_ : LANPR_RenderLineChainItem) :
    LANPR_RenderLineChainItem :=
  match rest with
  | [] => to_
  | n :: _ => n

/-- The first loop of `lanpr_reduce_render_line_chain_recursive` (lines
117-125) over the interior items still to visit; `i` is the position of the
head among the interior items, and the state is `max_dist` and `max_rlci`
(a position, `none` for null). -/
def findMaxLoop (E : Extern) (dist_threshold : ℚ) (from_ to_ : LANPR_RenderLineChainItem) :
    List LANPR_RenderLineChainItem → Nat → ℚ → Option Nat → ℚ × Option Nat
  | [], _, max_dist, max_rlci => (max_dist, max_rlci)
  | rlci :: rest, i, max_dist, max_rlci =>
    if metaBreak rlci (some (nextOf rest to_)) then
      findMaxLoop E dist_threshold from_ to_ rest (i + 1) max_dist max_rlci
    else
      let dist := E.dist_to_line_segment_v2 rlci.pos from_.pos to_.pos
      if dist > dist_threshold ∧ dist > max_dist then
        findMaxLoop E dist_threshold from_ to_ rest (i + 1) dist (some i)
      else
        findMaxLoop E dist_threshold from_ to_ rest (i + 1) max_dist max_rlci

/-- One call of `lstRemoveItem` as the ghost log records it: the item removed
and the two ends of the range that was being collapsed. -/
structure Removed where
  rlci : LANPR_RenderLineChainItem
  from_ : LANPR_RenderLineChainItem
  to_ : LANPR_RenderLineChainItem
deriving DecidableEq

/-- The second loop (lines 129-133) over the interior items still to visit:
an item whose successor differs in occlusion level or line type is kept, any
other is removed.  The result is the items left and the log of removals. -/
def removeLoop (from_ to_ : LANPR_RenderLineChainItem) :
    List LANPR_RenderLineChainItem → List LANPR_RenderLineChainItem × List Removed
  | [] => ([], [])
  | rlci :: rest =>
    let r := removeLoop from_ to_ rest
    if metaBreak rlci (some (nextOf rest to_)) then (rlci :: r.1, r.2)
    else (r.1, { rlci := rlci, from_ := from_, to_ := to_ } :: r.2)

/-- `lanpr_reduce_render_line_chain_recursive(rlc, from, to, dist_threshold)`
on the range `from, mid..., to` of a chain (`mid` the items strictly between).
The result is the list of items left strictly between `from` and `to`, and
the ghost log of the removals.  `fuel` bounds the depth of the recursion. -/
def reduceRange (E : Extern) (dist_threshold : ℚ) :
    Nat → LANPR_RenderLineChainItem → List LANPR_RenderLineChainItem →
      LANPR_RenderLineChainItem → Option (List LANPR_RenderLineChainItem × List Removed)
  | 0, _, _, _ => none
  | fuel + 1, from_, mid, to_ =>
    match (findMaxLoop E dist_threshold from_ to_ mid 0 0 none).2 with
    | none =>
      if mid = [] then some ([], [])
      else some (removeLoop from_ to_ mid)
    | some k =>
      match mid[k]? with
      | none => none
      | some max_rlci =>
        let left :=
          if mid.take k ≠ [] then reduceRange E dist_threshold fuel from_ (mid.take k) max_rlci
          else some ([], [])
        match left with
        | none => none
        | some l =>
          let right :=
            if mid.drop (k + 1) ≠ [] then
              reduceRange E dist_threshold fuel max_rlci (mid.drop (k + 1)) to_
            else some ([], [])
          match right with
          | none => none
          | some r => some (l.1 ++ max_rlci :: r.1, l.2 ++ r.2)

/-- The call `lanpr_reduce_render_line_chain_recursive(rlc, rlc->Chain.pFirst,
rlc->Chain.pLast, dist_threshold)` on a whole chain.  With fewer than two
items the first loop dereferences a null pointer. -/
def lanpr_reduce_render_line_chain_recursive (E : Extern) (dist_threshold : ℚ)
    (chain : List LANPR_RenderLineChainItem) :
    Option (List LANPR_RenderLineChainItem × List Removed) :=
  match chain with
  | [] => none
  | from_ :: rest =>
    match rest.getLast? with
    | none => none
    | some to_ =>
      match reduceRange E dist_threshold (rest.length + 1) from_ rest.dropLast to_ with
      | none => none
      | some r => some (from_ :: r.1 ++ [to_], r.2)

/-! ## Chain builder -/

/-- The two directions of growth: step 1 pushes points at the front of the
chain, step 3 appends them at the end. -/
inductive Side where
  | left
  | right
deriving DecidableEq

/-- The point function a growth step of the given side calls. -/
def addPoint (E : Extern) (side : Side) (pool : Nat) (rlc : LANPR_RenderLineChain)
    (x y : ℚ) (type : Nat) (level : Int) : Nat × LANPR_RenderLineChain :=
  match side with
  | Side.left => lanpr_push_render_line_chain_point E pool rlc x y type level
  | Side.right => lanpr_append_render_line_chain_point E pool rlc x y type level

/-- The ghost update of `picked` when a growth step consumes the line `p`. -/
def notePicked (side : Side) (p : Nat) (rlc : LANPR_RenderLineChain) : LANPR_RenderLineChain :=
  match side with
  | Side.left => { rlc with picked := p :: rlc.picked }
  | Side.right => { rlc with picked := rlc.picked ++ [p] }

/-- A loop that adds, for each segment of the list in turn, the point of
`new_rl` at the segment's `at` with the segment's own occlusion level: lines
169-174 and 212-217 (there the list is `Segments` from `pLast` backwards) and
lines 193-198 (the segments after the first). -/
def emitOwnLevel (E : Extern) (side : Side) (new_rl : LANPR_RenderLine) :
    List LANPR_RenderLineSegment → Nat → LANPR_RenderLineChain → Nat × LANPR_RenderLineChain
  | [], pool, rlc => (pool, rlc)
  | rls :: rest, pool, rlc =>
    let px := tnsLinearItp new_rl.L.FrameBufferCoord.1 new_rl.R.FrameBufferCoord.1 rls.at_
    let py := tnsLinearItp new_rl.L.FrameBufferCoord.2 new_rl.R.FrameBufferCoord.2 rls.at_
    let r := addPoint E side pool rlc px py new_rl.Flags rls.OccludeLevel
    emitOwnLevel E side new_rl rest r.1 r.2

/-- The loop of lines 179-186 and 222-229, with the point added after it: each
segment after the first gives a point with the occlusion level of the segment
before it, and the `R` position comes last. -/
def emitLastLevel (E : Extern) (side : Side) (new_rl : LANPR_RenderLine) :
    List LANPR_RenderLineSegment → Int → Nat → LANPR_RenderLineChain →
      Nat × LANPR_RenderLineChain
  | [], last_occlude, pool, rlc =>
    addPoint E side pool rlc new_rl.R.FrameBufferCoord.1 new_rl.R.FrameBufferCoord.2
      new_rl.Flags last_occlude
  | rls :: rest, last_occlude, pool, rlc =>
    let px := tnsLinearItp new_rl.L.FrameBufferCoord.1 new_rl.R.FrameBufferCoord.1 rls.at_
    let py := tnsLinearItp new_rl.L.FrameBufferCoord.2 new_rl.R.FrameBufferCoord.2 rls.at_
    let r := addPoint E side pool rlc px py new_rl.Flags last_occlude
    emitLastLevel E side new_rl rest rls.OccludeLevel r.1 r.2

/-- The body of a growth step after the line is marked (lines 168-187 and
211-230): the points of `new_rl` are added according to the end `new_rv` that
was reached.  With no segment, `rls->OccludeLevel` at line 177 reads through a
null pointer. -/
def emitLine (E : Extern) (side : Side) (new_rl : LANPR_RenderLine) (new_rv : LANPR_RenderVert)
    (pool : Nat) (rlc : LANPR_RenderLineChain) : Option (Nat × LANPR_RenderLineChain) :=
  if new_rv = new_rl.L then
    some (emitOwnLevel E side new_rl new_rl.Segments.reverse pool rlc)
  else if new_rv = new_rl.R then
    match new_rl.Segments with
    | [] => none
    | rls :: rest => some (emitLastLevel E side new_rl rest rls.OccludeLevel pool rlc)
  else some (pool, rlc)

/-- Setting `LANPR_EDGE_FLAG_CHAIN_PICKED` in the flags of a line. -/
def markPicked (E : Extern) (rl : LANPR_RenderLine) : LANPR_RenderLine :=
  { rl with Flags := rl.Flags ||| E.LANPR_EDGE_FLAG_CHAIN_PICKED }

/-- The `while` loops of lines 163-189 (`Side.left`) and 206-232
(`Side.right`).  `ba` and `new_rv` are the variables of the source, `rb`
holds the lines and the pool, `rlc` is the chain being built. -/
def growLoop (E : Extern) (side : Side) :
    Nat → LANPR_RenderBuffer → Option LANPR_BoundingArea → LANPR_RenderVert →
      LANPR_RenderLineChain → Option (LANPR_RenderBuffer × LANPR_RenderLineChain)
  | 0, _, _, _, _ => none
  | fuel + 1, rb, ba, new_rv, rlc =>
    match ba with
    | none => some (rb, rlc)
    | some area =>
      match lanpr_GetConnectedRenderLine E rb.AllRenderLines area new_rv with
      | none => some (rb, rlc)
      | some (p, nrl, rv) =>
        let new_rl := markPicked E nrl
        match emitLine E side new_rl rv rb.RenderDataPool (notePicked side p rlc) with
        | none => none
        | some r =>
          let rb1 : LANPR_RenderBuffer :=
            { rb with AllRenderLines := rb.AllRenderLines.set p new_rl, RenderDataPool := r.1 }
          growLoop E side fuel rb1
            (lanpr_GetPointBoundingArea rb1 rv.FrameBufferCoord.1 rv.FrameBufferCoord.2)
            rv r.2

/-- The body of the loop of `lanpr_ChainFeatureLines_NO_THREAD` up to the call
of the simplifier (lines 151-232), for the line `rl` at position `p`.  The
chain, which the source appends to `rb->Chains` when it is created, is
returned beside the buffer. -/
def buildChain (E : Extern) (rb : LANPR_RenderBuffer) (p : Nat) (rl0 : LANPR_RenderLine) :
    Option (LANPR_RenderBuffer × LANPR_RenderLineChain) :=
  let rl := markPicked E rl0
  let fuel := rb.AllRenderLines.length + 1
  -- lanpr_create_render_line_chain
  let rb1 : LANPR_RenderBuffer :=
    { rb with AllRenderLines := rb.AllRenderLines.set p rl,
              RenderDataPool := rb.RenderDataPool + 1 }
  let rlc0 : LANPR_RenderLineChain := { Chain := [], picked := [p], raw := [] }
  -- step 1: grow left
  let ba := lanpr_GetPointBoundingArea rb1 rl.L.FrameBufferCoord.1 rl.L.FrameBufferCoord.2
  let r1 := lanpr_push_render_line_chain_point E rb1.RenderDataPool rlc0
    rl.L.FrameBufferCoord.1 rl.L.FrameBufferCoord.2 rl.Flags 0
  match growLoop E Side.left fuel { rb1 with RenderDataPool := r1.1 } ba rl.L r1.2 with
  | none => none
  | some (rb2, rlc2) =>
    -- step 2: this line
    match rl.Segments with
    | [] => none
    | _ :: rest =>
      let r2 := emitOwnLevel E Side.right rl rest rb2.RenderDataPool rlc2
      let r3 := lanpr_append_render_line_chain_point E r2.1 r2.2
        rl.R.FrameBufferCoord.1 rl.R.FrameBufferCoord.2 rl.Flags 0
      -- step 3: grow right
      let rb3 : LANPR_RenderBuffer := { rb2 with RenderDataPool := r3.1 }
      let ba3 := lanpr_GetPointBoundingArea rb3 rl.R.FrameBufferCoord.1 rl.R.FrameBufferCoord.2
      growLoop E Side.right fuel rb3 ba3 rl.R r3.2

/-- The loop of `lanpr_ChainFeatureLines_NO_THREAD` over the positions still
to visit in `rb->AllRenderLines`. -/
def chainLoop (E : Extern) (dist_threshold : ℚ) :
    List Nat → LANPR_RenderBuffer → Option LANPR_RenderBuffer
  | [], rb => some rb
  | p :: rest, rb =>
    match rb.AllRenderLines[p]? with
    | none => some rb
    | some rl =>
      if notPickable E rl then chainLoop E dist_threshold rest rb
      else
        match buildChain E rb p rl with
        | none => none
        | some (rb1, rlc) =>
          match lanpr_reduce_render_line_chain_recursive E dist_threshold rlc.Chain with
          | none => none
          | some r =>
            chainLoop E dist_threshold rest
              { rb1 with Chains := rb1.Chains ++ [{ rlc with Chain := r.1, raw := rlc.Chain }] }

/-- `lanpr_ChainFeatureLines_NO_THREAD(rb, dist_threshold)`. -/
def lanpr_ChainFeatureLines_NO_THREAD (E : Extern) (rb : LANPR_RenderBuffer)
    (dist_threshold : ℚ) : Option LANPR_RenderBuffer :=
  chainLoop E dist_threshold (List.range rb.AllRenderLines.length) rb

/-! ## Lengths and draw command -/

/-- The loop of `lanpr_CountChain`. -/
def countLoop : List LANPR_RenderLineChainItem → Nat → Nat
  | [], Count => Count
  | _ :: rest, Count => countLoop rest (Count + 1)

/-- `lanpr_CountChain(rlc)`. -/
def lanpr_CountChain (rlc : LANPR_RenderLineChain) : Nat :=
  countLoop rlc.Chain 0

/-- The loop of `lanpr_ComputeChainLength` (lines 263-269) over the items still
to visit; the state is `i`, `offset_accum`, `last_point` and the array. -/
def chainLengthLoop (E : Extern) (begin_index : Nat) :
    List LANPR_RenderLineChainItem → Nat → ℚ → Pos → List ℚ → ℚ × List ℚ
  | [], _, offset_accum, _, lengths => (offset_accum, lengths)
  | rlci :: rest, i, offset_accum, last_point, lengths =>
    let dist := E.len_v2v2 rlci.pos last_point
    let acc := offset_accum + dist
    chainLengthLoop E begin_index rest (i + 1) acc rlci.pos (lengths.set (begin_index + i) acc)

/-- `lanpr_ComputeChainLength(rlc, lengths, begin_index)`: the value returned
and the array after the call.  On an empty chain `rlci->pos` at line 262 reads
through a null pointer. -/
def lanpr_ComputeChainLength (E : Extern) (rlc : LANPR_RenderLineChain) (lengths : List ℚ)
    (begin_index : Nat) : Option (ℚ × List ℚ) :=
  match rlc.Chain with
  | [] => none
  | rlci :: _ => some (chainLengthLoop E begin_index rlc.Chain 0 0 rlci.pos lengths)

/-- One vertex of the buffer with the four attributes of `format`; `none` is
an attribute that was allocated and never set. -/
structure ChainVert where
  pos : Option Pos
  uvs : Option Pos
  type : Option Int
  level : Option Int
deriving DecidableEq

/-- Modelled from the spec: `GWN_vertbuf_attr_set(vbo, attr_id.pos, i, data)`
is not defined in the file; it stores the two floats in the attribute `pos`
of vertex `i`. -/
def attrSetPos (vbo : List ChainVert) (i : Nat) (data : Pos) : List ChainVert :=
  match vbo[i]? with
  | none => vbo
  | some v => vbo.set i { v with pos := some data }

/-- Modelled from the spec: `GWN_vertbuf_attr_set(vbo, attr_id.offset, i, data)`
is not defined in the file; it stores the two floats in the attribute `uvs`
of vertex `i`. -/
def attrSetUvs (vbo : List ChainVert) (i : Nat) (data : Pos) : List ChainVert :=
  match vbo[i]? with
  | none => vbo
  | some v => vbo.set i { v with uvs := some data }

/-- The batch built at line 346: the vertex buffer and the primitives added
to the index buffer, each one call of `GWN_indexbuf_add_line_adj_verts`. -/
structure ChainDrawBatch where
  vbo : List ChainVert
  elb : List (Nat × Nat × Nat × Nat)
deriving DecidableEq

/-- The inner loop of `lanpr_ChainGenerateDrawCommand` (lines 310-337) over the
items still to visit of a chain of `n` items; `k` is the position of the head
in the chain, so `rlci == pLast` is `k + 1 = n`, `rlci == pFirst` is `k = 0`,
`rlci->pPrev == pFirst` is `k = 1` and `rlci->pNext == pLast` is `k + 2 = n`. -/
def drawItemsLoop (vert_count : Nat) (total_length : ℚ) (lengths : List ℚ) (n : Nat) :
    List LANPR_RenderLineChainItem → Nat → Nat → List ChainVert →
      List (Nat × Nat × Nat × Nat) → Nat × List ChainVert × List (Nat × Nat × Nat × Nat)
  | [], _, i, vbo, elb => (i, vbo, elb)
  | rlci :: rest, k, i, vbo, elb =>
    let length_target : Pos := (lengths.getD i 0, total_length - lengths.getD i 0)
    let vbo1 := attrSetUvs (attrSetPos vbo i rlci.pos) i length_target
    if k + 1 = n then
      let vbo2 := if k = 1 then attrSetUvs vbo1 i (length_target.1, total_length) else vbo1
      drawItemsLoop vert_count total_length lengths n rest (k + 1) (i + 1) vbo2 elb
    else
      let prim : Nat × Nat × Nat × Nat :=
        if k = 0 then
          if k + 2 = n then (vert_count, i, i + 1, vert_count)
          else (vert_count, i, i + 1, i + 2)
        else
          if k + 2 = n then (i - 1, i, i + 1, vert_count)
          else (i - 1, i, i + 1, i + 2)
      drawItemsLoop vert_count total_length lengths n rest (k + 1) (i + 1) vbo1 (elb ++ [prim])

/-- The loop of lines 306-338 over the chains still to visit. -/
def drawChainsLoop (E : Extern) (vert_count : Nat) :
    List LANPR_RenderLineChain → Nat → List ℚ → List ChainVert →
      List (Nat × Nat × Nat × Nat) →
      Option (Nat × List ℚ × List ChainVert × List (Nat × Nat × Nat × Nat))
  | [], i, lengths, vbo, elb => some (i, lengths, vbo, elb)
  | rlc :: rest, i, lengths, vbo, elb =>
    match lanpr_ComputeChainLength E rlc lengths i with
    | none => none
    | some (total_length, lengths1) =>
      let r := drawItemsLoop vert_count total_length lengths1 rlc.Chain.length rlc.Chain 0 i
        vbo elb
      drawChainsLoop E vert_count rest r.1 lengths1 r.2.1 r.2.2

/-- The loop of lines 293-297. -/
def vertCountLoop : List LANPR_RenderLineChain → Nat → Nat
  | [], vert_count => vert_count
  | rlc :: rest, vert_count => vertCountLoop rest (vert_count + lanpr_CountChain rlc)

/-- A vertex as `GWN_vertbuf_data_alloc` leaves it. -/
def unsetVert : ChainVert := { pos := none, uvs := none, type := none, level := none }

/-- `lanpr_ChainGenerateDrawCommand(rb)`: the batch stored in
`rb->ChainDrawBatch`. -/
def lanpr_ChainGenerateDrawCommand (E : Extern) (rb : LANPR_RenderBuffer) :
    Option ChainDrawBatch :=
  let vert_count := vertCountLoop rb.Chains 0
  let vbo := List.replicate (vert_count + 1) unsetVert
  let lengths : List ℚ := List.replicate vert_count 0
  match drawChainsLoop E vert_count rb.Chains 0 lengths vbo [] with
  | none => none
  | some r =>
    some { vbo := attrSetPos r.2.2.1 vert_count (3 * 10 ^ 30, 3 * 10 ^ 30), elb := r.2.2.2 }

/-! ## The external parts, for worked examples -/

/-- Modelled from the spec: `sqrtf` of the C library, as the Euclidean
lengths of the spec need it.  The value is exact when the argument is the
square of a rational; otherwise the roots of numerator and denominator are
rounded down. -/
def sqrtf (q : ℚ) : ℚ := (Nat.sqrt q.num.toNat : ℚ) / (Nat.sqrt q.den : ℚ)

/-- Modelled from the spec: `len_v2v2` of `BLI_math` is not defined in the
file; the spec has "cumulative Euclidean arc length", the length of the
difference of the two points. -/
def len_v2v2 (a b : Pos) : ℚ :=
  sqrtf ((a.1 - b.1) ^ 2 + (a.2 - b.2) ^ 2)

/-- Modelled from the spec: the point of the segment `l1 l2` closest to `p`,
by "the standard point-to-segment formula in 2D": the projection on the line,
clamped to the segment. -/
def closest_to_line_segment_v2 (p l1 l2 : Pos) : Pos :=
  let u : Pos := (l2.1 - l1.1, l2.2 - l1.2)
  let h : Pos := (p.1 - l1.1, p.2 - l1.2)
  let lam := (u.1 * h.1 + u.2 * h.2) / (u.1 * u.1 + u.2 * u.2)
  if lam ≤ 0 then l1
  else if 1 ≤ lam then l2
  else (l1.1 + u.1 * lam, l1.2 + u.2 * lam)

/-- Modelled from the spec: `dist_to_line_segment_v2` of `BLI_math` is not
defined in the file; the spec has "perpendicular distance via standard
point-to-segment formula in 2D". -/
def dist_to_line_segment_v2 (p l1 l2 : Pos) : ℚ :=
  len_v2v2 (closest_to_line_segment_v2 p l1 l2) p

/-- The external parts as the worked examples take them: one bit per feature
type in the six low bits, of which bit 4 marks an intersection line, the
chain-picked marker in bit 6, a pool that hands out zero-filled blocks, and
the two distances above. -/
def exampleExtern : Extern :=
  { LANPR_EDGE_FLAG_ALL_TYPE := 0x3f
    LANPR_EDGE_FLAG_CHAIN_PICKED := 0x40
    LANPR_EDGE_FLAG_INTERSECTION := 0x10
    memStaticAquire := fun _ => { pos := (0, 0), LineType := 0, OccludeLevel := 0 }
    dist_to_line_segment_v2 := dist_to_line_segment_v2
    len_v2v2 := len_v2v2 }

/-- A chain of three points on a line, of one type and level. -/
def exampleChain : LANPR_RenderLineChain :=
  { Chain := [{ pos := (0, 0), LineType := 2, OccludeLevel := 0 },
              { pos := (1, 0), LineType := 2, OccludeLevel := 0 },
              { pos := (2, 0), LineType := 2, OccludeLevel := 0 }]
    picked := [0, 1]
    raw := [] }

/-- A buffer that holds the chain above and nothing else. -/
def exampleDrawBuffer : LANPR_RenderBuffer :=
  { AllRenderLines := []
    Chains := [exampleChain]
    RenderDataPool := 0
    BoundingAreas := fun _ _ => none }

/-- Five points: `(1,0)` and `(3,0)` lie on the segment from `(0,0)` to
`(4,0)`, `(0,3)` lies off it, and the line type changes after `(0,3)`. -/
def bentChain : List LANPR_RenderLineChainItem :=
  [{ pos := (0, 0), LineType := 2, OccludeLevel := 0 },
   { pos := (1, 0), LineType := 2, OccludeLevel := 0 },
   { pos := (0, 3), LineType := 2, OccludeLevel := 0 },
   { pos := (3, 0), LineType := 4, OccludeLevel := 0 },
   { pos := (4, 0), LineType := 4, OccludeLevel := 0 }]

/-- Two lines that meet at `(1,0)`: the first a contour line (type bit 1), the
second a crease line (type bit 2); each has one segment, and one cell of the
spatial index holds both. -/
def mixedBuffer : LANPR_RenderBuffer :=
  { AllRenderLines :=
      [{ L := { addr := 0, FrameBufferCoord := (0, 0) },
         R := { addr := 1, FrameBufferCoord := (1, 0) },
         Flags := 2, Segments := [{ at_ := 0, OccludeLevel := 0 }] },
       { L := { addr := 1, FrameBufferCoord := (1, 0) },
         R := { addr := 2, FrameBufferCoord := (2, 0) },
         Flags := 4, Segments := [{ at_ := 0, OccludeLevel := 0 }] }]
    Chains := []
    RenderDataPool := 0
    BoundingAreas := fun _ _ => some { LinkedLines := [0, 1] } }

/-- Three contour lines that leave the vertex at `(0,0)`, towards `(3,0)`,
`(0,4)` and `(-1,0)`; each has one segment, and one cell of the spatial index
holds the three. -/
def starBuffer : LANPR_RenderBuffer :=
  { AllRenderLines :=
      [{ L := { addr := 0, FrameBufferCoord := (0, 0) },
         R := { addr := 1, FrameBufferCoord := (3, 0) },
         Flags := 2, Segments := [{ at_ := 0, OccludeLevel := 0 }] },
       { L := { addr := 0, FrameBufferCoord := (0, 0) },
         R := { addr := 2, FrameBufferCoord := (0, 4) },
         Flags := 2, Segments := [{ at_ := 0, OccludeLevel := 0 }] },
       { L := { addr := 0, FrameBufferCoord := (0, 0) },
         R := { addr := 3, FrameBufferCoord := (-1, 0) },
         Flags := 2, Segments := [{ at_ := 0, OccludeLevel := 0 }] }]
    Chains := []
    RenderDataPool := 0
    BoundingAreas := fun _ _ => some { LinkedLines := [0, 1, 2] } }

/-- A line from `(0,0)` to `(2,0)` with two segments, at 0 and at 1/2. -/
def twoSegmentLine : LANPR_RenderLine :=
  { L := { addr := 0, FrameBufferCoord := (0, 0) }
    R := { addr := 1, FrameBufferCoord := (2, 0) }
    Flags := 2
    Segments := [{ at_ := 0, OccludeLevel := 0 }, { at_ := 1 / 2, OccludeLevel := 1 }] }

/-- A buffer with no line and no chain. -/
def emptyBuffer : LANPR_RenderBuffer :=
  { AllRenderLines := []
    Chains := []
    RenderDataPool := 0
    BoundingAreas := fun _ _ => none }

/-- Three points on a line, of one type and level. -/
def straightChain : List LANPR_RenderLineChainItem :=
  [{ pos := (0, 0), LineType := 2, OccludeLevel := 0 },
   { pos := (1, 0), LineType := 2, OccludeLevel := 0 },
   { pos := (2, 0), LineType := 2, OccludeLevel := 0 }]

/-- A buffer that holds one chain of two points, `(0,0)` and `(3,4)`. -/
def twoPointBuffer : LANPR_RenderBuffer :=
  { AllRenderLines := []
    Chains := [{ Chain := [{ pos := (0, 0), LineType := 2, OccludeLevel := 0 },
                           { pos := (3, 4), LineType := 2, OccludeLevel := 0 }]
                 picked := [0]
                 raw := [] }]
    RenderDataPool := 0
    BoundingAreas := fun _ _ => none }

/-- Two contour lines that meet at the vertex `(1,0)`: from `(0,0)` to `(1,0)`
and from `(1,0)` to `(2,0)`; each has one segment, and one cell of the spatial
index holds both. -/
def twoLineBuffer : LANPR_RenderBuffer :=
  { AllRenderLines :=
      [{ L := { addr := 0, FrameBufferCoord := (0, 0) },
         R := { addr := 1, FrameBufferCoord := (1, 0) },
         Flags := 2, Segments := [{ at_ := 0, OccludeLevel := 0 }] },
       { L := { addr := 1, FrameBufferCoord := (1, 0) },
         R := { addr := 2, FrameBufferCoord := (2, 0) },
         Flags := 2, Segments := [{ at_ := 0, OccludeLevel := 0 }] }]
    Chains := []
    RenderDataPool := 0
    BoundingAreas := fun _ _ => some { LinkedLines := [0, 1] } }

/-- A contour line from `(0,0)` to `(1,0)` and, from its `R` vertex on, a line
to `(2,0)` that has no feature-type bit; one cell holds both. -/
def untypedBuffer : LANPR_RenderBuffer :=
  { AllRenderLines :=
      [{ L := { addr := 0, FrameBufferCoord := (0, 0) },
         R := { addr := 1, FrameBufferCoord := (1, 0) },
         Flags := 2, Segments := [{ at_ := 0, OccludeLevel := 0 }] },
       { L := { addr := 1, FrameBufferCoord := (1, 0) },
         R := { addr := 2, FrameBufferCoord := (2, 0) },
         Flags := 0, Segments := [{ at_ := 0, OccludeLevel := 0 }] }]
    Chains := []
    RenderDataPool := 0
    BoundingAreas := fun _ _ => some { LinkedLines := [0, 1] } }

/-- A contour line from `(0,0)` to `(1,1)` with one segment. -/
def isolatedLine : LANPR_RenderLine :=
  { L := { addr := 0, FrameBufferCoord := (0, 0) }
    R := { addr := 1, FrameBufferCoord := (1, 1) }
    Flags := 2
    Segments := [{ at_ := 0, OccludeLevel := 0 }] }

/-- The line above alone in a buffer and in its cell. -/
def isolatedBuffer : LANPR_RenderBuffer :=
  { AllRenderLines := [isolatedLine]
    Chains := []
    RenderDataPool := 0
    BoundingAreas := fun _ _ => some { LinkedLines := [0] } }

/-- An intersection line `X` from `(1,0)` to `(1,1)` and a contour line `A`
from `(0,0)` to `(1,0)`: the `L` end of `X` and the `R` end of `A` are at the
same position and are two vertices.  `X` comes first; one cell holds both. -/
def crossBuffer : LANPR_RenderBuffer :=
  { AllRenderLines :=
      [{ L := { addr := 2, FrameBufferCoord := (1, 0) },
         R := { addr := 3, FrameBufferCoord := (1, 1) },
         Flags := 16, Segments := [{ at_ := 0, OccludeLevel := 0 }] },
       { L := { addr := 0, FrameBufferCoord := (0, 0) },
         R := { addr := 1, FrameBufferCoord := (1, 0) },
         Flags := 2, Segments := [{ at_ := 0, OccludeLevel := 0 }] }]
    Chains := []
    RenderDataPool := 0
    BoundingAreas := fun _ _ => some { LinkedLines := [0, 1] } }

/-- The two lines of `crossBuffer` in the other order: `A` comes first. -/
def crossBufferSwapped : LANPR_RenderBuffer :=
  { AllRenderLines :=
      [{ L := { addr := 0, FrameBufferCoord := (0, 0) },
         R := { addr := 1, FrameBufferCoord := (1, 0) },
         Flags := 2, Segments := [{ at_ := 0, OccludeLevel := 0 }] },
       { L := { addr := 2, FrameBufferCoord := (1, 0) },
         R := { addr := 3, FrameBufferCoord := (1, 1) },
         Flags := 16, Segments := [{ at_ := 0, OccludeLevel := 0 }] }]
    Chains := []
    RenderDataPool := 0
    BoundingAreas := fun _ _ => some { LinkedLines := [0, 1] } }

/-! ## Definitions used to state the properties -/

/-- The values `offset_accum` takes along the items: the running sums. -/
def runningLengths (E : Extern) :
    List LANPR_RenderLineChainItem → ℚ → Pos → List ℚ
  | [], _, _ => []
  | rlci :: rest, acc, last_point =>
    (acc + E.len_v2v2 rlci.pos last_point) ::
      runningLengths E rest (acc + E.len_v2v2 rlci.pos last_point) rlci.pos

/-- The number of vertices of a list of chains. -/
def chainsCount (cs : List LANPR_RenderLineChain) : Nat :=
  (cs.map fun c => lanpr_CountChain c).sum

/-- The vertex the packer leaves for an item: position and distance pair set,
the other attributes as they were. -/
def packVert (v : ChainVert) (p : Pos) (u : Pos) : ChainVert :=
  { v with pos := some p, uvs := some u }

/-- The distance pair left for the item at position `k` of a chain of `n`
items, `l` being the entry of `lengths` read for it. -/
def uvsOf (total_length : ℚ) (n k : Nat) (l : ℚ) : Pos :=
  (l, if k + 1 = n ∧ k = 1 then total_length else total_length - l)

/-- The vertex buffer after the inner loop handled one item. -/
def headVbo (t : ℚ) (lengths : List ℚ) (n k i : Nat) (p : Pos) (vbo : List ChainVert) :
    List ChainVert :=
  if k + 1 = n ∧ k = 1 then
    attrSetUvs (attrSetUvs (attrSetPos vbo i p) i (lengths.getD i 0, t - lengths.getD i 0)) i
      (lengths.getD i 0, t)
  else attrSetUvs (attrSetPos vbo i p) i (lengths.getD i 0, t - lengths.getD i 0)

/-- The primitive added for the item at position `k`, which is not the last. -/
def primOf (vc n k i : Nat) : Nat × Nat × Nat × Nat :=
  if k = 0 then
    if k + 2 = n then (vc, i, i + 1, vc) else (vc, i, i + 1, i + 2)
  else
    if k + 2 = n then (i - 1, i, i + 1, vc) else (i - 1, i, i + 1, i + 2)

/-- The primitives after the inner loop handled one item. -/
def headElb (vc n k i : Nat) (elb : List (Nat × Nat × Nat × Nat)) :
    List (Nat × Nat × Nat × Nat) :=
  if k + 1 = n then elb else elb ++ [primOf vc n k i]

/-- All four indices of a primitive are at most `vc`. -/
def primBounded (vc : Nat) (q : Nat × Nat × Nat × Nat) : Prop :=
  q.1 ≤ vc ∧ q.2.1 ≤ vc ∧ q.2.2.1 ≤ vc ∧ q.2.2.2 ≤ vc

/-- The running lengths of a chain as `lanpr_ComputeChainLength` starts them:
from zero, with the first point as the point before. -/
def chainRunning (E : Extern) (chain : List LANPR_RenderLineChainItem) : List ℚ :=
  match chain with
  | [] => []
  | x :: _ => runningLengths E chain 0 x.pos

/-- The interior items of a range that precede a change of occlusion level
or of line type, in order; `to_` follows the last interior item. -/
def breakItems (to_ : LANPR_RenderLineChainItem) :
    List LANPR_RenderLineChainItem → List LANPR_RenderLineChainItem
  | [] => []
  | x :: rest =>
    if (nextOf rest to_).OccludeLevel ≠ x.OccludeLevel ∨ (nextOf rest to_).LineType ≠ x.LineType
    then x :: breakItems to_ rest
    else breakItems to_ rest

/-- The positions of the chain as seen from the growing side: the point at
the frontier comes first. -/
def viewPts (side : Side) (rlc : LANPR_RenderLineChain) : List Pos :=
  match side with
  | Side.left => rlc.Chain.map fun c => c.pos
  | Side.right => (rlc.Chain.map fun c => c.pos).reverse

/-- The lines of the chain as seen from the growing side: the line at the
frontier comes first. -/
def viewPicked (side : Side) (rlc : LANPR_RenderLineChain) : List Nat :=
  match side with
  | Side.left => rlc.picked
  | Side.right => rlc.picked.reverse

/-- A line with exactly one segment, at `at = 0`. -/
def SingleSeg (l : LANPR_RenderLine) : Prop :=
  ∃ o, l.Segments = [{ at_ := 0, OccludeLevel := o }]

/-- Two lines have an end at the same position. -/
def touches (l l' : LANPR_RenderLine) : Prop :=
  l.L.FrameBufferCoord = l'.L.FrameBufferCoord ∨ l.L.FrameBufferCoord = l'.R.FrameBufferCoord ∨
  l.R.FrameBufferCoord = l'.L.FrameBufferCoord ∨ l.R.FrameBufferCoord = l'.R.FrameBufferCoord

/-- The lines at positions `p` and `q` have an end at the same position. -/
def touch (lines : List LANPR_RenderLine) (p q : Nat) : Prop :=
  ∃ l l', lines[p]? = some l ∧ lines[q]? = some l' ∧ touches l l'

/-- The two positions are those of the two ends of the line at position `p`. -/
def Joins (lines : List LANPR_RenderLine) (p : Nat) (q q' : Pos) : Prop :=
  ∃ l, lines[p]? = some l ∧
    ((q = l.L.FrameBufferCoord ∧ q' = l.R.FrameBufferCoord) ∨
      (q = l.R.FrameBufferCoord ∧ q' = l.L.FrameBufferCoord))

/-- The points are one more than the lines, and each pair of consecutive
points is the pair of ends of the line of the same rank. -/
def IsWalk (lines : List LANPR_RenderLine) : List Pos → List Nat → Prop
  | [_], [] => True
  | q :: q' :: pts, p :: ps => Joins lines p q q' ∧ IsWalk lines (q' :: pts) ps
  | _, _ => False

/-- The lines of the buffer are the lines at the start with exactly the lines
of `consumed` marked, each of them once and eligible at the start. -/
structure Core (E : Extern) (lines0 lines : List LANPR_RenderLine) (consumed : List Nat) :
    Prop where
  len : lines.length = lines0.length
  nodup : consumed.Nodup
  marked : ∀ i ∈ consumed, ∃ l0, lines0[i]? = some l0 ∧ notPickable E l0 = false ∧
    lines[i]? = some (markPicked E l0)
  rest : ∀ i, i ∉ consumed → lines[i]? = lines0[i]?

/-- The lines consumed into a list of chains. -/
def consumedBy (cs : List LANPR_RenderLineChain) : List Nat :=
  cs.flatMap fun c => c.picked

/-- The state of a growth loop: `done` are the chains finished before, `rv`
the frontier vertex, `rlc` the chain being built, `pend` the lines consumed
whose points are not in the chain yet and `anchor` the point of the chain
farthest from the frontier. -/
structure Grow (E : Extern) (lines0 : List LANPR_RenderLine) (done : List LANPR_RenderLineChain)
    (side : Side) (pend : List Nat) (anchor : Pos)
    (rb : LANPR_RenderBuffer) (rv : LANPR_RenderVert) (rlc : LANPR_RenderLineChain) : Prop where
  core : Core E lines0 rb.AllRenderLines (consumedBy done ++ rlc.picked)
  front : ∃ p l0, (viewPicked side rlc).head? = some p ∧ lines0[p]? = some l0 ∧
    (rv = l0.L ∨ rv = l0.R)
  linked : List.Chain' (touch lines0) (viewPicked side rlc)
  walk : ∃ w, viewPicked side rlc = w ++ pend ∧
    ((∀ l ∈ lines0, SingleSeg l) → IsWalk lines0 (viewPts side rlc) w ∧
      (viewPts side rlc).head? = some rv.FrameBufferCoord ∧
      (viewPts side rlc).getLast? = some anchor)

/-- What holds of each chain the builder adds: it has consumed a line, its
consecutive lines have an end at the same position, `Chain` is what the
simplifier made of `raw`, both have two items at least, and when every line
has one segment at 0 the points of `raw` walk along the lines consumed. -/
structure GoodChain (E : Extern) (tol : ℚ) (lines0 : List LANPR_RenderLine)
    (c : LANPR_RenderLineChain) : Prop where
  nonempty : c.picked ≠ []
  linked : List.Chain' (touch lines0) c.picked
  raw_two : 2 ≤ c.raw.length
  chain_two : 2 ≤ c.Chain.length
  reduced : ∃ log, lanpr_reduce_render_line_chain_recursive E tol c.raw = some (c.Chain, log)
  walk : (∀ l ∈ lines0, SingleSeg l) →
    IsWalk lines0 (c.raw.map fun (i : LANPR_RenderLineChainItem) => i.pos) c.picked

/-- The connection rule in the words of the spec: the candidate is reached at
the vertex `rv` when `rv` is its `L` or its `R`, or when the candidate is
flagged as an intersection line and the two coordinates of `rv` are those of
its `L` or those of its `R`. -/
def connectsAt (E : Extern) (nrl : LANPR_RenderLine) (rv : LANPR_RenderVert) : Bool :=
  decide (rv = nrl.L) || decide (rv = nrl.R) ||
    (decide (nrl.Flags &&& E.LANPR_EDGE_FLAG_INTERSECTION ≠ 0) &&
      (decide (rv.FrameBufferCoord.1 = nrl.L.FrameBufferCoord.1 ∧
          rv.FrameBufferCoord.2 = nrl.L.FrameBufferCoord.2) ||
        decide (rv.FrameBufferCoord.1 = nrl.R.FrameBufferCoord.1 ∧
          rv.FrameBufferCoord.2 = nrl.R.FrameBufferCoord.2)))

/-- The end of the candidate opposite to the end matched by `rv`: the match
with `L` (the vertex, else the coordinates) is tried before the match with `R`. -/
def oppositeEnd (nrl : LANPR_RenderLine) (rv : LANPR_RenderVert) : LANPR_RenderVert :=
  if rv = nrl.L then nrl.R
  else if rv = nrl.R then nrl.L
  else if rv.FrameBufferCoord.1 = nrl.L.FrameBufferCoord.1 ∧
      rv.FrameBufferCoord.2 = nrl.L.FrameBufferCoord.2 then nrl.R
  else nrl.L

/-- The entry `lip` of a cell is the position of a line that has a
feature-type bit, is not picked, and is reached at `rv`. -/
def isMatch (E : Extern) (lines : List LANPR_RenderLine) (rv : LANPR_RenderVert) (lip : Nat) :
    Bool :=
  match lines[lip]? with
  | none => false
  | some nrl => !notPickable E nrl && connectsAt E nrl rv

/-- The point of a line at a segment: the interpolation of the two ends at
the segment's `at`. -/
def segPoint (nrl : LANPR_RenderLine) (rls : LANPR_RenderLineSegment) : Pos :=
  (tnsLinearItp nrl.L.FrameBufferCoord.1 nrl.R.FrameBufferCoord.1 rls.at_,
   tnsLinearItp nrl.L.FrameBufferCoord.2 nrl.R.FrameBufferCoord.2 rls.at_)

/-- The adjacency primitive of rank `k` of a chain of `n` points whose first
vertex has index `b`, in the words of the spec: previous, current, next and
next-next, the sentinel index `vc` standing for a neighbour that is missing. -/
def primAt (vc b n k : Nat) : Nat × Nat × Nat × Nat :=
  (if k = 0 then vc else b + k - 1, b + k, b + k + 1, if k + 2 = n then vc else b + k + 2)

/-- The `n - 1` primitives of a chain of `n` points whose first vertex has
index `b`, in order. -/
def chainPrims (vc b n : Nat) : List (Nat × Nat × Nat × Nat) :=
  (List.range (n - 1)).map (primAt vc b n)

/-- The primitives of a list of chains, the first of which starts at vertex
index `b`. -/
def allPrims (vc : Nat) : List LANPR_RenderLineChain → Nat → List (Nat × Nat × Nat × Nat)
  | [], _ => []
  | c :: cs, b => chainPrims vc b c.Chain.length ++ allPrims vc cs (b + c.Chain.length)

/-- The candidates of a range: the interior items whose successor has the
same occlusion level and the same line type, in order; `to_` follows the last
interior item. -/
def candItems (to_ : LANPR_RenderLineChainItem) :
    List LANPR_RenderLineChainItem → List LANPR_RenderLineChainItem
  | [] => []
  | x :: rest =>
    if (nextOf rest to_).OccludeLevel ≠ x.OccludeLevel ∨ (nextOf rest to_).LineType ≠ x.LineType
    then candItems to_ rest
    else x :: candItems to_ rest

/-- The distances between consecutive points of a chain, in order:
`|p_1 - p_0|`, `|p_2 - p_1|`, and so on. -/
def segLens (E : Extern) : List LANPR_RenderLineChainItem → List ℚ
  | a :: b :: rest => E.len_v2v2 b.pos a.pos :: segLens E (b :: rest)
  | _ => []

/-- The arc length up to the point of rank `k`: the sum over `j = 1 .. k` of
`|p_j - p_(j-1)|`. -/
def arcLength (E : Extern) (chain : List LANPR_RenderLineChainItem) (k : Nat) : ℚ :=
  ((segLens E chain).take k).sum

/-- A vertex index lies in the range of the chain `c` that follows the chains
`pre`. -/
def inChainRange (pre : List LANPR_RenderLineChain) (c : LANPR_RenderLineChain) (x : Nat) :
    Prop :=
  (pre.map fun c => lanpr_CountChain c).sum ≤ x ∧
    x < (pre.map fun c => lanpr_CountChain c).sum + lanpr_CountChain c

/-- The metadata of a chain item: its line type and its occlusion level. -/
def metaOf (i : LANPR_RenderLineChainItem) : Nat × Int := (i.LineType, i.OccludeLevel)

/-- The list `kept` is the list `chain` with some items removed, each removed
item having the line type and the occlusion level of the first kept item after
it (so the last item of `chain` is kept). -/
inductive Thinned : List LANPR_RenderLineChainItem → List LANPR_RenderLineChainItem → Prop
  | nil : Thinned [] []
  | keep (x : LANPR_RenderLineChainItem) {kept chain : List LANPR_RenderLineChainItem} :
      Thinned kept chain → Thinned (x :: kept) (x :: chain)
  | drop (x y : LANPR_RenderLineChainItem) {kept chain : List LANPR_RenderLineChainItem} :
      metaOf x = metaOf y → Thinned (y :: kept) chain → Thinned (y :: kept) (x :: chain)

/-- A list with consecutive duplicates collapsed: of each run of equal values
one is left. -/
def collapseRuns : List (Nat × Int) → List (Nat × Int)
  | [] => []
  | [a] => [a]
  | a :: b :: l => if a = b then collapseRuns (b :: l) else a :: collapseRuns (b :: l)

/-- The vertex is one of the two ends of the line. -/
def endOf (l : LANPR_RenderLine) (v : LANPR_RenderVert) : Prop := v = l.L ∨ v = l.R

/-- Growth has nothing left at the vertex `v`: every entry of the cell found
at the position of `v` that is the position of a line eligible at the start
and connected to `v` by the rule of the lookup is among the lines `consumed`. -/
def StopAt (E : Extern) (lines0 : List LANPR_RenderLine)
    (cells : ℚ → ℚ → Option LANPR_BoundingArea) (consumed : List Nat)
    (v : LANPR_RenderVert) : Prop :=
  ∀ area, cells v.FrameBufferCoord.1 v.FrameBufferCoord.2 = some area →
    ∀ q ∈ area.LinkedLines, isMatch E lines0 v q = true → q ∈ consumed

/-- The state of a growth loop seen by vertices: `verts` are the vertices the
frontier went through, the current frontier `rv` first and the vertex `last`
at the far end; their positions walk along the lines of the chain, and each is
an end of a line of the chain. -/
structure Track (E : Extern) (lines0 : List LANPR_RenderLine)
    (done : List LANPR_RenderLineChain) (side : Side) (last : LANPR_RenderVert)
    (rb : LANPR_RenderBuffer) (rv : LANPR_RenderVert) (rlc : LANPR_RenderLineChain) : Prop where
  core : Core E lines0 rb.AllRenderLines (consumedBy done ++ rlc.picked)
  walk : ∃ verts : List LANPR_RenderVert,
    IsWalk lines0 (verts.map fun v => v.FrameBufferCoord) (viewPicked side rlc) ∧
    verts.head? = some rv ∧ verts.getLast? = some last ∧
    ∀ v ∈ verts, ∃ q l, q ∈ rlc.picked ∧ lines0[q]? = some l ∧ endOf l v

/-- What holds of a chain `c` built after the chains `pre`: there are vertices
whose positions walk along the lines of `c`, each an end of a line of `c`, and
at the first and at the last of them growth had nothing left when `c` was
complete. -/
def MaximalWalk (E : Extern) (lines0 : List LANPR_RenderLine)
    (cells : ℚ → ℚ → Option LANPR_BoundingArea) (pre : List LANPR_RenderLineChain)
    (c : LANPR_RenderLineChain) : Prop :=
  ∃ verts : List LANPR_RenderVert,
    IsWalk lines0 (verts.map fun v => v.FrameBufferCoord) c.picked ∧
    (∀ v ∈ verts, ∃ q l, q ∈ c.picked ∧ lines0[q]? = some l ∧ endOf l v) ∧
    ∀ v, verts.head? = some v ∨ verts.getLast? = some v →
      StopAt E lines0 cells (consumedBy pre ++ c.picked) v

/-- The vertex is an end of a line that is eligible: it has a feature-type bit
and is not picked. -/
def eligibleEnd (E : Extern) (lines : List LANPR_RenderLine) (v : LANPR_RenderVert) : Prop :=
  ∃ (q : Nat) (l : LANPR_RenderLine), lines[q]? = some l ∧ notPickable E l = false ∧ endOf l v

/-- The spatial index returns, for the position of an end of an eligible line,
a cell that lists the line. -/
def CellsComplete (E : Extern) (rb : LANPR_RenderBuffer) : Prop :=
  ∀ (q : Nat) (l : LANPR_RenderLine) (v : LANPR_RenderVert),
    rb.AllRenderLines[q]? = some l → notPickable E l = false → endOf l v →
    ∃ area, lanpr_GetPointBoundingArea rb v.FrameBufferCoord.1 v.FrameBufferCoord.2 =
        some area ∧ q ∈ area.LinkedLines

/-- Ends of eligible lines that are at the same position are the same vertex. -/
def SharedVerts (E : Extern) (lines : List LANPR_RenderLine) : Prop :=
  ∀ v w, eligibleEnd E lines v → eligibleEnd E lines w →
    v.FrameBufferCoord = w.FrameBufferCoord → v = w

/-- No vertex is an end of three eligible lines. -/
def NoBranching (E : Extern) (lines : List LANPR_RenderLine) : Prop :=
  ∀ (v : LANPR_RenderVert) (p q r : Nat) (lp lq lr : LANPR_RenderLine),
    lines[p]? = some lp → lines[q]? = some lq → lines[r]? = some lr →
    notPickable E lp = false → notPickable E lq = false → notPickable E lr = false →
    endOf lp v → endOf lq v → endOf lr v → p = q ∨ p = r ∨ q = r

/-- The lines at positions `p` and `q` are eligible and have an end vertex in
common: the adjacency of the graph of eligible lines. -/
def Adj (E : Extern) (lines : List LANPR_RenderLine) (p q : Nat) : Prop :=
  ∃ (lp lq : LANPR_RenderLine) (v : LANPR_RenderVert),
    lines[p]? = some lp ∧ lines[q]? = some lq ∧
    notPickable E lp = false ∧ notPickable E lq = false ∧ endOf lp v ∧ endOf lq v

/-! ## Properties -/

/-! ### Arc lengths -/

theorem runningLengths_length (E : Extern) (items : List LANPR_RenderLineChainItem)
    (acc : ℚ) (last : Pos) : (runningLengths E items acc last).length = items.length := by
  induction items generalizing acc last with
  | nil => rfl
  | cons x xs ih => simp [runningLengths, ih]

theorem chainLengthLoop_length (E : Extern) (b : Nat) (items : List LANPR_RenderLineChainItem)
    (i : Nat) (acc : ℚ) (last : Pos) (lengths : List ℚ) :
    (chainLengthLoop E b items i acc last lengths).2.length = lengths.length := by
  induction items generalizing i acc last lengths with
  | nil => rfl
  | cons x xs ih => simp [chainLengthLoop, ih]

/-- The value returned is the last running sum (or the start value). -/
theorem chainLengthLoop_fst (E : Extern) (b : Nat) (items : List LANPR_RenderLineChainItem)
    (i : Nat) (acc : ℚ) (last : Pos) (lengths : List ℚ) :
    (chainLengthLoop E b items i acc last lengths).1 =
      (runningLengths E items acc last).getLastD acc := by
  induction items generalizing i acc last lengths with
  | nil => rfl
  | cons x xs ih =>
    simp only [chainLengthLoop, runningLengths, ih]
    cases h : runningLengths E xs (acc + E.len_v2v2 x.pos last) x.pos with
    | nil => simp [List.getLastD]
    | cons y ys => simp [List.getLastD]

/-- Entry `j` of the array after the loop: a running sum inside the window
written, the old entry outside. -/
theorem chainLengthLoop_get (E : Extern) (b : Nat) (items : List LANPR_RenderLineChainItem)
    (i : Nat) (acc : ℚ) (last : Pos) (lengths : List ℚ) (j : Nat)
    (hj : j < lengths.length) :
    (chainLengthLoop E b items i acc last lengths).2[j]? =
      if b + i ≤ j ∧ j < b + i + items.length then
        (runningLengths E items acc last)[j - (b + i)]?
      else lengths[j]? := by
  induction items generalizing i acc last lengths with
  | nil =>
    simp only [chainLengthLoop, List.length_nil, Nat.add_zero]
    rw [if_neg (by omega)]
  | cons x xs ih =>
    simp only [chainLengthLoop, runningLengths, List.length_cons]
    rw [ih _ _ _ _ (by simpa using hj)]
    by_cases h1 : b + (i + 1) ≤ j ∧ j < b + (i + 1) + xs.length
    · have h2 : b + i ≤ j ∧ j < b + i + (xs.length + 1) := by omega
      rw [if_pos h1, if_pos h2]
      have : j - (b + i) = (j - (b + (i + 1))) + 1 := by omega
      rw [this, List.getElem?_cons_succ]
    · rw [if_neg h1]
      by_cases h3 : j = b + i
      · subst h3
        have h2 : b + i ≤ b + i ∧ b + i < b + i + (xs.length + 1) := by omega
        rw [if_pos h2]
        simp [List.getElem?_set, hj]
      · have h2 : ¬ (b + i ≤ j ∧ j < b + i + (xs.length + 1)) := by omega
        rw [if_neg h2, List.getElem?_set]
        simp [Ne.symm h3]

theorem chainLengthLoop_window (E : Extern) (b : Nat) (items : List LANPR_RenderLineChainItem)
    (acc : ℚ) (last : Pos) (lengths : List ℚ) (hb : b + items.length ≤ lengths.length) :
    ((chainLengthLoop E b items 0 acc last lengths).2.drop b).take items.length =
      runningLengths E items acc last := by
  apply List.ext_getElem?
  intro m
  by_cases hm : m < items.length
  · rw [List.getElem?_take_of_lt hm, List.getElem?_drop,
      chainLengthLoop_get E b items 0 acc last lengths (b + m) (by omega)]
    rw [if_pos (by omega)]
    congr 1
    omega
  · rw [List.getElem?_eq_none, List.getElem?_eq_none]
    · simp [runningLengths_length]; omega
    · simp; omega

theorem runningLengths_ge (E : Extern) (hlen : ∀ a b, 0 ≤ E.len_v2v2 a b)
    (items : List LANPR_RenderLineChainItem) (acc : ℚ) (last : Pos) :
    ∀ v ∈ runningLengths E items acc last, acc ≤ v := by
  induction items generalizing acc last with
  | nil => simp [runningLengths]
  | cons x xs ih =>
    intro v hv
    simp only [runningLengths, List.mem_cons] at hv
    have h0 := hlen x.pos last
    rcases hv with rfl | hv
    · linarith
    · have := ih _ _ v hv
      linarith

theorem runningLengths_pairwise (E : Extern) (hlen : ∀ a b, 0 ≤ E.len_v2v2 a b)
    (items : List LANPR_RenderLineChainItem) (acc : ℚ) (last : Pos) :
    (runningLengths E items acc last).Pairwise (· ≤ ·) := by
  induction items generalizing acc last with
  | nil => simp [runningLengths]
  | cons x xs ih =>
    simp only [runningLengths, List.pairwise_cons]
    exact ⟨runningLengths_ge E hlen xs _ _, ih _ _⟩

/-- C7: on a non-empty chain whose `n` entries fit the array,
`lanpr_ComputeChainLength` returns, the `n` values it writes from `begin_index`
on are non-decreasing in chain order, and the value written for the last
vertex is the total returned (distances between points being non-negative). -/
theorem computeChainLength_monotone (E : Extern) (hlen : ∀ a b, 0 ≤ E.len_v2v2 a b)
    (rlc : LANPR_RenderLineChain) (lengths : List ℚ) (begin_index : Nat)
    (hne : rlc.Chain ≠ []) (hfit : begin_index + rlc.Chain.length ≤ lengths.length) :
    ∃ total out, lanpr_ComputeChainLength E rlc lengths begin_index = some (total, out) ∧
      out.length = lengths.length ∧
      ((out.drop begin_index).take rlc.Chain.length).Pairwise (· ≤ ·) ∧
      out[begin_index + (rlc.Chain.length - 1)]? = some total := by
  cases hc : rlc.Chain with
  | nil => exact absurd hc hne
  | cons x xs =>
    rw [hc] at hfit
    refine ⟨(chainLengthLoop E begin_index (x :: xs) 0 0 x.pos lengths).1,
      (chainLengthLoop E begin_index (x :: xs) 0 0 x.pos lengths).2,
      by simp only [lanpr_ComputeChainLength, hc], ?_, ?_, ?_⟩
    · exact chainLengthLoop_length ..
    · rw [chainLengthLoop_window E begin_index (x :: xs) 0 x.pos lengths hfit]
      exact runningLengths_pairwise E hlen _ _ _
    · rw [chainLengthLoop_get E begin_index (x :: xs) 0 0 x.pos lengths _
        (by simp at hfit ⊢; omega)]
      rw [if_pos (by simp), chainLengthLoop_fst]
      have hl := runningLengths_length E (x :: xs) 0 x.pos
      generalize runningLengths E (x :: xs) 0 x.pos = rs at hl
      simp only [List.length_cons, Nat.add_sub_cancel, Nat.add_zero] at hl ⊢
      have : begin_index + xs.length - begin_index = xs.length := by omega
      rw [this]
      cases rs using List.reverseRecOn with
      | nil => simp at hl
      | append_singleton ys y =>
        simp at hl
        rw [List.getLastD_eq_getLast?]
        simp [← hl]

/-! ### Draw command: the two loops -/

theorem countLoop_eq (items : List LANPR_RenderLineChainItem) (c : Nat) :
    countLoop items c = c + items.length := by
  induction items generalizing c with
  | nil => rfl
  | cons x xs ih => simp [countLoop, ih]; omega

theorem lanpr_CountChain_eq (c : LANPR_RenderLineChain) : lanpr_CountChain c = c.Chain.length := by
  simp [lanpr_CountChain, countLoop_eq]

theorem chainsCount_cons (c : LANPR_RenderLineChain) (cs : List LANPR_RenderLineChain) :
    chainsCount (c :: cs) = c.Chain.length + chainsCount cs := by
  simp [chainsCount, lanpr_CountChain_eq]

theorem chainsCount_nil : chainsCount [] = 0 := rfl

theorem vertCountLoop_eq (cs : List LANPR_RenderLineChain) (v : Nat) :
    vertCountLoop cs v = v + chainsCount cs := by
  induction cs generalizing v with
  | nil => rfl
  | cons c cs ih => simp [vertCountLoop, ih, chainsCount_cons, lanpr_CountChain_eq]; omega

theorem attrSetPos_length (vbo : List ChainVert) (i : Nat) (d : Pos) :
    (attrSetPos vbo i d).length = vbo.length := by
  unfold attrSetPos; split <;> simp

theorem attrSetUvs_length (vbo : List ChainVert) (i : Nat) (d : Pos) :
    (attrSetUvs vbo i d).length = vbo.length := by
  unfold attrSetUvs; split <;> simp

theorem attrSetPos_get (vbo : List ChainVert) (i j : Nat) (d : Pos) :
    (attrSetPos vbo i d)[j]? =
      if j = i then (vbo[j]?).map (fun v => { v with pos := some d }) else vbo[j]? := by
  unfold attrSetPos
  by_cases h : j = i
  · subst h
    cases hv : vbo[j]? with
    | none => simp [hv]
    | some v =>
      have hlt : j < vbo.length := (List.getElem?_eq_some_iff.mp hv).1
      simp [hv, List.getElem?_set, hlt]
  · cases hv : vbo[i]? with
    | none => simp [h]
    | some v => simp [h, List.getElem?_set, Ne.symm h]

theorem attrSetUvs_get (vbo : List ChainVert) (i j : Nat) (d : Pos) :
    (attrSetUvs vbo i d)[j]? =
      if j = i then (vbo[j]?).map (fun v => { v with uvs := some d }) else vbo[j]? := by
  unfold attrSetUvs
  by_cases h : j = i
  · subst h
    cases hv : vbo[j]? with
    | none => simp [hv]
    | some v =>
      have hlt : j < vbo.length := (List.getElem?_eq_some_iff.mp hv).1
      simp [hv, List.getElem?_set, hlt]
  · cases hv : vbo[i]? with
    | none => simp [h]
    | some v => simp [h, List.getElem?_set, Ne.symm h]

theorem drawItemsLoop_cons (vc : Nat) (t : ℚ) (lengths : List ℚ) (n : Nat)
    (x : LANPR_RenderLineChainItem) (xs : List LANPR_RenderLineChainItem) (k i : Nat)
    (vbo : List ChainVert) (elb : List (Nat × Nat × Nat × Nat)) :
    drawItemsLoop vc t lengths n (x :: xs) k i vbo elb =
      drawItemsLoop vc t lengths n xs (k + 1) (i + 1) (headVbo t lengths n k i x.pos vbo)
        (headElb vc n k i elb) := by
  rw [drawItemsLoop]
  unfold headVbo headElb primOf
  dsimp only
  split_ifs <;> first | rfl | (exfalso; omega)

theorem headVbo_length (t : ℚ) (lengths : List ℚ) (n k i : Nat) (p : Pos)
    (vbo : List ChainVert) : (headVbo t lengths n k i p vbo).length = vbo.length := by
  unfold headVbo; split <;> simp [attrSetPos_length, attrSetUvs_length]

theorem headVbo_get (t : ℚ) (lengths : List ℚ) (n k i j : Nat) (p : Pos)
    (vbo : List ChainVert) :
    (headVbo t lengths n k i p vbo)[j]? =
      if j = i then (vbo[j]?).map fun v => packVert v p (uvsOf t n k (lengths.getD i 0))
      else vbo[j]? := by
  unfold headVbo uvsOf
  by_cases hj : j = i
  · subst hj
    rw [if_pos rfl]
    split_ifs <;> simp only [attrSetUvs_get, attrSetPos_get, if_true, Option.map_map] <;>
      cases vbo[j]? <;> simp [packVert]
  · rw [if_neg hj]
    split_ifs <;> simp only [attrSetUvs_get, attrSetPos_get, if_neg hj]

theorem drawItemsLoop_fst (vc : Nat) (t : ℚ) (lengths : List ℚ) (n : Nat)
    (items : List LANPR_RenderLineChainItem) (k i : Nat) (vbo : List ChainVert)
    (elb : List (Nat × Nat × Nat × Nat)) :
    (drawItemsLoop vc t lengths n items k i vbo elb).1 = i + items.length := by
  induction items generalizing k i vbo elb with
  | nil => rfl
  | cons x xs ih => rw [drawItemsLoop_cons, ih]; simp; omega

theorem drawItemsLoop_length (vc : Nat) (t : ℚ) (lengths : List ℚ) (n : Nat)
    (items : List LANPR_RenderLineChainItem) (k i : Nat) (vbo : List ChainVert)
    (elb : List (Nat × Nat × Nat × Nat)) :
    (drawItemsLoop vc t lengths n items k i vbo elb).2.1.length = vbo.length := by
  induction items generalizing k i vbo elb with
  | nil => rfl
  | cons x xs ih => rw [drawItemsLoop_cons, ih, headVbo_length]

/-- A vertex outside the window of the loop is left as it was. -/
theorem drawItemsLoop_frame (vc : Nat) (t : ℚ) (lengths : List ℚ) (n : Nat)
    (items : List LANPR_RenderLineChainItem) (k i : Nat) (vbo : List ChainVert)
    (elb : List (Nat × Nat × Nat × Nat)) (j : Nat) (hj : j < i ∨ i + items.length ≤ j) :
    (drawItemsLoop vc t lengths n items k i vbo elb).2.1[j]? = vbo[j]? := by
  induction items generalizing k i vbo elb with
  | nil => rfl
  | cons x xs ih =>
    simp only [List.length_cons] at hj
    rw [drawItemsLoop_cons, ih _ _ _ _ (by omega), headVbo_get, if_neg (by omega)]

/-- The vertex of the item at position `m` of the rest. -/
theorem drawItemsLoop_get (vc : Nat) (t : ℚ) (lengths : List ℚ) (n : Nat)
    (items : List LANPR_RenderLineChainItem) (k i : Nat) (vbo : List ChainVert)
    (elb : List (Nat × Nat × Nat × Nat)) (m : Nat) (rlci : LANPR_RenderLineChainItem)
    (hm : items[m]? = some rlci) :
    (drawItemsLoop vc t lengths n items k i vbo elb).2.1[i + m]? =
      (vbo[i + m]?).map fun v =>
        packVert v rlci.pos (uvsOf t n (k + m) (lengths.getD (i + m) 0)) := by
  induction items generalizing k i vbo elb m with
  | nil => simp at hm
  | cons x xs ih =>
    rw [drawItemsLoop_cons]
    cases m with
    | zero =>
      simp only [List.getElem?_cons_zero, Option.some.injEq] at hm
      subst hm
      rw [drawItemsLoop_frame _ _ _ _ _ _ _ _ _ _ (by omega), headVbo_get]
      simp
    | succ m =>
      rw [List.getElem?_cons_succ] at hm
      have e : i + (m + 1) = (i + 1) + m := by omega
      have e2 : k + (m + 1) = (k + 1) + m := by omega
      rw [e, e2, ih _ _ _ _ _ hm, headVbo_get, if_neg (by omega)]

theorem primOf_bounded (vc n k i : Nat) (h1 : i + 1 < vc + 1) (h2 : k + 2 ≠ n → i + 2 ≤ vc) :
    primBounded vc (primOf vc n k i) := by
  unfold primBounded primOf
  split_ifs <;> (refine ⟨?_, ?_, ?_, ?_⟩ <;> simp only [] <;> omega)

theorem drawItemsLoop_elb (vc : Nat) (t : ℚ) (lengths : List ℚ) (n : Nat)
    (items : List LANPR_RenderLineChainItem) (k i : Nat) (vbo : List ChainVert)
    (elb : List (Nat × Nat × Nat × Nat)) (hk : k + items.length = n)
    (hi : i + items.length ≤ vc) :
    ∀ q ∈ (drawItemsLoop vc t lengths n items k i vbo elb).2.2, q ∈ elb ∨ primBounded vc q := by
  induction items generalizing k i vbo elb with
  | nil => intro q hq; exact Or.inl hq
  | cons x xs ih =>
    simp only [List.length_cons] at hk hi
    intro q hq
    rw [drawItemsLoop_cons] at hq
    rcases ih _ _ _ _ (by omega) (by omega) q hq with h | h
    · unfold headElb at h
      by_cases hlast : k + 1 = n
      · rw [if_pos hlast] at h; exact Or.inl h
      · rw [if_neg hlast] at h
        rcases List.mem_append.mp h with h | h
        · exact Or.inl h
        · right
          simp only [List.mem_singleton] at h
          subst h
          exact primOf_bounded vc n k i (by omega) (by omega)
    · exact Or.inr h

theorem chainRunning_length (E : Extern) (chain : List LANPR_RenderLineChainItem) :
    (chainRunning E chain).length = chain.length := by
  cases chain with
  | nil => rfl
  | cons x xs => simp [chainRunning, runningLengths_length]

/-- What a successful call of `lanpr_ComputeChainLength` returns and writes. -/
theorem computeChainLength_spec (E : Extern) (rlc : LANPR_RenderLineChain) (lengths : List ℚ)
    (b : Nat) (t : ℚ) (out : List ℚ)
    (h : lanpr_ComputeChainLength E rlc lengths b = some (t, out)) :
    t = (chainRunning E rlc.Chain).getLastD 0 ∧ out.length = lengths.length ∧
      ∀ j, j < lengths.length →
        out[j]? = if b ≤ j ∧ j < b + rlc.Chain.length then (chainRunning E rlc.Chain)[j - b]?
          else lengths[j]? := by
  unfold lanpr_ComputeChainLength at h
  cases hc : rlc.Chain with
  | nil => rw [hc] at h; simp at h
  | cons x xs =>
    rw [hc] at h
    have h0 : chainLengthLoop E b (x :: xs) 0 0 x.pos lengths = (t, out) := Option.some.inj h
    have h1 : t = (chainLengthLoop E b (x :: xs) 0 0 x.pos lengths).1 := by rw [h0]
    have h2 : out = (chainLengthLoop E b (x :: xs) 0 0 x.pos lengths).2 := by rw [h0]
    refine ⟨?_, ?_, ?_⟩
    · rw [h1, chainLengthLoop_fst]; rfl
    · rw [h2, chainLengthLoop_length]
    · intro j hj
      have := chainLengthLoop_get E b (x :: xs) 0 0 x.pos lengths j hj
      rw [h2, this]
      simp [chainRunning]

theorem computeChainLength_isSome (E : Extern) (rlc : LANPR_RenderLineChain) (lengths : List ℚ)
    (b : Nat) (hne : rlc.Chain ≠ []) :
    ∃ t out, lanpr_ComputeChainLength E rlc lengths b = some (t, out) := by
  unfold lanpr_ComputeChainLength
  cases hc : rlc.Chain with
  | nil => exact absurd hc hne
  | cons x xs => exact ⟨_, _, rfl⟩

/-- The outer loop of the packer on chains that are not empty and fit the
buffers: it ends, the count advances by the number of items, vertices outside
the window are untouched, the vertex of item `m` of each chain holds the
item's position and its distance pair, and each primitive added is bounded. -/
theorem drawChainsLoop_spec (E : Extern) (vc : Nat) (cs : List LANPR_RenderLineChain)
    (i : Nat) (lengths : List ℚ) (vbo : List ChainVert) (elb : List (Nat × Nat × Nat × Nat))
    (hne : ∀ c ∈ cs, c.Chain ≠ []) (hfit : i + chainsCount cs ≤ lengths.length)
    (hvc : i + chainsCount cs ≤ vc) :
    ∃ r, drawChainsLoop E vc cs i lengths vbo elb = some r ∧
      r.1 = i + chainsCount cs ∧ r.2.2.1.length = vbo.length ∧
      (∀ j, j < i ∨ i + chainsCount cs ≤ j → r.2.2.1[j]? = vbo[j]?) ∧
      (∀ pre c post, cs = pre ++ c :: post → ∀ m rlci, c.Chain[m]? = some rlci →
        ∃ d, (chainRunning E c.Chain)[m]? = some d ∧
          r.2.2.1[i + chainsCount pre + m]? =
            (vbo[i + chainsCount pre + m]?).map fun v =>
              packVert v rlci.pos
                (uvsOf ((chainRunning E c.Chain).getLastD 0) c.Chain.length m d)) ∧
      (∀ q ∈ r.2.2.2, q ∈ elb ∨ primBounded vc q) := by
  induction cs generalizing i lengths vbo elb with
  | nil =>
    refine ⟨_, rfl, by simp [chainsCount_nil], rfl, fun _ _ => rfl, ?_, fun q hq => Or.inl hq⟩
    intro pre c post h
    simp at h
  | cons c rest ih =>
    rw [chainsCount_cons] at hfit hvc
    obtain ⟨t, L1, hL⟩ := computeChainLength_isSome E c lengths i (hne c (List.mem_cons_self _ _))
    obtain ⟨ht, hlen, hget⟩ := computeChainLength_spec E c lengths i t L1 hL
    obtain ⟨r, hr, hr1, hr2, hr3, hr4, hr5⟩ :=
      ih ((drawItemsLoop vc t L1 c.Chain.length c.Chain 0 i vbo elb).1) L1
        ((drawItemsLoop vc t L1 c.Chain.length c.Chain 0 i vbo elb).2.1)
        ((drawItemsLoop vc t L1 c.Chain.length c.Chain 0 i vbo elb).2.2)
        (fun c' hc' => hne c' (List.mem_cons_of_mem _ hc'))
        (by rw [drawItemsLoop_fst, hlen]; omega) (by rw [drawItemsLoop_fst]; omega)
    rw [drawItemsLoop_fst] at hr1 hr3 hr4
    refine ⟨r, ?_, ?_, ?_, ?_, ?_, ?_⟩
    · simp only [drawChainsLoop, hL]; exact hr
    · rw [hr1, chainsCount_cons]; omega
    · rw [hr2, drawItemsLoop_length]
    · intro j hj
      rw [chainsCount_cons] at hj
      rw [hr3 j (by omega), drawItemsLoop_frame _ _ _ _ _ _ _ _ _ _ (by omega)]
    · intro pre c' post hsplit m rlci hm
      have hmlt : m < c'.Chain.length := (List.getElem?_eq_some_iff.mp hm).1
      cases pre with
      | nil =>
        simp only [List.nil_append, List.cons.injEq] at hsplit
        obtain ⟨rfl, -⟩ := hsplit
        have hmr : m < (chainRunning E c.Chain).length := by
          rw [chainRunning_length]; exact hmlt
        have hd : (chainRunning E c.Chain)[m]? = some (chainRunning E c.Chain)[m] :=
          List.getElem?_eq_getElem hmr
        refine ⟨_, hd, ?_⟩
        simp only [chainsCount_nil, Nat.add_zero]
        rw [hr3 (i + m) (by omega), drawItemsLoop_get _ _ _ _ _ _ _ _ _ _ _ hm]
        have hg := hget (i + m) (by omega)
        rw [if_pos (by omega), Nat.add_sub_cancel_left, hd] at hg
        have : L1.getD (i + m) 0 = (chainRunning E c.Chain)[m] := by
          rw [List.getD_eq_getElem?_getD, hg]; rfl
        rw [this, ← ht, Nat.zero_add]
      | cons p pre' =>
        simp only [List.cons_append, List.cons.injEq] at hsplit
        obtain ⟨rfl, hrest⟩ := hsplit
        obtain ⟨d, hd, hv⟩ := hr4 pre' c' post hrest m rlci hm
        refine ⟨d, hd, ?_⟩
        rw [chainsCount_cons]
        have e : i + (c.Chain.length + chainsCount pre') + m =
            i + c.Chain.length + chainsCount pre' + m := by omega
        rw [e, hv, drawItemsLoop_frame _ _ _ _ _ _ _ _ _ _ (by omega)]
    · intro q hq
      rcases hr5 q hq with h | h
      · exact drawItemsLoop_elb vc t L1 c.Chain.length c.Chain 0 i vbo elb (by omega)
          (by omega) q h
      · exact Or.inr h

/-! ### Draw command: the batch -/

theorem sqrtf_nonneg (q : ℚ) : 0 ≤ sqrtf q := by
  unfold sqrtf
  exact div_nonneg (Nat.cast_nonneg _) (Nat.cast_nonneg _)

theorem exampleExtern_len_nonneg (a b : Pos) : 0 ≤ exampleExtern.len_v2v2 a b :=
  sqrtf_nonneg _

/-- Where an item of the concatenation of the chains sits: in some chain `c`,
at position `m`, after the chains `pre`. -/
theorem flatten_split (cs : List LANPR_RenderLineChain) (k : Nat)
    (rlci : LANPR_RenderLineChainItem)
    (h : (cs.flatMap fun c => c.Chain)[k]? = some rlci) :
    ∃ pre c post m, cs = pre ++ c :: post ∧ k = chainsCount pre + m ∧
      c.Chain[m]? = some rlci := by
  induction cs generalizing k with
  | nil => simp at h
  | cons c rest ih =>
    rw [List.flatMap_cons, List.getElem?_append] at h
    by_cases hk : k < c.Chain.length
    · rw [if_pos hk] at h
      exact ⟨[], c, rest, k, rfl, by simp [chainsCount_nil], h⟩
    · rw [if_neg hk] at h
      obtain ⟨pre, c', post, m, h1, h2, h3⟩ := ih _ h
      refine ⟨c :: pre, c', post, m, by rw [h1]; rfl, ?_, h3⟩
      rw [chainsCount_cons]; omega

theorem generateDrawCommand_unfold (E : Extern) (rb : LANPR_RenderBuffer)
    (hne : ∀ c ∈ rb.Chains, c.Chain ≠ []) :
    ∃ r, drawChainsLoop E (chainsCount rb.Chains) rb.Chains 0
        (List.replicate (chainsCount rb.Chains) 0)
        (List.replicate (chainsCount rb.Chains + 1) unsetVert) [] = some r ∧
      lanpr_ChainGenerateDrawCommand E rb =
        some { vbo := attrSetPos r.2.2.1 (chainsCount rb.Chains) (3 * 10 ^ 30, 3 * 10 ^ 30),
               elb := r.2.2.2 } := by
  obtain ⟨r, hr, -⟩ := drawChainsLoop_spec E (chainsCount rb.Chains) rb.Chains 0
    (List.replicate (chainsCount rb.Chains) 0)
    (List.replicate (chainsCount rb.Chains + 1) unsetVert) [] hne (by simp) (by simp)
  refine ⟨r, hr, ?_⟩
  unfold lanpr_ChainGenerateDrawCommand
  simp only [vertCountLoop_eq, Nat.zero_add, hr]

/-- C5: on chains none of which is empty, `lanpr_ChainGenerateDrawCommand`
builds a vertex buffer of (sum of `lanpr_CountChain` over the chains) + 1
vertices; vertex `k` below that sum holds the position of item `k` of the
chains taken in chain order then item order, and the vertex at index
`vert_count` holds the sentinel position. -/
theorem generateDrawCommand_layout (E : Extern) (rb : LANPR_RenderBuffer)
    (hne : ∀ c ∈ rb.Chains, c.Chain ≠ []) :
    ∃ batch, lanpr_ChainGenerateDrawCommand E rb = some batch ∧
      batch.vbo.length = (rb.Chains.map fun c => lanpr_CountChain c).sum + 1 ∧
      ((rb.Chains.flatMap fun c => c.Chain).length =
        (rb.Chains.map fun c => lanpr_CountChain c).sum) ∧
      (∀ (k : Nat) (rlci : LANPR_RenderLineChainItem),
        (rb.Chains.flatMap fun c => c.Chain)[k]? = some rlci →
        ∃ v : ChainVert, batch.vbo[k]? = some v ∧ v.pos = some rlci.pos) ∧
      ∃ v : ChainVert, batch.vbo[(rb.Chains.map fun c => lanpr_CountChain c).sum]? = some v ∧
        v.pos = some (3 * 10 ^ 30, 3 * 10 ^ 30) := by
  obtain ⟨r, hr, hb⟩ := generateDrawCommand_unfold E rb hne
  obtain ⟨r', hr', h1, h2, h3, h4, -⟩ := drawChainsLoop_spec E (chainsCount rb.Chains) rb.Chains 0
    (List.replicate (chainsCount rb.Chains) 0)
    (List.replicate (chainsCount rb.Chains + 1) unsetVert) [] hne (by simp) (by simp)
  rw [hr] at hr'
  obtain rfl := Option.some.inj hr'
  have hlen : r.2.2.1.length = chainsCount rb.Chains + 1 := by simpa using h2
  have hflat : (rb.Chains.flatMap fun c => c.Chain).length = chainsCount rb.Chains := by
    simp [List.length_flatMap, chainsCount, lanpr_CountChain_eq, Function.comp_def]
  refine ⟨_, hb, ?_, hflat, ?_, ?_⟩
  · change (attrSetPos _ _ _).length = chainsCount rb.Chains + 1
    rw [attrSetPos_length, hlen]
  · intro k rlci hk
    have hklt : k < chainsCount rb.Chains := by
      rw [← hflat]; exact (List.getElem?_eq_some_iff.mp hk).1
    obtain ⟨pre, c, post, m, hs, hkm, hm⟩ := flatten_split rb.Chains k rlci hk
    obtain ⟨d, -, hv⟩ := h4 pre c post hs m rlci hm
    rw [Nat.zero_add, ← hkm] at hv
    have hinit : (List.replicate (chainsCount rb.Chains + 1) unsetVert)[k]? = some unsetVert := by
      rw [List.getElem?_replicate]; simp; omega
    rw [hinit] at hv
    refine ⟨packVert unsetVert rlci.pos
      (uvsOf ((chainRunning E c.Chain).getLastD 0) c.Chain.length m d), ?_, rfl⟩
    change (attrSetPos _ _ _)[k]? = _
    rw [attrSetPos_get, if_neg (by omega), hv]
    rfl
  · have hs : r.2.2.1[chainsCount rb.Chains]? = some unsetVert := by
      rw [h3 _ (Or.inr (by omega)), List.getElem?_replicate]; simp
    refine ⟨{ unsetVert with pos := some (3 * 10 ^ 30, 3 * 10 ^ 30) }, ?_, rfl⟩
    change (attrSetPos _ _ _)[chainsCount rb.Chains]? = _
    rw [attrSetPos_get, if_pos rfl, hs]
    rfl

theorem exampleDrawBuffer_nonempty : ∀ c ∈ exampleDrawBuffer.Chains, c.Chain ≠ [] := by
  intro c hc
  simp only [exampleDrawBuffer, List.mem_singleton] at hc
  subst hc
  simp [exampleChain]

/-- The layout theorem on the buffer of one chain of three points: a vertex
buffer of four vertices. -/
theorem generateDrawCommand_layout_witness :
    (∀ c ∈ exampleDrawBuffer.Chains, c.Chain ≠ []) ∧
      ∃ batch, lanpr_ChainGenerateDrawCommand exampleExtern exampleDrawBuffer = some batch ∧
        batch.vbo.length = 4 := by
  refine ⟨exampleDrawBuffer_nonempty, ?_⟩
  obtain ⟨batch, h1, h2, -⟩ :=
    generateDrawCommand_layout exampleExtern exampleDrawBuffer exampleDrawBuffer_nonempty
  exact ⟨batch, h1, by rw [h2]; rfl⟩

/-- C6: on chains of at least two points each, every index that
`lanpr_ChainGenerateDrawCommand` adds to the index buffer is at most
`vert_count`, the sum of `lanpr_CountChain` over the chains, and so is the
index of one of the `vert_count + 1` vertices allocated. -/
theorem generateDrawCommand_indices_in_range (E : Extern) (rb : LANPR_RenderBuffer)
    (htwo : ∀ c ∈ rb.Chains, 2 ≤ c.Chain.length) :
    ∃ batch, lanpr_ChainGenerateDrawCommand E rb = some batch ∧
      batch.vbo.length = (rb.Chains.map fun c => lanpr_CountChain c).sum + 1 ∧
      ∀ q ∈ batch.elb,
        q.1 ≤ (rb.Chains.map fun c => lanpr_CountChain c).sum ∧
        q.2.1 ≤ (rb.Chains.map fun c => lanpr_CountChain c).sum ∧
        q.2.2.1 ≤ (rb.Chains.map fun c => lanpr_CountChain c).sum ∧
        q.2.2.2 ≤ (rb.Chains.map fun c => lanpr_CountChain c).sum := by
  have hne : ∀ c ∈ rb.Chains, c.Chain ≠ [] := by
    intro c hc h
    have := htwo c hc
    rw [h] at this
    simp at this
  obtain ⟨r, hr, hb⟩ := generateDrawCommand_unfold E rb hne
  obtain ⟨r', hr', -, h2, -, -, h5⟩ := drawChainsLoop_spec E (chainsCount rb.Chains) rb.Chains 0
    (List.replicate (chainsCount rb.Chains) 0)
    (List.replicate (chainsCount rb.Chains + 1) unsetVert) [] hne (by simp) (by simp)
  rw [hr] at hr'
  obtain rfl := Option.some.inj hr'
  refine ⟨_, hb, ?_, ?_⟩
  · change (attrSetPos _ _ _).length = chainsCount rb.Chains + 1
    rw [attrSetPos_length, h2]; simp
  · intro q hq
    rcases h5 q hq with h | h
    · simp at h
    · exact h

theorem exampleDrawBuffer_two : ∀ c ∈ exampleDrawBuffer.Chains, 2 ≤ c.Chain.length := by
  intro c hc
  simp only [exampleDrawBuffer, List.mem_singleton] at hc
  subst hc
  simp [exampleChain]

/-- The index bound on the buffer of one chain of three points. -/
theorem generateDrawCommand_indices_in_range_witness :
    (∀ c ∈ exampleDrawBuffer.Chains, 2 ≤ c.Chain.length) ∧
      ∃ batch, lanpr_ChainGenerateDrawCommand exampleExtern exampleDrawBuffer = some batch ∧
        ∀ q ∈ batch.elb, q.1 ≤ 3 ∧ q.2.1 ≤ 3 ∧ q.2.2.1 ≤ 3 ∧ q.2.2.2 ≤ 3 := by
  refine ⟨exampleDrawBuffer_two, ?_⟩
  obtain ⟨batch, h1, -, h3⟩ :=
    generateDrawCommand_indices_in_range exampleExtern exampleDrawBuffer exampleDrawBuffer_two
  exact ⟨batch, h1, h3⟩

/-- C8: for the vertex of item `i` of a chain `c` that follows the chains
`pre`, the distance pair left in the vertex buffer has its second component
equal to the total length that `lanpr_ComputeChainLength` returns for `c` minus
its first component, unless `c` has exactly two points and `i` is its last. -/
theorem generateDrawCommand_distance_pair (E : Extern) (rb : LANPR_RenderBuffer)
    (hne : ∀ c ∈ rb.Chains, c.Chain ≠ []) :
    ∃ batch, lanpr_ChainGenerateDrawCommand E rb = some batch ∧
      ∀ (pre : List LANPR_RenderLineChain) (c : LANPR_RenderLineChain)
        (post : List LANPR_RenderLineChain), rb.Chains = pre ++ c :: post →
      ∀ i, i < c.Chain.length → ¬ (c.Chain.length = 2 ∧ i = 1) →
      ∀ (lengths : List ℚ) (begin_index : Nat) (total_length : ℚ) (out : List ℚ),
        lanpr_ComputeChainLength E c lengths begin_index = some (total_length, out) →
        ∃ (v : ChainVert) (distanceFromStart distanceFromEnd : ℚ),
          batch.vbo[(pre.map fun c => lanpr_CountChain c).sum + i]? = some v ∧
          v.uvs = some (distanceFromStart, distanceFromEnd) ∧
          distanceFromEnd = total_length - distanceFromStart := by
  obtain ⟨r, hr, hb⟩ := generateDrawCommand_unfold E rb hne
  obtain ⟨r', hr', -, -, -, h4, -⟩ := drawChainsLoop_spec E (chainsCount rb.Chains) rb.Chains 0
    (List.replicate (chainsCount rb.Chains) 0)
    (List.replicate (chainsCount rb.Chains + 1) unsetVert) [] hne (by simp) (by simp)
  rw [hr] at hr'
  obtain rfl := Option.some.inj hr'
  refine ⟨_, hb, ?_⟩
  intro pre c post hs i hi hex lengths b t out hL
  obtain ⟨ht, -, -⟩ := computeChainLength_spec E c lengths b t out hL
  obtain ⟨d, -, hv⟩ := h4 pre c post hs i (c.Chain[i]) (List.getElem?_eq_getElem hi)
  have hcount : chainsCount pre + i < chainsCount rb.Chains := by
    rw [hs]
    simp only [chainsCount, List.map_append, List.sum_append, List.map_cons, List.sum_cons,
      lanpr_CountChain_eq]
    omega
  have hinit : (List.replicate (chainsCount rb.Chains + 1) unsetVert)[chainsCount pre + i]? =
      some unsetVert := by
    rw [List.getElem?_replicate]; simp; omega
  rw [Nat.zero_add, hinit] at hv
  refine ⟨packVert unsetVert c.Chain[i].pos
    (uvsOf ((chainRunning E c.Chain).getLastD 0) c.Chain.length i d), d, t - d, ?_, ?_, rfl⟩
  · change (attrSetPos _ _ _)[chainsCount pre + i]? = _
    rw [attrSetPos_get, if_neg (by omega), hv]
    rfl
  · simp only [packVert, uvsOf, Option.some.injEq, Prod.mk.injEq, true_and]
    rw [if_neg (by omega), ht]

/-- The distance pair of the middle vertex of the chain of three points. -/
theorem generateDrawCommand_distance_pair_witness :
    (∀ c ∈ exampleDrawBuffer.Chains, c.Chain ≠ []) ∧
      ∃ batch, lanpr_ChainGenerateDrawCommand exampleExtern exampleDrawBuffer = some batch ∧
        ∀ (lengths : List ℚ) (begin_index : Nat) (total_length : ℚ) (out : List ℚ),
          lanpr_ComputeChainLength exampleExtern exampleChain lengths begin_index =
            some (total_length, out) →
          ∃ (v : ChainVert) (distanceFromStart distanceFromEnd : ℚ),
            batch.vbo[1]? = some v ∧ v.uvs = some (distanceFromStart, distanceFromEnd) ∧
            distanceFromEnd = total_length - distanceFromStart := by
  refine ⟨exampleDrawBuffer_nonempty, ?_⟩
  obtain ⟨batch, h1, h2⟩ :=
    generateDrawCommand_distance_pair exampleExtern exampleDrawBuffer exampleDrawBuffer_nonempty
  refine ⟨batch, h1, ?_⟩
  intro lengths b t out hL
  exact h2 [] exampleChain [] rfl 1 (by simp [exampleChain]) (by simp [exampleChain])
    lengths b t out hL

/-- The monotonicity theorem on the chain of three points, written from entry
0 of an array of three entries. -/
theorem computeChainLength_monotone_witness :
    (∀ a b, 0 ≤ exampleExtern.len_v2v2 a b) ∧ exampleChain.Chain ≠ [] ∧
      0 + exampleChain.Chain.length ≤ [(0 : ℚ), 0, 0].length ∧
      ∃ total out, lanpr_ComputeChainLength exampleExtern exampleChain [0, 0, 0] 0 =
          some (total, out) ∧
        out.length = [(0 : ℚ), 0, 0].length ∧
        ((out.drop 0).take exampleChain.Chain.length).Pairwise (· ≤ ·) ∧
        out[0 + (exampleChain.Chain.length - 1)]? = some total :=
  ⟨exampleExtern_len_nonneg, by simp [exampleChain], by simp [exampleChain],
    computeChainLength_monotone exampleExtern exampleExtern_len_nonneg exampleChain [0, 0, 0] 0
      (by simp [exampleChain]) (by simp [exampleChain])⟩

/-! ### Simplifier -/

theorem metaBreak_iff (x n : LANPR_RenderLineChainItem) :
    metaBreak x (some n) = true ↔ (n.OccludeLevel ≠ x.OccludeLevel ∨ n.LineType ≠ x.LineType) := by
  simp [metaBreak]

theorem removeLoop_fst (f t : LANPR_RenderLineChainItem) (mid : List LANPR_RenderLineChainItem) :
    (removeLoop f t mid).1 = breakItems t mid := by
  induction mid with
  | nil => rfl
  | cons x xs ih =>
    simp only [removeLoop, breakItems]
    by_cases h : metaBreak x (some (nextOf xs t)) = true
    · rw [if_pos h, if_pos ((metaBreak_iff _ _).mp h), ih]
    · rw [if_neg h, if_neg (fun h' => h ((metaBreak_iff _ _).mpr h')), ih]

theorem nextOf_append (a : List LANPR_RenderLineChainItem) (b t : LANPR_RenderLineChainItem)
    (c : List LANPR_RenderLineChainItem) : nextOf (a ++ b :: c) t = nextOf a b := by
  cases a <;> rfl

theorem breakItems_cons (t x : LANPR_RenderLineChainItem)
    (rest : List LANPR_RenderLineChainItem) :
    breakItems t (x :: rest) =
      if (nextOf rest t).OccludeLevel ≠ x.OccludeLevel ∨ (nextOf rest t).LineType ≠ x.LineType
      then x :: breakItems t rest else breakItems t rest := rfl

theorem breakItems_append (a : List LANPR_RenderLineChainItem) (b t : LANPR_RenderLineChainItem)
    (c : List LANPR_RenderLineChainItem) :
    breakItems t (a ++ b :: c) = breakItems b a ++ breakItems t (b :: c) := by
  induction a with
  | nil => rfl
  | cons x xs ih =>
    rw [List.cons_append, breakItems_cons, breakItems_cons b x, nextOf_append, ih]
    split <;> simp

theorem breakItems_sublist_cons (t b : LANPR_RenderLineChainItem)
    (c : List LANPR_RenderLineChainItem) (r : List LANPR_RenderLineChainItem)
    (h : List.Sublist (breakItems t c) r) : List.Sublist (breakItems t (b :: c)) (b :: r) := by
  simp only [breakItems]
  split
  · exact h.cons₂ b
  · exact h.cons b

/-- Once `max_rlci` is set the first loop leaves it set. -/
theorem findMaxLoop_some (E : Extern) (tol : ℚ) (f t : LANPR_RenderLineChainItem)
    (mid : List LANPR_RenderLineChainItem) (i : Nat) (md : ℚ) (k : Nat) :
    ∃ k', (findMaxLoop E tol f t mid i md (some k)).2 = some k' := by
  induction mid generalizing i md k with
  | nil => exact ⟨k, rfl⟩
  | cons x xs ih =>
    simp only [findMaxLoop]
    split
    · exact ih _ _ _
    · split
      · exact ih _ _ _
      · exact ih _ _ _

/-- The position the first loop returns is one of the positions visited. -/
theorem findMaxLoop_bound (E : Extern) (tol : ℚ) (f t : LANPR_RenderLineChainItem)
    (mid : List LANPR_RenderLineChainItem) (i : Nat) (md : ℚ) (mi : Option Nat) (k : Nat)
    (h : (findMaxLoop E tol f t mid i md mi).2 = some k) :
    mi = some k ∨ (i ≤ k ∧ k < i + mid.length) := by
  induction mid generalizing i md mi with
  | nil => exact Or.inl h
  | cons x xs ih =>
    simp only [findMaxLoop] at h
    simp only [List.length_cons]
    split at h
    · rcases ih _ _ _ h with h' | h'
      · exact Or.inl h'
      · exact Or.inr (by omega)
    · split at h
      · rcases ih _ _ _ h with h' | h'
        · simp only [Option.some.injEq] at h'; exact Or.inr (by omega)
        · exact Or.inr (by omega)
      · rcases ih _ _ _ h with h' | h'
        · exact Or.inl h'
        · exact Or.inr (by omega)

/-- When the first loop leaves `max_rlci` null, every item the second loop
removes is within the threshold of the segment `from`-`to`. -/
theorem removeLoop_close (E : Extern) (tol : ℚ) (f t : LANPR_RenderLineChainItem)
    (mid : List LANPR_RenderLineChainItem) (i : Nat) (md : ℚ) (hmd : md ≤ tol)
    (h : (findMaxLoop E tol f t mid i md none).2 = none) :
    ∀ e ∈ (removeLoop f t mid).2,
      e.from_ = f ∧ e.to_ = t ∧ E.dist_to_line_segment_v2 e.rlci.pos f.pos t.pos ≤ tol := by
  induction mid generalizing i with
  | nil => intro e he; simp [removeLoop] at he
  | cons x xs ih =>
    simp only [findMaxLoop] at h
    intro e he
    simp only [removeLoop] at he
    by_cases hb : metaBreak x (some (nextOf xs t)) = true
    · rw [if_pos hb] at h he
      exact ih _ h e he
    · rw [if_neg hb] at h he
      by_cases hd : E.dist_to_line_segment_v2 x.pos f.pos t.pos > tol ∧
          E.dist_to_line_segment_v2 x.pos f.pos t.pos > md
      · rw [if_pos hd] at h
        obtain ⟨k', hk'⟩ := findMaxLoop_some E tol f t xs (i + 1)
          (E.dist_to_line_segment_v2 x.pos f.pos t.pos) i
        rw [hk'] at h
        simp at h
      · rw [if_neg hd] at h
        simp only [List.mem_cons] at he
        rcases he with rfl | he
        · refine ⟨rfl, rfl, ?_⟩
          by_contra hgt
          push_neg at hgt
          exact hd ⟨hgt, lt_of_le_of_lt hmd hgt⟩
        · exact ih _ h e he

theorem removeLoop_perm (f t : LANPR_RenderLineChainItem) (mid : List LANPR_RenderLineChainItem) :
    List.Perm ((removeLoop f t mid).1 ++ (removeLoop f t mid).2.map fun e => e.rlci) mid := by
  induction mid with
  | nil => simp [removeLoop]
  | cons x xs ih =>
    simp only [removeLoop]
    split
    · simpa using ih
    · simp only [List.map_cons]
      exact (List.perm_middle).trans (List.Perm.cons x ih)

/-- The two ways a call of the simplifier on a range ends: the second loop
(no item beyond the threshold), or the two recursive calls around the item the
first loop selected.  With more fuel than interior items the call returns, and
a property that holds in the first case and is inherited in the second holds
of the result. -/
theorem reduceRange_induct (E : Extern) (tol : ℚ)
    (P : LANPR_RenderLineChainItem → List LANPR_RenderLineChainItem →
      LANPR_RenderLineChainItem → List LANPR_RenderLineChainItem × List Removed → Prop)
    (hbase : ∀ f mid t, (findMaxLoop E tol f t mid 0 0 none).2 = none →
      P f mid t (removeLoop f t mid))
    (hsplit : ∀ f a m b t l r, (findMaxLoop E tol f t (a ++ m :: b) 0 0 none).2 = some a.length →
      P f a m l → P m b t r → P f (a ++ m :: b) t (l.1 ++ m :: r.1, l.2 ++ r.2)) :
    ∀ (fuel : Nat) (f : LANPR_RenderLineChainItem) (mid : List LANPR_RenderLineChainItem)
      (t : LANPR_RenderLineChainItem), mid.length < fuel →
      ∃ r, reduceRange E tol fuel f mid t = some r ∧ P f mid t r := by
  have hnil : ∀ f t, P f [] t ([], []) := fun f t => hbase f [] t rfl
  intro fuel
  induction fuel with
  | zero => intro f mid t h; omega
  | succ fuel ih =>
    intro f mid t hlen
    rw [reduceRange]
    cases hmax : (findMaxLoop E tol f t mid 0 0 none).2 with
    | none =>
      simp only
      by_cases hmid : mid = []
      · subst hmid
        exact ⟨([], []), by simp, hnil f t⟩
      · exact ⟨removeLoop f t mid, by simp [hmid], hbase f mid t hmax⟩
    | some k =>
      simp only
      have hk : k < mid.length := by
        rcases findMaxLoop_bound E tol f t mid 0 0 none k hmax with h | h
        · simp at h
        · omega
      have hsplitEq : mid = mid.take k ++ mid[k] :: mid.drop (k + 1) := by
        rw [← List.drop_eq_getElem_cons hk, List.take_append_drop]
      have htake : (mid.take k).length = k := by simp; omega
      rw [List.getElem?_eq_getElem hk]
      simp only
      -- left call
      have hl : ∃ l, (if mid.take k ≠ [] then reduceRange E tol fuel f (mid.take k) mid[k]
          else some ([], [])) = some l ∧ P f (mid.take k) mid[k] l := by
        by_cases he : mid.take k = []
        · rw [if_neg (not_not.mpr he), he]
          exact ⟨([], []), rfl, hnil _ _⟩
        · rw [if_pos he]
          exact ih f (mid.take k) mid[k] (by rw [htake]; omega)
      obtain ⟨l, hl1, hl2⟩ := hl
      have hr : ∃ r, (if mid.drop (k + 1) ≠ [] then
          reduceRange E tol fuel mid[k] (mid.drop (k + 1)) t
          else some ([], [])) = some r ∧ P mid[k] (mid.drop (k + 1)) t r := by
        by_cases he : mid.drop (k + 1) = []
        · rw [if_neg (not_not.mpr he), he]
          exact ⟨([], []), rfl, hnil _ _⟩
        · rw [if_pos he]
          exact ih mid[k] (mid.drop (k + 1)) t (by simp; omega)
      obtain ⟨r, hr1, hr2⟩ := hr
      rw [hl1]
      simp only
      rw [hr1]
      refine ⟨_, rfl, ?_⟩
      have := hsplit f (mid.take k) mid[k] (mid.drop (k + 1)) t l r
        (by rw [← hsplitEq, htake]; exact hmax) hl2 hr2
      rw [← hsplitEq] at this
      exact this

theorem mem_breakItems (t : LANPR_RenderLineChainItem) (mid : List LANPR_RenderLineChainItem)
    (i : Nat) (x : LANPR_RenderLineChainItem) (hx : mid[i]? = some x)
    (hb : ((mid[i + 1]?).getD t).OccludeLevel ≠ x.OccludeLevel ∨
      ((mid[i + 1]?).getD t).LineType ≠ x.LineType) :
    x ∈ breakItems t mid := by
  induction mid generalizing i with
  | nil => simp at hx
  | cons y ys ih =>
    rw [breakItems_cons]
    cases i with
    | zero =>
      simp only [List.getElem?_cons_zero, Option.some.injEq] at hx
      subst hx
      have hn : (ys[0]?).getD t = nextOf ys t := by cases ys <;> simp [nextOf]
      simp only [Nat.zero_add, List.getElem?_cons_succ] at hb
      rw [hn] at hb
      rw [if_pos hb]
      exact List.mem_cons_self _ _
    | succ i =>
      rw [List.getElem?_cons_succ] at hx
      rw [List.getElem?_cons_succ] at hb
      have := ih i hx hb
      split
      · exact List.mem_cons_of_mem _ this
      · exact this

/-- C3: whatever the range `from_, mid..., to_` and the threshold, the call
returns, and the interior items whose successor in the input differs in
occlusion level or line type are all kept, in their order; in particular the
item at any such position `i` is among the items left. -/
theorem reduce_keeps_breaks (E : Extern) (dist_threshold : ℚ)
    (from_ : LANPR_RenderLineChainItem) (mid : List LANPR_RenderLineChainItem)
    (to_ : LANPR_RenderLineChainItem) (extra : Nat) :
    ∃ r, reduceRange E dist_threshold (mid.length + 1 + extra) from_ mid to_ = some r ∧
      List.Sublist (breakItems to_ mid) r.1 ∧
      ∀ (i : Nat) (x : LANPR_RenderLineChainItem), mid[i]? = some x →
        (((mid[i + 1]?).getD to_).OccludeLevel ≠ x.OccludeLevel ∨
          ((mid[i + 1]?).getD to_).LineType ≠ x.LineType) → x ∈ r.1 := by
  obtain ⟨r, hr, hs⟩ := reduceRange_induct E dist_threshold
    (fun _ mid t r => List.Sublist (breakItems t mid) r.1)
    (fun f mid t _ => by beta_reduce; rw [removeLoop_fst])
    (fun f a m b t l r _ hl hr => by
      beta_reduce at hl hr ⊢
      rw [breakItems_append]
      exact List.Sublist.append hl (breakItems_sublist_cons t m b r.1 hr))
    (mid.length + 1 + extra) from_ mid to_ (by omega)
  exact ⟨r, hr, hs, fun i x hx hb => hs.subset (mem_breakItems to_ mid i x hx hb)⟩

/-- C2, as amended: with a threshold that is not negative the call returns,
every item it removes is within the threshold of the segment that joins the
two ends of the range that was being collapsed when it was removed, those two
ends are kept (each is an end of the whole range or an item left inside it),
and the items left together with the items removed are the interior items. -/
theorem reduce_removed_within_threshold (E : Extern) (dist_threshold : ℚ)
    (hpos : 0 ≤ dist_threshold)
    (from_ : LANPR_RenderLineChainItem) (mid : List LANPR_RenderLineChainItem)
    (to_ : LANPR_RenderLineChainItem) (extra : Nat) :
    ∃ r, reduceRange E dist_threshold (mid.length + 1 + extra) from_ mid to_ = some r ∧
      (∀ e ∈ r.2,
        E.dist_to_line_segment_v2 e.rlci.pos e.from_.pos e.to_.pos ≤ dist_threshold ∧
        e.from_ ∈ from_ :: r.1 ∧ e.to_ ∈ r.1 ++ [to_]) ∧
      List.Perm (r.1 ++ r.2.map fun e => e.rlci) mid := by
  obtain ⟨r, hr, hs⟩ := reduceRange_induct E dist_threshold
    (fun f mid t r =>
      (∀ e ∈ r.2,
        E.dist_to_line_segment_v2 e.rlci.pos e.from_.pos e.to_.pos ≤ dist_threshold ∧
        e.from_ ∈ f :: r.1 ∧ e.to_ ∈ r.1 ++ [t]) ∧
      List.Perm (r.1 ++ r.2.map fun e => e.rlci) mid)
    (fun f mid t hmax => by
      beta_reduce
      refine ⟨?_, removeLoop_perm f t mid⟩
      intro e he
      obtain ⟨h1, h2, h3⟩ := removeLoop_close E dist_threshold f t mid 0 0 hpos hmax e he
      rw [h1, h2]
      exact ⟨h3, List.mem_cons_self _ _, by simp⟩)
    (fun f a m b t l r _ hl hr => by
      beta_reduce at hl hr ⊢
      refine ⟨?_, ?_⟩
      · intro e he
        rcases List.mem_append.mp he with h | h
        · obtain ⟨h1, h2, h3⟩ := hl.1 e h
          refine ⟨h1, ?_, ?_⟩
          · rcases List.mem_cons.mp h2 with h2 | h2
            · exact h2 ▸ List.mem_cons_self _ _
            · exact List.mem_cons_of_mem _ (List.mem_append_left _ h2)
          · rcases List.mem_append.mp h3 with h3 | h3
            · exact List.mem_append_left _ (List.mem_append_left _ h3)
            · simp only [List.mem_singleton] at h3
              rw [h3]; simp
        · obtain ⟨h1, h2, h3⟩ := hr.1 e h
          refine ⟨h1, ?_, ?_⟩
          · rcases List.mem_cons.mp h2 with h2 | h2
            · rw [h2]; simp
            · simp [h2]
          · rcases List.mem_append.mp h3 with h3 | h3
            · simp [h3]
            · simp only [List.mem_singleton] at h3
              rw [h3]; simp
      · have h1 := hl.2
        have h2 := hr.2
        simp only [List.map_append]
        have : List.Perm (l.1 ++ m :: r.1 ++ (l.2.map (fun e => e.rlci) ++ r.2.map fun e => e.rlci))
            ((l.1 ++ l.2.map fun e => e.rlci) ++ m :: (r.1 ++ r.2.map fun e => e.rlci)) := by
          simp only [List.append_assoc, List.cons_append]
          refine List.Perm.append_left _ ?_
          refine List.Perm.trans ?_ (List.perm_middle).symm
          refine List.Perm.cons m ?_
          rw [← List.append_assoc, ← List.append_assoc]
          exact List.Perm.append_right _ List.perm_append_comm
        exact this.trans (List.Perm.append h1 (List.Perm.cons m h2)))
    (mid.length + 1 + extra) from_ mid to_ (by omega)
  exact ⟨r, hr, hs⟩

/-- A call in which the first loop selects no item ends with the second loop. -/
theorem reduceRange_of_none (E : Extern) (tol : ℚ) (fuel : Nat)
    (f : LANPR_RenderLineChainItem) (mid : List LANPR_RenderLineChainItem)
    (t : LANPR_RenderLineChainItem) (h : (findMaxLoop E tol f t mid 0 0 none).2 = none) :
    reduceRange E tol (fuel + 1) f mid t = some (removeLoop f t mid) := by
  rw [reduceRange, h]
  cases mid <;> simp [removeLoop]

theorem findMax_bentChain :
    (findMaxLoop exampleExtern (1 / 2)
      { pos := (0, 0), LineType := 2, OccludeLevel := 0 }
      { pos := (4, 0), LineType := 4, OccludeLevel := 0 }
      [{ pos := (1, 0), LineType := 2, OccludeLevel := 0 },
       { pos := (0, 3), LineType := 2, OccludeLevel := 0 },
       { pos := (3, 0), LineType := 4, OccludeLevel := 0 }] 0 0 none).2 = none := by
  norm_num [findMaxLoop, metaBreak, nextOf, exampleExtern, dist_to_line_segment_v2,
    closest_to_line_segment_v2, len_v2v2, sqrtf]

theorem reduce_bentChain :
    lanpr_reduce_render_line_chain_recursive exampleExtern (1 / 2) bentChain =
      some ([{ pos := (0, 0), LineType := 2, OccludeLevel := 0 },
             { pos := (0, 3), LineType := 2, OccludeLevel := 0 },
             { pos := (4, 0), LineType := 4, OccludeLevel := 0 }],
            [{ rlci := { pos := (1, 0), LineType := 2, OccludeLevel := 0 },
               from_ := { pos := (0, 0), LineType := 2, OccludeLevel := 0 },
               to_ := { pos := (4, 0), LineType := 4, OccludeLevel := 0 } },
             { rlci := { pos := (3, 0), LineType := 4, OccludeLevel := 0 },
               from_ := { pos := (0, 0), LineType := 2, OccludeLevel := 0 },
               to_ := { pos := (4, 0), LineType := 4, OccludeLevel := 0 } }]) := by
  simp only [lanpr_reduce_render_line_chain_recursive, bentChain, List.getLast?_cons_cons,
    List.getLast?_singleton, List.dropLast, List.length_cons, List.length_nil]
  rw [reduceRange_of_none _ _ _ _ _ _ findMax_bentChain]
  simp [removeLoop, metaBreak, nextOf]

/-- C2 fails as stated: with threshold 1/2 the simplifier reduces the five
points `(0,0) (1,0) (0,3) (3,0) (4,0)`, whose line type changes after `(0,3)`,
to `(0,0) (0,3) (4,0)`; the point `(1,0)` it removes then has `(0,0)` and
`(0,3)` as nearest kept neighbours, and lies at distance 1 from the segment
that joins them. -/
theorem reduce_threshold_counterexample :
    lanpr_reduce_render_line_chain_recursive exampleExtern (1 / 2) bentChain =
      some ([{ pos := (0, 0), LineType := 2, OccludeLevel := 0 },
             { pos := (0, 3), LineType := 2, OccludeLevel := 0 },
             { pos := (4, 0), LineType := 4, OccludeLevel := 0 }],
            [{ rlci := { pos := (1, 0), LineType := 2, OccludeLevel := 0 },
               from_ := { pos := (0, 0), LineType := 2, OccludeLevel := 0 },
               to_ := { pos := (4, 0), LineType := 4, OccludeLevel := 0 } },
             { rlci := { pos := (3, 0), LineType := 4, OccludeLevel := 0 },
               from_ := { pos := (0, 0), LineType := 2, OccludeLevel := 0 },
               to_ := { pos := (4, 0), LineType := 4, OccludeLevel := 0 } }]) ∧
      ¬ (exampleExtern.dist_to_line_segment_v2 ((1 : ℚ), (0 : ℚ)) (0, 0) (0, 3) ≤ 1 / 2) := by
  refine ⟨reduce_bentChain, ?_⟩
  norm_num [exampleExtern, dist_to_line_segment_v2, closest_to_line_segment_v2, len_v2v2, sqrtf]

/-- The amended C2 on the range of the five points above, threshold 1/2. -/
theorem reduce_removed_within_threshold_witness :
    (0 : ℚ) ≤ 1 / 2 ∧
    ∃ r, reduceRange exampleExtern (1 / 2)
        (([{ pos := (1, 0), LineType := 2, OccludeLevel := 0 },
           { pos := (0, 3), LineType := 2, OccludeLevel := 0 },
           { pos := (3, 0), LineType := 4, OccludeLevel := 0 }] :
            List LANPR_RenderLineChainItem).length + 1 + 0)
        { pos := (0, 0), LineType := 2, OccludeLevel := 0 }
        [{ pos := (1, 0), LineType := 2, OccludeLevel := 0 },
         { pos := (0, 3), LineType := 2, OccludeLevel := 0 },
         { pos := (3, 0), LineType := 4, OccludeLevel := 0 }]
        { pos := (4, 0), LineType := 4, OccludeLevel := 0 } = some r ∧
      (∀ e ∈ r.2,
        exampleExtern.dist_to_line_segment_v2 e.rlci.pos e.from_.pos e.to_.pos ≤ 1 / 2 ∧
        e.from_ ∈ ({ pos := (0, 0), LineType := 2, OccludeLevel := 0 } :
          LANPR_RenderLineChainItem) :: r.1 ∧
        e.to_ ∈ r.1 ++ [({ pos := (4, 0), LineType := 4, OccludeLevel := 0 } :
          LANPR_RenderLineChainItem)]) ∧
      List.Perm (r.1 ++ r.2.map fun e => e.rlci)
        [{ pos := (1, 0), LineType := 2, OccludeLevel := 0 },
         { pos := (0, 3), LineType := 2, OccludeLevel := 0 },
         { pos := (3, 0), LineType := 4, OccludeLevel := 0 }] :=
  ⟨by norm_num, reduce_removed_within_threshold exampleExtern (1 / 2) (by norm_num) _ _ _ 0⟩

/-! ### Chain builder: one growth step -/

theorem lor_land_self (a p : Nat) : (a ||| p) &&& p = p := by
  apply Nat.eq_of_testBit_eq
  intro i
  simp only [Nat.testBit_land, Nat.testBit_lor]
  cases a.testBit i <;> cases p.testBit i <;> rfl

/-- A line that was marked is skipped by the two tests of eligibility. -/
theorem notPickable_markPicked (E : Extern) (hP : E.LANPR_EDGE_FLAG_CHAIN_PICKED ≠ 0)
    (rl : LANPR_RenderLine) : notPickable E (markPicked E rl) = true := by
  simp only [notPickable, markPicked, lor_land_self, Bool.or_eq_true, beq_iff_eq, bne_iff_ne]
  exact Or.inr hP

theorem notPickable_false_iff (E : Extern) (rl : LANPR_RenderLine) :
    notPickable E rl = false ↔
      rl.Flags &&& E.LANPR_EDGE_FLAG_ALL_TYPE ≠ 0 ∧
      rl.Flags &&& E.LANPR_EDGE_FLAG_CHAIN_PICKED = 0 := by
  simp [notPickable]

/-- What a non-null result of `lanpr_GetConnectedRenderLine` is: an entry of
the cell, the record of an eligible line, met at one end by the frontier vertex
(the same vertex, or the same coordinates), with the other end in `new_rv`. -/
theorem getConnectedLoop_spec (E : Extern) (lines : List LANPR_RenderLine)
    (rv : LANPR_RenderVert) (cell : List Nat) (p : Nat) (nrl : LANPR_RenderLine)
    (rv' : LANPR_RenderVert) (h : getConnectedLoop E lines rv cell = some (p, nrl, rv')) :
    p ∈ cell ∧ lines[p]? = some nrl ∧ notPickable E nrl = false ∧
      ((rv.FrameBufferCoord = nrl.L.FrameBufferCoord ∧ rv' = nrl.R) ∨
        (rv.FrameBufferCoord = nrl.R.FrameBufferCoord ∧ rv' = nrl.L)) := by
  induction cell with
  | nil => simp [getConnectedLoop] at h
  | cons lip rest ih =>
    rw [getConnectedLoop] at h
    have hrec : getConnectedLoop E lines rv rest = some (p, nrl, rv') →
        p ∈ lip :: rest ∧ lines[p]? = some nrl ∧ notPickable E nrl = false ∧
        ((rv.FrameBufferCoord = nrl.L.FrameBufferCoord ∧ rv' = nrl.R) ∨
          (rv.FrameBufferCoord = nrl.R.FrameBufferCoord ∧ rv' = nrl.L)) := by
      intro h'
      obtain ⟨h1, h2⟩ := ih h'
      exact ⟨List.mem_cons_of_mem _ h1, h2⟩
    cases hl : lines[lip]? with
    | none => rw [hl] at h; exact hrec h
    | some l =>
      rw [hl] at h
      simp only at h
      by_cases hnp : notPickable E l = true
      · rw [if_pos hnp] at h; exact hrec h
      · rw [if_neg hnp] at h
        have hnp' : notPickable E l = false := by simpa using hnp
        by_cases hrv : rv ≠ l.L ∧ rv ≠ l.R
        · rw [if_pos hrv] at h
          by_cases hint : l.Flags &&& E.LANPR_EDGE_FLAG_INTERSECTION ≠ 0
          · rw [if_pos hint] at h
            by_cases hL : rv.FrameBufferCoord.1 = l.L.FrameBufferCoord.1 ∧
                rv.FrameBufferCoord.2 = l.L.FrameBufferCoord.2
            · rw [if_pos hL] at h
              simp only [Option.some.injEq, Prod.mk.injEq] at h
              obtain ⟨rfl, rfl, rfl⟩ := h
              refine ⟨List.mem_cons_self _ _, hl, hnp', Or.inl ⟨Prod.ext hL.1 hL.2, ?_⟩⟩
              simp [LANPR_OTHER_RV]
            · rw [if_neg hL] at h
              by_cases hR : rv.FrameBufferCoord.1 = l.R.FrameBufferCoord.1 ∧
                  rv.FrameBufferCoord.2 = l.R.FrameBufferCoord.2
              · rw [if_pos hR] at h
                simp only [Option.some.injEq, Prod.mk.injEq] at h
                obtain ⟨rfl, rfl, rfl⟩ := h
                refine ⟨List.mem_cons_self _ _, hl, hnp', Or.inr ⟨Prod.ext hR.1 hR.2, ?_⟩⟩
                unfold LANPR_OTHER_RV
                split
                · rename_i heq; exact heq
                · rfl
              · rw [if_neg hR] at h; exact hrec h
          · rw [if_neg hint] at h; exact hrec h
        · rw [if_neg hrv] at h
          simp only [Option.some.injEq, Prod.mk.injEq] at h
          obtain ⟨rfl, rfl, rfl⟩ := h
          refine ⟨List.mem_cons_self _ _, hl, hnp', ?_⟩
          by_cases h1 : rv = l.L
          · left; exact ⟨by rw [h1], by simp [LANPR_OTHER_RV, h1]⟩
          · have h2 : rv = l.R := by
              by_contra h2; exact hrv ⟨h1, h2⟩
            right; exact ⟨by rw [h2], by simp [LANPR_OTHER_RV, h1]⟩

theorem addPoint_picked (E : Extern) (side : Side) (pool : Nat) (rlc : LANPR_RenderLineChain)
    (x y : ℚ) (type : Nat) (level : Int) :
    (addPoint E side pool rlc x y type level).2.picked = rlc.picked ∧
      (addPoint E side pool rlc x y type level).2.raw = rlc.raw := by
  cases side <;> exact ⟨rfl, rfl⟩

theorem addPoint_view (E : Extern) (side : Side) (pool : Nat) (rlc : LANPR_RenderLineChain)
    (x y : ℚ) (type : Nat) (level : Int) :
    viewPts side (addPoint E side pool rlc x y type level).2 = (x, y) :: viewPts side rlc ∧
    viewPicked side (addPoint E side pool rlc x y type level).2 = viewPicked side rlc := by
  cases side
  · exact ⟨rfl, rfl⟩
  · refine ⟨?_, rfl⟩
    simp [viewPts, addPoint, lanpr_append_render_line_chain_point]

theorem notePicked_view (side : Side) (p : Nat) (rlc : LANPR_RenderLineChain) :
    viewPts side (notePicked side p rlc) = viewPts side rlc ∧
    viewPicked side (notePicked side p rlc) = p :: viewPicked side rlc ∧
    (notePicked side p rlc).raw = rlc.raw := by
  cases side
  · exact ⟨rfl, rfl, rfl⟩
  · refine ⟨rfl, ?_, rfl⟩
    simp [viewPicked, notePicked]

theorem notePicked_perm (side : Side) (p : Nat) (rlc : LANPR_RenderLineChain) :
    List.Perm (notePicked side p rlc).picked (p :: rlc.picked) := by
  cases side
  · exact List.Perm.refl _
  · simp only [notePicked]
    exact List.perm_append_comm

theorem emitOwnLevel_info (E : Extern) (side : Side) (rl : LANPR_RenderLine)
    (segs : List LANPR_RenderLineSegment) (pool : Nat) (rlc : LANPR_RenderLineChain) :
    (emitOwnLevel E side rl segs pool rlc).2.picked = rlc.picked ∧
    (emitOwnLevel E side rl segs pool rlc).2.raw = rlc.raw ∧
    (emitOwnLevel E side rl segs pool rlc).2.Chain.length = rlc.Chain.length + segs.length := by
  induction segs generalizing pool rlc with
  | nil => exact ⟨rfl, rfl, rfl⟩
  | cons s rest ih =>
    rw [emitOwnLevel]
    obtain ⟨h1, h2, h3⟩ := ih (addPoint E side pool rlc _ _ rl.Flags s.OccludeLevel).1
      (addPoint E side pool rlc _ _ rl.Flags s.OccludeLevel).2
    obtain ⟨h4, h5⟩ := addPoint_picked E side pool rlc
      (tnsLinearItp rl.L.FrameBufferCoord.1 rl.R.FrameBufferCoord.1 s.at_)
      (tnsLinearItp rl.L.FrameBufferCoord.2 rl.R.FrameBufferCoord.2 s.at_) rl.Flags s.OccludeLevel
    refine ⟨h1.trans h4, h2.trans h5, ?_⟩
    rw [h3]
    cases side <;> simp [addPoint, lanpr_push_render_line_chain_point,
      lanpr_append_render_line_chain_point] <;> omega

theorem emitLastLevel_info (E : Extern) (side : Side) (rl : LANPR_RenderLine)
    (segs : List LANPR_RenderLineSegment) (lo : Int) (pool : Nat) (rlc : LANPR_RenderLineChain) :
    (emitLastLevel E side rl segs lo pool rlc).2.picked = rlc.picked ∧
    (emitLastLevel E side rl segs lo pool rlc).2.raw = rlc.raw ∧
    (emitLastLevel E side rl segs lo pool rlc).2.Chain.length =
      rlc.Chain.length + segs.length + 1 := by
  induction segs generalizing lo pool rlc with
  | nil =>
    rw [emitLastLevel]
    obtain ⟨h4, h5⟩ := addPoint_picked E side pool rlc rl.R.FrameBufferCoord.1
      rl.R.FrameBufferCoord.2 rl.Flags lo
    refine ⟨h4, h5, ?_⟩
    cases side <;> simp [addPoint, lanpr_push_render_line_chain_point,
      lanpr_append_render_line_chain_point]
  | cons s rest ih =>
    rw [emitLastLevel]
    obtain ⟨h1, h2, h3⟩ := ih s.OccludeLevel (addPoint E side pool rlc _ _ rl.Flags lo).1
      (addPoint E side pool rlc _ _ rl.Flags lo).2
    obtain ⟨h4, h5⟩ := addPoint_picked E side pool rlc
      (tnsLinearItp rl.L.FrameBufferCoord.1 rl.R.FrameBufferCoord.1 s.at_)
      (tnsLinearItp rl.L.FrameBufferCoord.2 rl.R.FrameBufferCoord.2 s.at_) rl.Flags lo
    refine ⟨h1.trans h4, h2.trans h5, ?_⟩
    rw [h3]
    cases side <;> simp [addPoint, lanpr_push_render_line_chain_point,
      lanpr_append_render_line_chain_point] <;> omega

theorem touches_symm {l l' : LANPR_RenderLine} (h : touches l l') : touches l' l := by
  unfold touches at h ⊢
  rcases h with h | h | h | h
  · exact Or.inl h.symm
  · exact Or.inr (Or.inr (Or.inl h.symm))
  · exact Or.inr (Or.inl h.symm)
  · exact Or.inr (Or.inr (Or.inr h.symm))

theorem touch_symm {lines : List LANPR_RenderLine} {p q : Nat} (h : touch lines p q) :
    touch lines q p := by
  obtain ⟨l, l', h1, h2, h3⟩ := h
  exact ⟨l', l, h2, h1, touches_symm h3⟩

theorem Joins_symm {lines : List LANPR_RenderLine} {p : Nat} {q q' : Pos}
    (h : Joins lines p q q') : Joins lines p q' q := by
  obtain ⟨l, h1, h2⟩ := h
  exact ⟨l, h1, h2.symm.imp (fun h => ⟨h.2, h.1⟩) (fun h => ⟨h.2, h.1⟩)⟩

theorem tnsLinearItp_zero (l r : ℚ) : tnsLinearItp l r 0 = l := by
  simp [tnsLinearItp]

theorem viewPicked_congr (side : Side) (a b : LANPR_RenderLineChain) (h : a.picked = b.picked) :
    viewPicked side a = viewPicked side b := by
  cases side <;> simp [viewPicked, h]

/-- The body of a growth step on a line that has a segment, reached at one of
its ends: it returns, leaves the ghost fields alone and does not shorten the
chain; on a line of one segment at 0 it adds one point, the position of the
end reached. -/
theorem emitLine_spec (E : Extern) (side : Side) (nrl : LANPR_RenderLine)
    (rv : LANPR_RenderVert) (pool : Nat) (rlc : LANPR_RenderLineChain)
    (hrv : rv = nrl.L ∨ rv = nrl.R) (hseg : nrl.Segments ≠ []) :
    ∃ r, emitLine E side (markPicked E nrl) rv pool rlc = some r ∧
      r.2.picked = rlc.picked ∧ r.2.raw = rlc.raw ∧
      rlc.Chain.length ≤ r.2.Chain.length ∧
      (SingleSeg nrl → viewPts side r.2 = rv.FrameBufferCoord :: viewPts side rlc) := by
  unfold emitLine
  by_cases hL : rv = (markPicked E nrl).L
  · rw [if_pos hL]
    obtain ⟨h1, h2, h3⟩ := emitOwnLevel_info E side (markPicked E nrl)
      (markPicked E nrl).Segments.reverse pool rlc
    refine ⟨_, rfl, h1, h2, by omega, ?_⟩
    rintro ⟨o, ho⟩
    have hs : (markPicked E nrl).Segments = [{ at_ := 0, OccludeLevel := o }] := ho
    rw [hs]
    simp only [List.reverse_singleton, emitOwnLevel, tnsLinearItp_zero]
    rw [(addPoint_view E side pool rlc _ _ _ _).1, hL]
  · rw [if_neg hL]
    have hR : rv = (markPicked E nrl).R := by
      rcases hrv with h | h
      · exact absurd h hL
      · exact h
    rw [if_pos hR]
    cases hs : (markPicked E nrl).Segments with
    | nil => exact absurd hs hseg
    | cons s rest =>
      simp only
      obtain ⟨h1, h2, h3⟩ := emitLastLevel_info E side (markPicked E nrl) rest s.OccludeLevel
        pool rlc
      refine ⟨_, rfl, h1, h2, by omega, ?_⟩
      rintro ⟨o, ho⟩
      have hs' : (markPicked E nrl).Segments = [{ at_ := 0, OccludeLevel := o }] := ho
      rw [hs] at hs'
      simp only [List.cons.injEq] at hs'
      obtain ⟨-, rfl⟩ := hs'
      simp only [emitLastLevel]
      rw [(addPoint_view E side pool rlc _ _ _ _).1, hR]

theorem Core.length_le {E : Extern} {lines0 lines : List LANPR_RenderLine} {consumed : List Nat}
    (h : Core E lines0 lines consumed) : consumed.length ≤ lines0.length := by
  have hsub : consumed ⊆ List.range lines0.length := by
    intro i hi
    obtain ⟨l0, h0, -⟩ := h.marked i hi
    exact List.mem_range.mpr (List.getElem?_eq_some_iff.mp h0).1
  have := (h.nodup.subperm hsub).length_le
  simpa using this

/-- Consuming an eligible line keeps `Core`. -/
theorem Core.pick {E : Extern} (hP : E.LANPR_EDGE_FLAG_CHAIN_PICKED ≠ 0)
    {lines0 lines : List LANPR_RenderLine} {consumed : List Nat}
    (h : Core E lines0 lines consumed) (p : Nat) (nrl : LANPR_RenderLine)
    (hp : lines[p]? = some nrl) (hnp : notPickable E nrl = false)
    (consumed' : List Nat) (hperm : List.Perm consumed' (p :: consumed)) :
    p ∉ consumed ∧ lines0[p]? = some nrl ∧
      Core E lines0 (lines.set p (markPicked E nrl)) consumed' := by
  have hnot : p ∉ consumed := by
    intro hmem
    obtain ⟨l0, -, -, h3⟩ := h.marked p hmem
    rw [hp] at h3
    have := notPickable_markPicked E hP l0
    rw [← Option.some.inj h3, hnp] at this
    exact Bool.false_ne_true this
  have h0 : lines0[p]? = some nrl := by rw [← h.rest p hnot]; exact hp
  have hplt : p < lines.length := (List.getElem?_eq_some_iff.mp hp).1
  refine ⟨hnot, h0, ?_, ?_, ?_, ?_⟩
  · rw [List.length_set]; exact h.len
  · exact (List.Perm.nodup_iff hperm).mpr (List.nodup_cons.mpr ⟨hnot, h.nodup⟩)
  · intro i hi
    rcases List.mem_cons.mp (hperm.subset hi) with rfl | hi
    · exact ⟨nrl, h0, hnp, by rw [List.getElem?_set_self hplt]⟩
    · obtain ⟨l0, h1, h2, h3⟩ := h.marked i hi
      refine ⟨l0, h1, h2, ?_⟩
      have hne : p ≠ i := fun e => hnot (e ▸ hi)
      rw [List.getElem?_set_ne hne]; exact h3
  · intro i hi
    have hi' : i ∉ p :: consumed := fun hm => hi (hperm.symm.subset hm)
    have hne : p ≠ i := fun e => hi' (e ▸ List.mem_cons_self _ _)
    rw [List.getElem?_set_ne hne]
    exact h.rest i (fun hm => hi' (List.mem_cons_of_mem _ hm))

/-! ### Chain builder: the loops -/

theorem IsWalk_cons {lines : List LANPR_RenderLine} {pts : List Pos} {w : List Nat}
    (h : IsWalk lines pts w) (q q' : Pos) (p : Nat) (hq : pts.head? = some q)
    (hj : Joins lines p q' q) : IsWalk lines (q' :: pts) (p :: w) := by
  cases pts with
  | nil => simp at hq
  | cons a rest =>
    simp only [List.head?_cons, Option.some.injEq] at hq
    subst hq
    exact ⟨hj, h⟩

/-- The growth loop, started in a state that satisfies `Grow` with enough
fuel for the lines not consumed yet, returns in a state that satisfies `Grow`;
it leaves the chains finished before and the spatial index alone and does not
shorten the chain. -/
theorem growLoop_total (E : Extern) (hP : E.LANPR_EDGE_FLAG_CHAIN_PICKED ≠ 0)
    (lines0 : List LANPR_RenderLine) (hseg : ∀ l ∈ lines0, l.Segments ≠ [])
    (done : List LANPR_RenderLineChain) (side : Side) (pend : List Nat) (anchor : Pos) :
    ∀ (fuel : Nat) (rb : LANPR_RenderBuffer) (ba : Option LANPR_BoundingArea)
      (rv : LANPR_RenderVert) (rlc : LANPR_RenderLineChain),
      Grow E lines0 done side pend anchor rb rv rlc →
      lines0.length < fuel + (consumedBy done ++ rlc.picked).length →
      ∃ rb' rlc' rv', growLoop E side fuel rb ba rv rlc = some (rb', rlc') ∧
        Grow E lines0 done side pend anchor rb' rv' rlc' ∧
        rb'.Chains = rb.Chains ∧ rb'.BoundingAreas = rb.BoundingAreas ∧
        rlc.Chain.length ≤ rlc'.Chain.length ∧ rlc'.raw = rlc.raw ∧
        (∀ x ∈ rlc.picked, x ∈ rlc'.picked) := by
  intro fuel
  induction fuel with
  | zero =>
    intro rb ba rv rlc hG hf
    have := hG.core.length_le
    omega
  | succ fuel ih =>
    intro rb ba rv rlc hG hf
    cases ba with
    | none => exact ⟨rb, rlc, rv, by rw [growLoop], hG, rfl, rfl, le_refl _, rfl, fun _ h => h⟩
    | some area =>
      rw [growLoop]
      cases hget : lanpr_GetConnectedRenderLine E rb.AllRenderLines area rv with
      | none => exact ⟨rb, rlc, rv, rfl, hG, rfl, rfl, le_refl _, rfl, fun _ h => h⟩
      | some found =>
        obtain ⟨p, nrl, rv1⟩ := found
        simp only
        obtain ⟨-, hp, hnp, hconn⟩ := getConnectedLoop_spec E rb.AllRenderLines rv
          area.LinkedLines p nrl rv1 hget
        have hperm : List.Perm (consumedBy done ++ (notePicked side p rlc).picked)
            (p :: (consumedBy done ++ rlc.picked)) :=
          (List.Perm.append_left _ (notePicked_perm side p rlc)).trans List.perm_middle
        have hrv1 : rv1 = nrl.L ∨ rv1 = nrl.R := by
          rcases hconn with h | h
          · exact Or.inr h.2
          · exact Or.inl h.2
        obtain ⟨hnot, h0, -⟩ := hG.core.pick hP p nrl hp hnp _ hperm
        have hsegp : nrl.Segments ≠ [] := hseg nrl (List.getElem?_mem h0)
        obtain ⟨r, hr, hpk, hraw, hlen, hsingle⟩ := emitLine_spec E side nrl rv1
          rb.RenderDataPool (notePicked side p rlc) hrv1 hsegp
        rw [hr]
        simp only
        have hperm' : List.Perm (consumedBy done ++ r.2.picked)
            (p :: (consumedBy done ++ rlc.picked)) := by rw [hpk]; exact hperm
        obtain ⟨-, -, hcore⟩ := hG.core.pick hP p nrl hp hnp _ hperm'
        have hview : viewPicked side r.2 = p :: viewPicked side rlc := by
          rw [viewPicked_congr side r.2 (notePicked side p rlc) hpk]
          exact (notePicked_view side p rlc).2.1
        have hG' : Grow E lines0 done side pend anchor
            { rb with AllRenderLines := rb.AllRenderLines.set p (markPicked E nrl),
                      RenderDataPool := r.1 } rv1 r.2 := by
          refine ⟨hcore, ?_, ?_, ?_⟩
          · exact ⟨p, nrl, by rw [hview]; rfl, h0, hrv1⟩
          · rw [hview]
            refine List.Chain'.cons' hG.linked ?_
            intro y hy
            obtain ⟨p0, l0, hhead, hl0, hend⟩ := hG.front
            rw [hhead] at hy
            obtain rfl := Option.some.inj hy
            refine ⟨nrl, l0, h0, hl0, ?_⟩
            unfold touches
            rcases hconn with ⟨hc, -⟩ | ⟨hc, -⟩ <;> rcases hend with he | he <;>
              rw [he] at hc <;> simp [hc]
          · obtain ⟨w, hw1, hw⟩ := hG.walk
            refine ⟨p :: w, by rw [hview, hw1]; rfl, ?_⟩
            intro hall
            obtain ⟨hw2, hw3, hw4⟩ := hw hall
            have hone : SingleSeg nrl := hall nrl (List.getElem?_mem h0)
            have hpts : viewPts side r.2 = rv1.FrameBufferCoord :: viewPts side rlc := by
              rw [hsingle hone, (notePicked_view side p rlc).1]
            refine ⟨?_, by rw [hpts]; rfl, ?_⟩
            · rw [hpts]
              refine IsWalk_cons hw2 _ _ p hw3 ⟨nrl, h0, ?_⟩
              rcases hconn with ⟨hc, h2⟩ | ⟨hc, h2⟩
              · exact Or.inr ⟨by rw [h2], hc⟩
              · exact Or.inl ⟨by rw [h2], hc⟩
            · rw [hpts]
              cases hv : viewPts side rlc with
              | nil => rw [hv] at hw3; simp at hw3
              | cons a rest => rw [hv] at hw4; simpa using hw4
        have hf' : lines0.length < fuel + (consumedBy done ++ r.2.picked).length := by
          rw [hperm'.length_eq]
          simp only [List.length_cons]
          omega
        obtain ⟨rb', rlc', rv', h1, h2, h3, h4, h5, h6, h7⟩ := ih _
          (lanpr_GetPointBoundingArea
            { rb with AllRenderLines := rb.AllRenderLines.set p (markPicked E nrl),
                      RenderDataPool := r.1 } rv1.FrameBufferCoord.1 rv1.FrameBufferCoord.2)
          rv1 r.2 hG' hf'
        refine ⟨rb', rlc', rv', h1, h2, h3, h4, ?_, ?_, ?_⟩
        · have : rlc.Chain.length ≤ r.2.Chain.length := by
            have e : (notePicked side p rlc).Chain = rlc.Chain := by cases side <;> rfl
            rw [← e]; exact hlen
          omega
        · rw [h6, hraw]; exact (notePicked_view side p rlc).2.2
        · intro x hx
          apply h7
          rw [hpk]
          exact (notePicked_perm side p rlc).symm.subset (List.mem_cons_of_mem _ hx)

theorem IsWalk_append {lines : List LANPR_RenderLine} {pts : List Pos} {w : List Nat}
    (h : IsWalk lines pts w) (q q' : Pos) (p : Nat) (hq : pts.getLast? = some q)
    (hj : Joins lines p q q') : IsWalk lines (pts ++ [q']) (w ++ [p]) := by
  induction w generalizing pts with
  | nil =>
    match pts, h with
    | [a], _ =>
      simp only [List.getLast?_singleton, Option.some.injEq] at hq
      subst hq
      exact ⟨hj, trivial⟩
  | cons p0 ps ih =>
    match pts, h with
    | a :: b :: rest, ⟨h1, h2⟩ =>
      have hq' : (b :: rest).getLast? = some q := by
        rw [List.getLast?_cons_cons] at hq; exact hq
      exact ⟨h1, ih h2 hq'⟩

theorem IsWalk_reverse {lines : List LANPR_RenderLine} {pts : List Pos} {w : List Nat}
    (h : IsWalk lines pts w) : IsWalk lines pts.reverse w.reverse := by
  induction w generalizing pts with
  | nil =>
    match pts, h with
    | [a], _ => exact trivial
  | cons p0 ps ih =>
    match pts, h with
    | a :: b :: rest, ⟨h1, h2⟩ =>
      have h3 := ih h2
      rw [List.reverse_cons (a := a), List.reverse_cons (a := p0)]
      refine IsWalk_append h3 b a p0 ?_ (Joins_symm h1)
      simp

/-- A walk read by positions: one point more than lines, and the points of
ranks `k` and `k + 1` are the two ends of the line of rank `k`. -/
theorem IsWalk_index {lines : List LANPR_RenderLine} {pts : List Pos} {w : List Nat}
    (h : IsWalk lines pts w) :
    pts.length = w.length + 1 ∧
      ∀ (k p : Nat), w[k]? = some p →
        ∃ (l : LANPR_RenderLine) (q q' : Pos), lines[p]? = some l ∧
          pts[k]? = some q ∧ pts[k + 1]? = some q' ∧
          ((q = l.L.FrameBufferCoord ∧ q' = l.R.FrameBufferCoord) ∨
            (q = l.R.FrameBufferCoord ∧ q' = l.L.FrameBufferCoord)) := by
  induction w generalizing pts with
  | nil =>
    match pts, h with
    | [a], _ => exact ⟨rfl, fun k p hk => by simp at hk⟩
  | cons p0 ps ih =>
    match pts, h with
    | a :: b :: rest, ⟨h1, h2⟩ =>
      obtain ⟨hl, hi⟩ := ih h2
      refine ⟨by simp only [List.length_cons] at hl ⊢; omega, ?_⟩
      intro k p hk
      cases k with
      | zero =>
        simp only [List.getElem?_cons_zero, Option.some.injEq] at hk
        subst hk
        obtain ⟨l, hl0, hends⟩ := h1
        exact ⟨l, a, b, hl0, by simp, by simp, hends⟩
      | succ k =>
        rw [List.getElem?_cons_succ] at hk
        obtain ⟨l, q, q', h3, h4, h5, h6⟩ := hi k p hk
        exact ⟨l, q, q', h3, by rw [List.getElem?_cons_succ]; exact h4,
          by rw [List.getElem?_cons_succ]; exact h5, h6⟩

/-- What the body of the main loop builds, up to the call of the simplifier,
from an eligible line `rl0` at position `p`, when the lines of `done` are the
lines consumed so far. -/
theorem buildChain_spec (E : Extern) (hP : E.LANPR_EDGE_FLAG_CHAIN_PICKED ≠ 0)
    (lines0 : List LANPR_RenderLine) (hseg : ∀ l ∈ lines0, l.Segments ≠ [])
    (done : List LANPR_RenderLineChain) (rb : LANPR_RenderBuffer)
    (hcore : Core E lines0 rb.AllRenderLines (consumedBy done))
    (p : Nat) (rl0 : LANPR_RenderLine) (hp : rb.AllRenderLines[p]? = some rl0)
    (hnp : notPickable E rl0 = false) :
    ∃ rb' rlc, buildChain E rb p rl0 = some (rb', rlc) ∧
      Core E lines0 rb'.AllRenderLines (consumedBy done ++ rlc.picked) ∧
      rb'.Chains = rb.Chains ∧ rb'.BoundingAreas = rb.BoundingAreas ∧
      p ∈ rlc.picked ∧ List.Chain' (touch lines0) rlc.picked ∧ 2 ≤ rlc.Chain.length ∧
      ((∀ l ∈ lines0, SingleSeg l) →
        IsWalk lines0 (rlc.Chain.map fun (c : LANPR_RenderLineChainItem) => c.pos) rlc.picked) := by
  have hlen : rb.AllRenderLines.length = lines0.length := hcore.len
  have hperm0 : List.Perm (consumedBy done ++ [p]) (p :: consumedBy done) :=
    List.perm_append_comm
  obtain ⟨hnot, h0, hcore1⟩ := hcore.pick hP p rl0 hp hnp _ hperm0
  have hsegp : rl0.Segments ≠ [] := hseg rl0 (List.getElem?_mem h0)
  -- step 1
  have hG1 : Grow E lines0 done Side.left [p] rl0.L.FrameBufferCoord
      { rb with AllRenderLines := rb.AllRenderLines.set p (markPicked E rl0),
                RenderDataPool := rb.RenderDataPool + 1 + 1 }
      rl0.L
      (lanpr_push_render_line_chain_point E (rb.RenderDataPool + 1)
        { Chain := [], picked := [p], raw := [] }
        rl0.L.FrameBufferCoord.1 rl0.L.FrameBufferCoord.2 (markPicked E rl0).Flags 0).2 := by
    refine ⟨hcore1, ⟨p, rl0, rfl, h0, Or.inl rfl⟩, ?_, ⟨[], rfl, fun _ => ⟨trivial, rfl, rfl⟩⟩⟩
    simp [viewPicked, lanpr_push_render_line_chain_point]
  obtain ⟨rb2, rlc2, rv2, hg2, hG2, hch2, hba2, hlen2, hraw2, hmono2⟩ :=
    growLoop_total E hP lines0 hseg done Side.left [p] rl0.L.FrameBufferCoord
      (rb.AllRenderLines.length + 1) _
      (lanpr_GetPointBoundingArea
        { rb with AllRenderLines := rb.AllRenderLines.set p (markPicked E rl0),
                  RenderDataPool := rb.RenderDataPool + 1 }
        rl0.L.FrameBufferCoord.1 rl0.L.FrameBufferCoord.2) _ _ hG1
      (by rw [hlen]; omega)
  -- step 2
  obtain ⟨s, rest, hs⟩ : ∃ s rest, rl0.Segments = s :: rest := by
    cases h : rl0.Segments with
    | nil => exact absurd h hsegp
    | cons s rest => exact ⟨s, rest, rfl⟩
  obtain ⟨e1, e2, e3⟩ := emitOwnLevel_info E Side.right (markPicked E rl0) rest
    rb2.RenderDataPool rlc2
  let r2 := emitOwnLevel E Side.right (markPicked E rl0) rest rb2.RenderDataPool rlc2
  let r3 := lanpr_append_render_line_chain_point E r2.1 r2.2
    rl0.R.FrameBufferCoord.1 rl0.R.FrameBufferCoord.2 (markPicked E rl0).Flags 0
  have hr3p : r3.2.picked = rlc2.picked := e1
  have hr3c : r3.2.Chain.length = rlc2.Chain.length + rest.length + 1 := by
    show (r2.2.Chain ++ [_]).length = _
    rw [List.length_append, e3]; rfl
  have hone2 : 1 ≤ rlc2.Chain.length := by
    simp [lanpr_push_render_line_chain_point] at hlen2; exact hlen2
  obtain ⟨w, hw1, hw⟩ := hG2.walk
  have hw1' : rlc2.picked = w ++ [p] := hw1
  -- step 3
  have hG3 : Grow E lines0 done Side.right [] rv2.FrameBufferCoord
      { rb2 with RenderDataPool := r3.1 } rl0.R r3.2 := by
    refine ⟨?_, ?_, ?_, ?_⟩
    · rw [hr3p]; exact hG2.core
    · refine ⟨p, rl0, ?_, h0, Or.inr rfl⟩
      show (r3.2.picked.reverse).head? = some p
      rw [hr3p, hw1']; simp
    · show List.Chain' (touch lines0) r3.2.picked.reverse
      rw [hr3p, List.chain'_reverse]
      have : List.Chain' (touch lines0) rlc2.picked := hG2.linked
      exact this.imp (fun _ _ h => touch_symm h)
    · refine ⟨r3.2.picked.reverse, by simp [viewPicked], ?_⟩
      intro hall
      obtain ⟨hwk, hhead, hlast⟩ := hw hall
      have hrest : rest = [] := by
        obtain ⟨o, ho⟩ := hall rl0 (List.getElem?_mem h0)
        rw [hs] at ho
        simp only [List.cons.injEq] at ho
        exact ho.2
      have hpts : (r3.2.Chain.map fun (c : LANPR_RenderLineChainItem) => c.pos) =
          (rlc2.Chain.map fun (c : LANPR_RenderLineChainItem) => c.pos) ++ [rl0.R.FrameBufferCoord] := by
        show ((r2.2.Chain ++ [_]).map fun (c : LANPR_RenderLineChainItem) => c.pos) = _
        have : r2.2 = rlc2 := by
          show (emitOwnLevel E Side.right (markPicked E rl0) rest rb2.RenderDataPool rlc2).2 = _
          rw [hrest]; rfl
        rw [this]
        simp
      have hfull : IsWalk lines0 (r3.2.Chain.map fun (c : LANPR_RenderLineChainItem) => c.pos) r3.2.picked := by
        rw [hpts, hr3p, hw1']
        exact IsWalk_append hwk _ _ p hlast ⟨rl0, h0, Or.inl ⟨rfl, rfl⟩⟩
      refine ⟨IsWalk_reverse hfull, ?_, ?_⟩
      · show ((r3.2.Chain.map fun (c : LANPR_RenderLineChainItem) => c.pos).reverse).head? = _
        rw [hpts]; simp
      · show ((r3.2.Chain.map fun (c : LANPR_RenderLineChainItem) => c.pos).reverse).getLast? = _
        rw [List.getLast?_reverse, hpts]
        have hv : viewPts Side.left rlc2 = rlc2.Chain.map fun (c : LANPR_RenderLineChainItem) => c.pos := rfl
        rw [hv] at hhead
        cases hc : (rlc2.Chain.map fun (c : LANPR_RenderLineChainItem) => c.pos) with
        | nil => rw [hc] at hhead; simp at hhead
        | cons a l => rw [hc] at hhead; simpa using hhead
  obtain ⟨rb4, rlc4, rv4, hg4, hG4, hch4, hba4, hlen4, hraw4, hmono4⟩ :=
    growLoop_total E hP lines0 hseg done Side.right [] rv2.FrameBufferCoord
      (rb.AllRenderLines.length + 1) { rb2 with RenderDataPool := r3.1 }
      (lanpr_GetPointBoundingArea { rb2 with RenderDataPool := r3.1 }
        rl0.R.FrameBufferCoord.1 rl0.R.FrameBufferCoord.2) rl0.R r3.2 hG3
      (by rw [hlen]; omega)
  refine ⟨rb4, rlc4, ?_, hG4.core, ?_, ?_, ?_, ?_, ?_, ?_⟩
  · unfold buildChain
    simp only
    erw [hg2]
    simp only
    have hs' : (markPicked E rl0).Segments = s :: rest := hs
    rw [hs']
    exact hg4
  · rw [hch4]; exact hch2
  · rw [hba4]; exact hba2
  · apply hmono4
    rw [hr3p]
    apply hmono2
    simp [lanpr_push_render_line_chain_point]
  · have : List.Chain' (touch lines0) rlc4.picked.reverse := hG4.linked
    rw [List.chain'_reverse] at this
    exact this.imp (fun _ _ h => touch_symm h)
  · omega
  · intro hall
    obtain ⟨w4, hw4, hwalk⟩ := hG4.walk
    have hw4' : rlc4.picked.reverse = w4 := by simpa using hw4
    obtain ⟨hwk, -, -⟩ := hwalk hall
    rw [← hw4'] at hwk
    have := IsWalk_reverse hwk
    simpa [viewPts] using this

/-- On a chain of at least two items the simplifier returns, and at least two
items are left. -/
theorem reduce_total (E : Extern) (tol : ℚ) (chain : List LANPR_RenderLineChainItem)
    (h : 2 ≤ chain.length) :
    ∃ r, lanpr_reduce_render_line_chain_recursive E tol chain = some r ∧ 2 ≤ r.1.length := by
  cases chain with
  | nil => simp at h
  | cons f rest =>
    have hne : rest ≠ [] := by
      intro e; subst e; simp at h
    obtain ⟨t, ht⟩ : ∃ t, rest.getLast? = some t := by
      cases hl : rest.getLast? with
      | none => exact absurd (List.getLast?_eq_none_iff.mp hl) hne
      | some t => exact ⟨t, rfl⟩
    obtain ⟨r, hr, -⟩ := reduceRange_induct E tol (fun _ _ _ _ => True)
      (fun _ _ _ _ => trivial) (fun _ _ _ _ _ _ _ _ _ _ => trivial)
      (rest.length + 1) f rest.dropLast t (by simp; omega)
    refine ⟨(f :: r.1 ++ [t], r.2), ?_, by simp⟩
    simp only [lanpr_reduce_render_line_chain_recursive, ht, hr]

/-- The main loop over the positions `ps`, from a state in which the chains
`new` were added and their lines are the lines consumed: it returns, in a
state of the same kind, and every position of `ps` is then the position of a
line that was consumed or that was not eligible at the start. -/
theorem chainLoop_total (E : Extern) (hP : E.LANPR_EDGE_FLAG_CHAIN_PICKED ≠ 0)
    (lines0 : List LANPR_RenderLine) (hseg : ∀ l ∈ lines0, l.Segments ≠ [])
    (tol : ℚ) (chains0 : List LANPR_RenderLineChain) :
    ∀ (ps : List Nat) (rb : LANPR_RenderBuffer) (new : List LANPR_RenderLineChain),
      (∀ p ∈ ps, p < lines0.length) → rb.Chains = chains0 ++ new →
      Core E lines0 rb.AllRenderLines (consumedBy new) →
      (∀ c ∈ new, GoodChain E tol lines0 c) →
      ∃ out new', chainLoop E tol ps rb = some out ∧ out.Chains = chains0 ++ new' ∧
        Core E lines0 out.AllRenderLines (consumedBy new') ∧
        (∀ c ∈ new', GoodChain E tol lines0 c) ∧
        (∀ p ∈ ps, p ∈ consumedBy new' ∨
          ∃ l0, lines0[p]? = some l0 ∧ notPickable E l0 = true) ∧
        (∀ x ∈ consumedBy new, x ∈ consumedBy new') ∧
        out.BoundingAreas = rb.BoundingAreas := by
  intro ps
  induction ps with
  | nil =>
    intro rb new _ hch hcore hgood
    exact ⟨rb, new, rfl, hch, hcore, hgood, fun p hp => by simp at hp, fun _ h => h, rfl⟩
  | cons p rest ih =>
    intro rb new hps hch hcore hgood
    have hplt : p < rb.AllRenderLines.length := by
      rw [hcore.len]; exact hps p (List.mem_cons_self _ _)
    have hrest : ∀ q ∈ rest, q < lines0.length := fun q hq => hps q (List.mem_cons_of_mem _ hq)
    rw [chainLoop, List.getElem?_eq_getElem hplt]
    simp only
    by_cases hnp : notPickable E rb.AllRenderLines[p] = true
    · rw [if_pos hnp]
      obtain ⟨out, new', h1, h2, h3, h4, h5, h6, h7⟩ := ih rb new hrest hch hcore hgood
      refine ⟨out, new', h1, h2, h3, h4, ?_, h6, h7⟩
      intro q hq
      rcases List.mem_cons.mp hq with rfl | hq
      · by_cases hmem : q ∈ consumedBy new
        · exact Or.inl (h6 q hmem)
        · right
          have := hcore.rest q hmem
          rw [List.getElem?_eq_getElem hplt] at this
          exact ⟨_, this.symm, hnp⟩
      · exact h5 q hq
    · rw [if_neg hnp]
      have hnp' : notPickable E rb.AllRenderLines[p] = false := by simpa using hnp
      obtain ⟨rb1, rlc, hb, hcore1, hch1, hba1, hpin, hlinked, htwo, hwalk⟩ :=
        buildChain_spec E hP lines0 hseg new rb hcore p rb.AllRenderLines[p]
          (List.getElem?_eq_getElem hplt) hnp'
      rw [hb]
      simp only
      obtain ⟨r, hr, hr2⟩ := reduce_total E tol rlc.Chain htwo
      rw [hr]
      simp only
      have hcons : consumedBy (new ++ [{ rlc with Chain := r.1, raw := rlc.Chain }]) =
          consumedBy new ++ rlc.picked := by
        simp [consumedBy]
      obtain ⟨out, new', h1, h2, h3, h4, h5, h6, h7⟩ := ih
        { rb1 with Chains := rb1.Chains ++ [{ rlc with Chain := r.1, raw := rlc.Chain }] }
        (new ++ [{ rlc with Chain := r.1, raw := rlc.Chain }]) hrest
        (by simp [hch1, hch])
        (by rw [hcons]; exact hcore1)
        (by
          intro c hc
          rcases List.mem_append.mp hc with hc | hc
          · exact hgood c hc
          · simp only [List.mem_singleton] at hc
            subst hc
            exact ⟨List.ne_nil_of_mem hpin, hlinked, htwo, hr2, ⟨r.2, hr⟩, hwalk⟩)
      refine ⟨out, new', h1, h2, h3, h4, ?_, ?_, by rw [h7]; exact hba1⟩
      · intro q hq
        rcases List.mem_cons.mp hq with rfl | hq
        · left
          apply h6
          rw [hcons]
          exact List.mem_append_right _ hpin
        · exact h5 q hq
      · intro x hx
        apply h6
        rw [hcons]
        exact List.mem_append_left _ hx

/-- The run of `lanpr_ChainFeatureLines_NO_THREAD` on lines that each have a
segment, the chain-picked mask not being zero. -/
theorem chainFeatureLines_total (E : Extern) (hP : E.LANPR_EDGE_FLAG_CHAIN_PICKED ≠ 0)
    (rb : LANPR_RenderBuffer) (tol : ℚ) (hseg : ∀ l ∈ rb.AllRenderLines, l.Segments ≠ []) :
    ∃ out new, lanpr_ChainFeatureLines_NO_THREAD E rb tol = some out ∧
      out.Chains = rb.Chains ++ new ∧
      Core E rb.AllRenderLines out.AllRenderLines (consumedBy new) ∧
      (∀ c ∈ new, GoodChain E tol rb.AllRenderLines c) ∧
      (∀ p l0, rb.AllRenderLines[p]? = some l0 →
        (p ∈ consumedBy new ↔ notPickable E l0 = false)) := by
  obtain ⟨out, new, h1, h2, h3, h4, h5, -, -⟩ :=
    chainLoop_total E hP rb.AllRenderLines hseg tol rb.Chains
      (List.range rb.AllRenderLines.length) rb []
      (fun p hp => List.mem_range.mp hp) (by simp)
      ⟨rfl, List.nodup_nil, fun i hi => by simp [consumedBy] at hi, fun _ _ => rfl⟩
      (fun c hc => by simp at hc)
  refine ⟨out, new, h1, h2, h3, h4, ?_⟩
  intro p l0 hp
  constructor
  · intro hmem
    obtain ⟨l, hl, hl2, -⟩ := h3.marked p hmem
    rw [hp] at hl
    rw [Option.some.inj hl]; exact hl2
  · intro hnp
    have hplt : p < rb.AllRenderLines.length := (List.getElem?_eq_some_iff.mp hp).1
    rcases h5 p (List.mem_range.mpr hplt) with h | ⟨l, hl, hl2⟩
    · exact h
    · rw [hp] at hl
      rw [← Option.some.inj hl, hnp] at hl2
      exact absurd hl2 Bool.false_ne_true

/-! ### Chain builder: the whole run -/

theorem exampleExtern_all_type : exampleExtern.LANPR_EDGE_FLAG_ALL_TYPE = 63 := rfl
theorem exampleExtern_picked : exampleExtern.LANPR_EDGE_FLAG_CHAIN_PICKED = 64 := rfl
theorem exampleExtern_intersection : exampleExtern.LANPR_EDGE_FLAG_INTERSECTION = 16 := rfl
theorem exampleExtern_pool (n : Nat) :
    exampleExtern.memStaticAquire n = { pos := (0, 0), LineType := 0, OccludeLevel := 0 } := rfl

theorem exampleExtern_picked_ne : exampleExtern.LANPR_EDGE_FLAG_CHAIN_PICKED ≠ 0 := by
  rw [exampleExtern_picked]; decide

theorem reduce_mixed :
    lanpr_reduce_render_line_chain_recursive exampleExtern 0
      [{ pos := (0, 0), LineType := 2, OccludeLevel := 0 },
       { pos := (1, 0), LineType := 2, OccludeLevel := 0 },
       { pos := (2, 0), LineType := 4, OccludeLevel := 0 }] =
      some ([{ pos := (0, 0), LineType := 2, OccludeLevel := 0 },
             { pos := (1, 0), LineType := 2, OccludeLevel := 0 },
             { pos := (2, 0), LineType := 4, OccludeLevel := 0 }], []) := by
  simp only [lanpr_reduce_render_line_chain_recursive, List.getLast?_cons_cons,
    List.getLast?_singleton, List.dropLast, List.length_cons, List.length_nil]
  rw [reduceRange_of_none _ _ _ _ _ _ (by simp [findMaxLoop, metaBreak, nextOf])]
  simp [removeLoop, metaBreak, nextOf]

set_option maxHeartbeats 1000000 in
/-- C10 fails as stated: from the contour line `(0,0)-(1,0)` as seed, the
growth to the right adds the crease line `(1,0)-(2,0)`; the chain consumes
both lines, whose feature-type bits are 2 and 4, and its points carry the two
line types. -/
theorem growth_crosses_types_counterexample :
    ∃ out, lanpr_ChainFeatureLines_NO_THREAD exampleExtern mixedBuffer 0 = some out ∧
      out.Chains =
        [{ Chain := [{ pos := (0, 0), LineType := 2, OccludeLevel := 0 },
                     { pos := (1, 0), LineType := 2, OccludeLevel := 0 },
                     { pos := (2, 0), LineType := 4, OccludeLevel := 0 }]
           picked := [0, 1]
           raw := [{ pos := (0, 0), LineType := 2, OccludeLevel := 0 },
                   { pos := (1, 0), LineType := 2, OccludeLevel := 0 },
                   { pos := (2, 0), LineType := 4, OccludeLevel := 0 }] }] ∧
      (mixedBuffer.AllRenderLines.map fun l =>
        l.Flags &&& exampleExtern.LANPR_EDGE_FLAG_ALL_TYPE) = [2, 4] := by
  have b1 : (2 &&& 64 : ℕ) = 0 := by decide
  have b2 : (4 &&& 64 : ℕ) = 0 := by decide
  have b3 : (66 &&& 64 : ℕ) = 64 := by decide
  have b4 : (68 &&& 64 : ℕ) = 64 := by decide
  have b5 : (2 &&& 63 : ℕ) = 2 := by decide
  have b6 : (4 &&& 63 : ℕ) = 4 := by decide
  have b7 : (66 &&& 63 : ℕ) = 2 := by decide
  have b8 : (68 &&& 63 : ℕ) = 4 := by decide
  have b9 : (4 &&& 16 : ℕ) = 0 := by decide
  have b10 : (2 &&& 16 : ℕ) = 0 := by decide
  simp [lanpr_ChainFeatureLines_NO_THREAD, mixedBuffer, chainLoop, List.range, List.range.loop,
    notPickable, exampleExtern_all_type, exampleExtern_picked, exampleExtern_intersection,
    exampleExtern_pool, buildChain, markPicked, lanpr_push_render_line_chain_point,
    lanpr_GetPointBoundingArea, growLoop, lanpr_GetConnectedRenderLine, getConnectedLoop,
    LANPR_OTHER_RV, emitLine, emitOwnLevel, emitLastLevel, addPoint, notePicked,
    lanpr_append_render_line_chain_point, tnsLinearItp, b1, b2, b3, b4, b5, b6, b7, b8, b9, b10,
    reduce_mixed, -Prod.mk_zero_zero]

theorem reduce_star_first :
    lanpr_reduce_render_line_chain_recursive exampleExtern 3
      [{ pos := (0, 4), LineType := 2, OccludeLevel := 0 },
       { pos := (0, 0), LineType := 2, OccludeLevel := 0 },
       { pos := (3, 0), LineType := 2, OccludeLevel := 0 }] =
      some ([{ pos := (0, 4), LineType := 2, OccludeLevel := 0 },
             { pos := (3, 0), LineType := 2, OccludeLevel := 0 }],
            [{ rlci := { pos := (0, 0), LineType := 2, OccludeLevel := 0 },
               from_ := { pos := (0, 4), LineType := 2, OccludeLevel := 0 },
               to_ := { pos := (3, 0), LineType := 2, OccludeLevel := 0 } }]) := by
  simp only [lanpr_reduce_render_line_chain_recursive, List.getLast?_cons_cons,
    List.getLast?_singleton, List.dropLast, List.length_cons, List.length_nil]
  have h144 : Nat.sqrt 144 = 12 := by norm_num
  have hto : Int.toNat 144 = 144 := rfl
  rw [reduceRange_of_none _ _ _ _ _ _ (by
    norm_num [findMaxLoop, metaBreak, nextOf, exampleExtern, dist_to_line_segment_v2,
      closest_to_line_segment_v2, len_v2v2, sqrtf, hto, h144])]
  simp [removeLoop, metaBreak, nextOf]

theorem reduce_star_second :
    lanpr_reduce_render_line_chain_recursive exampleExtern 3
      [{ pos := (0, 0), LineType := 2, OccludeLevel := 0 },
       { pos := (-1, 0), LineType := 2, OccludeLevel := 0 }] =
      some ([{ pos := (0, 0), LineType := 2, OccludeLevel := 0 },
             { pos := (-1, 0), LineType := 2, OccludeLevel := 0 }], []) := by
  simp only [lanpr_reduce_render_line_chain_recursive, List.getLast?_singleton, List.dropLast,
    List.length_cons, List.length_nil]
  rw [reduceRange_of_none _ _ _ _ _ _ (by simp [findMaxLoop])]
  simp [removeLoop]

set_option maxHeartbeats 2000000 in
/-- C9 fails as stated: the three lines of `starBuffer` leave one vertex, so
the lines at positions 0 and 2 have an end in common and the three are one
connected component, the cell returned for every point holds them all, and
the builder makes two chains of them: one of the lines 1 and 0, one of the
line 2. -/
theorem one_component_two_chains_counterexample :
    ∃ out, lanpr_ChainFeatureLines_NO_THREAD exampleExtern starBuffer 3 = some out ∧
      (out.Chains.map fun c => c.picked) = [[1, 0], [2]] ∧
      (out.Chains.map fun c => c.raw.map fun (i : LANPR_RenderLineChainItem) => i.pos) =
        [[(0, 4), (0, 0), (3, 0)], [(0, 0), (-1, 0)]] ∧
      (starBuffer.AllRenderLines.map fun l => l.L) =
        [{ addr := 0, FrameBufferCoord := (0, 0) }, { addr := 0, FrameBufferCoord := (0, 0) },
         { addr := 0, FrameBufferCoord := (0, 0) }] := by
  have b1 : (2 &&& 64 : ℕ) = 0 := by decide
  have b3 : (66 &&& 64 : ℕ) = 64 := by decide
  have b5 : (2 &&& 63 : ℕ) = 2 := by decide
  have b7 : (66 &&& 63 : ℕ) = 2 := by decide
  have b10 : (2 &&& 16 : ℕ) = 0 := by decide
  simp [lanpr_ChainFeatureLines_NO_THREAD, starBuffer, chainLoop, List.range, List.range.loop,
    notPickable, exampleExtern_all_type, exampleExtern_picked, exampleExtern_intersection,
    exampleExtern_pool, buildChain, markPicked, lanpr_push_render_line_chain_point,
    lanpr_GetPointBoundingArea, growLoop, lanpr_GetConnectedRenderLine, getConnectedLoop,
    LANPR_OTHER_RV, emitLine, emitOwnLevel, emitLastLevel, addPoint, notePicked,
    lanpr_append_render_line_chain_point, tnsLinearItp, b1, b3, b5, b7, b10,
    reduce_star_first, reduce_star_second, -Prod.mk_zero_zero]

/-- C1: on lines that each have a segment (the chain-picked mask not being
zero) `lanpr_ChainFeatureLines_NO_THREAD` returns; afterwards every line with
a feature-type bit has the chain-picked bit; no line is consumed twice, into
one chain or into two; and the lines consumed are exactly the lines that had
a feature-type bit and were not picked at the start. -/
theorem chainFeatureLines_picks_once (E : Extern) (hP : E.LANPR_EDGE_FLAG_CHAIN_PICKED ≠ 0)
    (rb : LANPR_RenderBuffer) (dist_threshold : ℚ)
    (hseg : ∀ l ∈ rb.AllRenderLines, l.Segments ≠ []) :
    ∃ out new, lanpr_ChainFeatureLines_NO_THREAD E rb dist_threshold = some out ∧
      out.Chains = rb.Chains ++ new ∧
      (∀ l ∈ out.AllRenderLines, l.Flags &&& E.LANPR_EDGE_FLAG_ALL_TYPE ≠ 0 →
        l.Flags &&& E.LANPR_EDGE_FLAG_CHAIN_PICKED ≠ 0) ∧
      (new.flatMap fun c => c.picked).Nodup ∧
      (∀ (p : Nat) (l0 : LANPR_RenderLine), rb.AllRenderLines[p]? = some l0 →
        (p ∈ (new.flatMap fun c => c.picked) ↔
          (l0.Flags &&& E.LANPR_EDGE_FLAG_ALL_TYPE ≠ 0 ∧
            l0.Flags &&& E.LANPR_EDGE_FLAG_CHAIN_PICKED = 0))) := by
  obtain ⟨out, new, h1, h2, h3, -, h5⟩ := chainFeatureLines_total E hP rb dist_threshold hseg
  refine ⟨out, new, h1, h2, ?_, h3.nodup, ?_⟩
  · intro l hl hty
    obtain ⟨i, hi⟩ := List.mem_iff_getElem?.mp hl
    by_cases hmem : i ∈ consumedBy new
    · obtain ⟨l0, -, -, hl0⟩ := h3.marked i hmem
      rw [hi] at hl0
      rw [Option.some.inj hl0]
      show (l0.Flags ||| E.LANPR_EDGE_FLAG_CHAIN_PICKED) &&& E.LANPR_EDGE_FLAG_CHAIN_PICKED ≠ 0
      rw [lor_land_self]; exact hP
    · have h0 := h3.rest i hmem
      rw [hi] at h0
      have hnp : ¬ notPickable E l = false := fun hf => hmem ((h5 i l h0.symm).mpr hf)
      intro hpk
      exact hnp ((notPickable_false_iff E l).mpr ⟨hty, hpk⟩)
  · intro p l0 hp
    rw [← notPickable_false_iff]
    exact h5 p l0 hp

/-- C4: when every line has exactly one segment, at 0, each chain the builder
adds has, before the simplifier runs, one point more than lines consumed, and
the points of ranks `k` and `k + 1` are the positions of the two ends of the
line of rank `k` among the lines consumed; so consecutive lines of the walk
meet at the point between them. -/
theorem chainFeatureLines_walk (E : Extern) (hP : E.LANPR_EDGE_FLAG_CHAIN_PICKED ≠ 0)
    (rb : LANPR_RenderBuffer) (dist_threshold : ℚ)
    (hone : ∀ l ∈ rb.AllRenderLines, ∃ o, l.Segments = [{ at_ := 0, OccludeLevel := o }]) :
    ∃ out new, lanpr_ChainFeatureLines_NO_THREAD E rb dist_threshold = some out ∧
      out.Chains = rb.Chains ++ new ∧
      ∀ c ∈ new,
        (∃ log, lanpr_reduce_render_line_chain_recursive E dist_threshold c.raw =
          some (c.Chain, log)) ∧
        c.raw.length = c.picked.length + 1 ∧
        ∀ (k p : Nat), c.picked[k]? = some p →
          ∃ (l : LANPR_RenderLine) (q q' : Pos), rb.AllRenderLines[p]? = some l ∧
            (c.raw.map fun (i : LANPR_RenderLineChainItem) => i.pos)[k]? = some q ∧
            (c.raw.map fun (i : LANPR_RenderLineChainItem) => i.pos)[k + 1]? = some q' ∧
            ((q = l.L.FrameBufferCoord ∧ q' = l.R.FrameBufferCoord) ∨
              (q = l.R.FrameBufferCoord ∧ q' = l.L.FrameBufferCoord)) := by
  have hseg : ∀ l ∈ rb.AllRenderLines, l.Segments ≠ [] := by
    intro l hl
    obtain ⟨o, ho⟩ := hone l hl
    rw [ho]; simp
  obtain ⟨out, new, h1, h2, -, h4, -⟩ := chainFeatureLines_total E hP rb dist_threshold hseg
  refine ⟨out, new, h1, h2, ?_⟩
  intro c hc
  obtain ⟨hl, hi⟩ := IsWalk_index ((h4 c hc).walk hone)
  exact ⟨(h4 c hc).reduced, by simpa using hl, hi⟩

/-- C10, as amended: the builder returns, and every line consumed into a
chain, as the seed or by a growth step, had at the start a feature-type bit
and no chain-picked bit.  (Its feature-type bits need not be those of the
seed.) -/
theorem chainFeatureLines_consumes_eligible (E : Extern)
    (hP : E.LANPR_EDGE_FLAG_CHAIN_PICKED ≠ 0)
    (rb : LANPR_RenderBuffer) (dist_threshold : ℚ)
    (hseg : ∀ l ∈ rb.AllRenderLines, l.Segments ≠ []) :
    ∃ out new, lanpr_ChainFeatureLines_NO_THREAD E rb dist_threshold = some out ∧
      out.Chains = rb.Chains ++ new ∧
      ∀ c ∈ new, ∀ p ∈ c.picked, ∃ l0, rb.AllRenderLines[p]? = some l0 ∧
        l0.Flags &&& E.LANPR_EDGE_FLAG_ALL_TYPE ≠ 0 ∧
        l0.Flags &&& E.LANPR_EDGE_FLAG_CHAIN_PICKED = 0 := by
  obtain ⟨out, new, h1, h2, h3, -, -⟩ := chainFeatureLines_total E hP rb dist_threshold hseg
  refine ⟨out, new, h1, h2, ?_⟩
  intro c hc p hp
  obtain ⟨l0, hl0, hnp, -⟩ := h3.marked p (List.mem_flatMap.mpr ⟨c, hc, hp⟩)
  exact ⟨l0, hl0, (notPickable_false_iff E l0).mp hnp⟩

theorem starBuffer_single :
    ∀ l ∈ starBuffer.AllRenderLines, ∃ o, l.Segments = [{ at_ := 0, OccludeLevel := o }] := by
  intro l hl
  simp only [starBuffer, List.mem_cons, List.mem_singleton, List.not_mem_nil, or_false] at hl
  rcases hl with rfl | rfl | rfl <;> exact ⟨0, rfl⟩

theorem starBuffer_segments : ∀ l ∈ starBuffer.AllRenderLines, l.Segments ≠ [] := by
  intro l hl
  obtain ⟨o, ho⟩ := starBuffer_single l hl
  rw [ho]; simp

theorem mixedBuffer_segments : ∀ l ∈ mixedBuffer.AllRenderLines, l.Segments ≠ [] := by
  intro l hl
  simp only [mixedBuffer, List.mem_cons, List.mem_singleton, List.not_mem_nil, or_false] at hl
  rcases hl with rfl | rfl <;> simp

/-- C1 on the three lines of `starBuffer`. -/
theorem chainFeatureLines_picks_once_witness :
    exampleExtern.LANPR_EDGE_FLAG_CHAIN_PICKED ≠ 0 ∧
    (∀ l ∈ starBuffer.AllRenderLines, l.Segments ≠ []) ∧
    ∃ out new, lanpr_ChainFeatureLines_NO_THREAD exampleExtern starBuffer 3 = some out ∧
      out.Chains = starBuffer.Chains ++ new ∧
      (∀ l ∈ out.AllRenderLines, l.Flags &&& exampleExtern.LANPR_EDGE_FLAG_ALL_TYPE ≠ 0 →
        l.Flags &&& exampleExtern.LANPR_EDGE_FLAG_CHAIN_PICKED ≠ 0) ∧
      (new.flatMap fun c => c.picked).Nodup :=
  ⟨exampleExtern_picked_ne, starBuffer_segments, by
    obtain ⟨out, new, h1, h2, h3, h4, -⟩ :=
      chainFeatureLines_picks_once exampleExtern exampleExtern_picked_ne starBuffer 3
        starBuffer_segments
    exact ⟨out, new, h1, h2, h3, h4⟩⟩

/-- C4 on the three lines of `starBuffer`. -/
theorem chainFeatureLines_walk_witness :
    exampleExtern.LANPR_EDGE_FLAG_CHAIN_PICKED ≠ 0 ∧
    (∀ l ∈ starBuffer.AllRenderLines, ∃ o, l.Segments = [{ at_ := 0, OccludeLevel := o }]) ∧
    ∃ out new, lanpr_ChainFeatureLines_NO_THREAD exampleExtern starBuffer 3 = some out ∧
      out.Chains = starBuffer.Chains ++ new ∧
      ∀ c ∈ new, c.raw.length = c.picked.length + 1 :=
  ⟨exampleExtern_picked_ne, starBuffer_single, by
    obtain ⟨out, new, h1, h2, h3⟩ :=
      chainFeatureLines_walk exampleExtern exampleExtern_picked_ne starBuffer 3 starBuffer_single
    exact ⟨out, new, h1, h2, fun c hc => (h3 c hc).2.1⟩⟩

/-- The amended C10 on the two lines of `mixedBuffer`. -/
theorem chainFeatureLines_consumes_eligible_witness :
    exampleExtern.LANPR_EDGE_FLAG_CHAIN_PICKED ≠ 0 ∧
    (∀ l ∈ mixedBuffer.AllRenderLines, l.Segments ≠ []) ∧
    ∃ out new, lanpr_ChainFeatureLines_NO_THREAD exampleExtern mixedBuffer 0 = some out ∧
      out.Chains = mixedBuffer.Chains ++ new ∧
      ∀ c ∈ new, ∀ p ∈ c.picked, ∃ l0, mixedBuffer.AllRenderLines[p]? = some l0 ∧
        l0.Flags &&& exampleExtern.LANPR_EDGE_FLAG_ALL_TYPE ≠ 0 ∧
        l0.Flags &&& exampleExtern.LANPR_EDGE_FLAG_CHAIN_PICKED = 0 :=
  ⟨exampleExtern_picked_ne, mixedBuffer_segments,
    chainFeatureLines_consumes_eligible exampleExtern exampleExtern_picked_ne mixedBuffer 0
      mixedBuffer_segments⟩

/-! ### Connected line lookup and emission order -/

/-- The head of the cell, when it is an eligible line: taken when it is reached
at `rv`, passed over otherwise. -/
theorem getConnectedLoop_head (E : Extern) (lines : List LANPR_RenderLine)
    (rv : LANPR_RenderVert) (lip : Nat) (rest : List Nat) (nrl : LANPR_RenderLine)
    (hl : lines[lip]? = some nrl) (hnp : notPickable E nrl = false) :
    getConnectedLoop E lines rv (lip :: rest) =
      if connectsAt E nrl rv = true then some (lip, nrl, oppositeEnd nrl rv)
      else getConnectedLoop E lines rv rest := by
  rw [getConnectedLoop, hl]
  simp only [hnp, Bool.false_eq_true, if_false]
  unfold connectsAt oppositeEnd LANPR_OTHER_RV
  by_cases h1 : rv = nrl.L
  · simp [h1]
  · by_cases h2 : rv = nrl.R
    · simp [h1, h2]
    · by_cases h3 : nrl.Flags &&& E.LANPR_EDGE_FLAG_INTERSECTION ≠ 0
      · by_cases h4 : rv.FrameBufferCoord.1 = nrl.L.FrameBufferCoord.1 ∧
            rv.FrameBufferCoord.2 = nrl.L.FrameBufferCoord.2
        · simp [h1, h2, h3, eq_true h4]
        · by_cases h5 : rv.FrameBufferCoord.1 = nrl.R.FrameBufferCoord.1 ∧
              rv.FrameBufferCoord.2 = nrl.R.FrameBufferCoord.2
          · have h6 : nrl.R ≠ nrl.L := by
              intro h6
              rw [h6] at h5
              exact h4 h5
            simp [h1, h2, h3, eq_false h4, eq_true h5, h6]
          · simp [h1, h2, h3, eq_false h4, eq_false h5]
      · simp [h1, h2, h3]

/-- C19: for a cell whose first entry is an eligible line `nrl`,
`lanpr_GetConnectedRenderLine` returns that line exactly when the frontier
vertex `rv` is its `L` or its `R` vertex, or the line is flagged
`LANPR_EDGE_FLAG_INTERSECTION` and the two coordinates of `rv` are those of its
`L` or of its `R`; otherwise the line is passed over (so a line that is not an
intersection line and only coincides in position is not connected).  On a
connection `new_rv` is the end opposite to the end matched. -/
theorem getConnected_connection_rule (E : Extern) (lines : List LANPR_RenderLine)
    (rv : LANPR_RenderVert) (lip : Nat) (rest : List Nat) (nrl : LANPR_RenderLine)
    (hl : lines[lip]? = some nrl) (hnp : notPickable E nrl = false) :
    ((rv = nrl.L ∨ rv = nrl.R ∨
        (nrl.Flags &&& E.LANPR_EDGE_FLAG_INTERSECTION ≠ 0 ∧
          ((rv.FrameBufferCoord.1 = nrl.L.FrameBufferCoord.1 ∧
              rv.FrameBufferCoord.2 = nrl.L.FrameBufferCoord.2) ∨
            (rv.FrameBufferCoord.1 = nrl.R.FrameBufferCoord.1 ∧
              rv.FrameBufferCoord.2 = nrl.R.FrameBufferCoord.2)))) →
      lanpr_GetConnectedRenderLine E lines { LinkedLines := lip :: rest } rv =
        some (lip, nrl, oppositeEnd nrl rv)) ∧
    (¬ (rv = nrl.L ∨ rv = nrl.R ∨
        (nrl.Flags &&& E.LANPR_EDGE_FLAG_INTERSECTION ≠ 0 ∧
          ((rv.FrameBufferCoord.1 = nrl.L.FrameBufferCoord.1 ∧
              rv.FrameBufferCoord.2 = nrl.L.FrameBufferCoord.2) ∨
            (rv.FrameBufferCoord.1 = nrl.R.FrameBufferCoord.1 ∧
              rv.FrameBufferCoord.2 = nrl.R.FrameBufferCoord.2)))) →
      lanpr_GetConnectedRenderLine E lines { LinkedLines := lip :: rest } rv =
        lanpr_GetConnectedRenderLine E lines { LinkedLines := rest } rv) ∧
    (rv = nrl.L → oppositeEnd nrl rv = nrl.R) ∧
    (rv ≠ nrl.L → rv = nrl.R → oppositeEnd nrl rv = nrl.L) ∧
    (rv ≠ nrl.L → rv ≠ nrl.R →
      (rv.FrameBufferCoord.1 = nrl.L.FrameBufferCoord.1 ∧
        rv.FrameBufferCoord.2 = nrl.L.FrameBufferCoord.2) → oppositeEnd nrl rv = nrl.R) ∧
    (rv ≠ nrl.L → rv ≠ nrl.R →
      ¬ (rv.FrameBufferCoord.1 = nrl.L.FrameBufferCoord.1 ∧
        rv.FrameBufferCoord.2 = nrl.L.FrameBufferCoord.2) → oppositeEnd nrl rv = nrl.L) := by
  have hc : connectsAt E nrl rv = true ↔
      (rv = nrl.L ∨ rv = nrl.R ∨
        (nrl.Flags &&& E.LANPR_EDGE_FLAG_INTERSECTION ≠ 0 ∧
          ((rv.FrameBufferCoord.1 = nrl.L.FrameBufferCoord.1 ∧
              rv.FrameBufferCoord.2 = nrl.L.FrameBufferCoord.2) ∨
            (rv.FrameBufferCoord.1 = nrl.R.FrameBufferCoord.1 ∧
              rv.FrameBufferCoord.2 = nrl.R.FrameBufferCoord.2)))) := by
    simp only [connectsAt, Bool.or_eq_true, Bool.and_eq_true, decide_eq_true_eq, or_assoc]
  refine ⟨?_, ?_, ?_, ?_, ?_, ?_⟩
  · intro h
    show getConnectedLoop E lines rv (lip :: rest) = _
    rw [getConnectedLoop_head E lines rv lip rest nrl hl hnp, if_pos (hc.mpr h)]
  · intro h
    show getConnectedLoop E lines rv (lip :: rest) = getConnectedLoop E lines rv rest
    rw [getConnectedLoop_head E lines rv lip rest nrl hl hnp, if_neg (fun h' => h (hc.mp h'))]
  · intro h; simp [oppositeEnd, h]
  · intro h1 h2; simp [oppositeEnd, h1, h2]
  · intro h1 h2 h3; simp only [oppositeEnd, if_neg h1, if_neg h2, if_pos h3]
  · intro h1 h2 h3; simp only [oppositeEnd, if_neg h1, if_neg h2, if_neg h3]

/-- C19 on the cell of `starBuffer`, whose first entry is the first line,
for the frontier vertex at `(0,0)`. -/
theorem getConnected_connection_rule_witness :
    starBuffer.AllRenderLines[0]? =
        some { L := { addr := 0, FrameBufferCoord := (0, 0) },
               R := { addr := 1, FrameBufferCoord := (3, 0) },
               Flags := 2, Segments := [{ at_ := 0, OccludeLevel := 0 }] } ∧
      notPickable exampleExtern
        { L := { addr := 0, FrameBufferCoord := (0, 0) },
          R := { addr := 1, FrameBufferCoord := (3, 0) },
          Flags := 2, Segments := [{ at_ := 0, OccludeLevel := 0 }] } = false ∧
      lanpr_GetConnectedRenderLine exampleExtern starBuffer.AllRenderLines
          { LinkedLines := 0 :: [1, 2] } { addr := 0, FrameBufferCoord := (0, 0) } =
        some (0, { L := { addr := 0, FrameBufferCoord := (0, 0) },
                   R := { addr := 1, FrameBufferCoord := (3, 0) },
                   Flags := 2, Segments := [{ at_ := 0, OccludeLevel := 0 }] },
              { addr := 1, FrameBufferCoord := (3, 0) }) := by
  have hl : starBuffer.AllRenderLines[0]? =
      some { L := { addr := 0, FrameBufferCoord := (0, 0) },
             R := { addr := 1, FrameBufferCoord := (3, 0) },
             Flags := 2, Segments := [{ at_ := 0, OccludeLevel := 0 }] } := rfl
  have hnp : notPickable exampleExtern
      { L := { addr := 0, FrameBufferCoord := (0, 0) },
        R := { addr := 1, FrameBufferCoord := (3, 0) },
        Flags := 2, Segments := [{ at_ := 0, OccludeLevel := 0 }] } = false := by decide
  refine ⟨hl, hnp, ?_⟩
  have h := (getConnected_connection_rule exampleExtern starBuffer.AllRenderLines
    { addr := 0, FrameBufferCoord := (0, 0) } 0 [1, 2] _ hl hnp).1 (Or.inl rfl)
  rw [h]
  simp [oppositeEnd]

/-- The loop of the lookup returns the first entry that matches. -/
theorem getConnectedLoop_find (E : Extern) (lines : List LANPR_RenderLine)
    (rv : LANPR_RenderVert) (cell : List Nat) :
    (getConnectedLoop E lines rv cell).map (fun r => r.1) = cell.find? (isMatch E lines rv) ∧
    ∀ p nrl rv', getConnectedLoop E lines rv cell = some (p, nrl, rv') →
      lines[p]? = some nrl ∧ rv' = oppositeEnd nrl rv := by
  induction cell with
  | nil => exact ⟨rfl, fun p nrl rv' h => by simp [getConnectedLoop] at h⟩
  | cons lip rest ih =>
    cases hl : lines[lip]? with
    | none =>
      have e : getConnectedLoop E lines rv (lip :: rest) = getConnectedLoop E lines rv rest := by
        rw [getConnectedLoop, hl]
      have hm : isMatch E lines rv lip = false := by simp [isMatch, hl]
      rw [e, List.find?_cons, hm]
      exact ih
    | some nrl =>
      by_cases hnp : notPickable E nrl = true
      · have e : getConnectedLoop E lines rv (lip :: rest) =
            getConnectedLoop E lines rv rest := by
          rw [getConnectedLoop, hl]
          simp only [hnp, if_true]
        have hm : isMatch E lines rv lip = false := by simp [isMatch, hl, hnp]
        rw [e, List.find?_cons, hm]
        exact ih
      · have hnp' : notPickable E nrl = false := by simpa using hnp
        rw [getConnectedLoop_head E lines rv lip rest nrl hl hnp', List.find?_cons]
        have hm : isMatch E lines rv lip = connectsAt E nrl rv := by
          simp [isMatch, hl, hnp']
        rw [hm]
        by_cases hc : connectsAt E nrl rv = true
        · rw [if_pos hc, hc]
          refine ⟨rfl, ?_⟩
          intro p nrl' rv' h
          simp only [Option.some.injEq, Prod.mk.injEq] at h
          obtain ⟨rfl, rfl, rfl⟩ := h
          exact ⟨hl, rfl⟩
        · rw [if_neg hc]
          have hc' : connectsAt E nrl rv = false := by simpa using hc
          rw [hc']
          exact ih

/-- C20: `lanpr_GetConnectedRenderLine` returns the first entry of
`ba->LinkedLines`, in list order, that is the position of a line with a
feature-type bit, not picked, and connected to the vertex; it returns null
exactly when no entry is such a line; the line returned is the record at that
position and `new_rv` is its end opposite to the one matched. -/
theorem getConnected_first_match (E : Extern) (lines : List LANPR_RenderLine)
    (ba : LANPR_BoundingArea) (rv : LANPR_RenderVert) :
    (lanpr_GetConnectedRenderLine E lines ba rv).map (fun r => r.1) =
        ba.LinkedLines.find? (isMatch E lines rv) ∧
      (lanpr_GetConnectedRenderLine E lines ba rv = none ↔
        ∀ lip ∈ ba.LinkedLines, isMatch E lines rv lip = false) ∧
      ∀ p nrl rv', lanpr_GetConnectedRenderLine E lines ba rv = some (p, nrl, rv') →
        lines[p]? = some nrl ∧ rv' = oppositeEnd nrl rv := by
  obtain ⟨h1, h2⟩ := getConnectedLoop_find E lines rv ba.LinkedLines
  refine ⟨h1, ?_, h2⟩
  have h1' : (lanpr_GetConnectedRenderLine E lines ba rv).map (fun r => r.1) =
      ba.LinkedLines.find? (isMatch E lines rv) := h1
  constructor
  · intro hn
    rw [hn] at h1'
    have := List.find?_eq_none.mp h1'.symm
    intro lip hlip
    simpa using this lip hlip
  · intro hall
    have : ba.LinkedLines.find? (isMatch E lines rv) = none :=
      List.find?_eq_none.mpr (fun lip hlip => by simp [hall lip hlip])
    rw [this] at h1'
    cases hr : lanpr_GetConnectedRenderLine E lines ba rv with
    | none => rfl
    | some r => rw [hr] at h1'; simp at h1'

/-- C12, at a failing input: appended or pushed at position `(1, 2)` with
type 2 and level 5, on a pool of zero-filled blocks, the item gets the position
and the line type `2 & LANPR_EDGE_FLAG_ALL_TYPE`, and its occlusion level is
the 0 of the block, not the level 5. -/
theorem chain_point_level_dropped :
    (lanpr_append_render_line_chain_point exampleExtern 0
        { Chain := [], picked := [], raw := [] } 1 2 2 5).2.Chain =
      [{ pos := (1, 2), LineType := 2, OccludeLevel := 0 }] ∧
    (lanpr_push_render_line_chain_point exampleExtern 0
        { Chain := [], picked := [], raw := [] } 1 2 2 5).2.Chain =
      [{ pos := (1, 2), LineType := 2, OccludeLevel := 0 }] := by
  have b : (2 &&& 63 : ℕ) = 2 := by decide
  constructor <;>
    simp [lanpr_append_render_line_chain_point, lanpr_push_render_line_chain_point,
      exampleExtern, b]

/-- The loop that gives each point its own level adds the points of the
segments in the order of the list. -/
theorem emitOwnLevel_view (E : Extern) (side : Side) (nrl : LANPR_RenderLine)
    (segs : List LANPR_RenderLineSegment) (pool : Nat) (rlc : LANPR_RenderLineChain) :
    viewPts side (emitOwnLevel E side nrl segs pool rlc).2 =
      (segs.map (segPoint nrl)).reverse ++ viewPts side rlc := by
  induction segs generalizing pool rlc with
  | nil => rfl
  | cons s rest ih =>
    rw [emitOwnLevel, ih, (addPoint_view E side pool rlc _ _ _ _).1]
    simp [segPoint]

/-- The loop that gives each point the level of the segment before adds the
points of the segments in the order of the list, then the position of `R`. -/
theorem emitLastLevel_view (E : Extern) (side : Side) (nrl : LANPR_RenderLine)
    (segs : List LANPR_RenderLineSegment) (lo : Int) (pool : Nat) (rlc : LANPR_RenderLineChain) :
    viewPts side (emitLastLevel E side nrl segs lo pool rlc).2 =
      (segs.map (segPoint nrl) ++ [nrl.R.FrameBufferCoord]).reverse ++ viewPts side rlc := by
  induction segs generalizing lo pool rlc with
  | nil =>
    rw [emitLastLevel, (addPoint_view E side pool rlc _ _ _ _).1]
    simp
  | cons s rest ih =>
    rw [emitLastLevel, ih, (addPoint_view E side pool rlc _ _ _ _).1]
    simp [segPoint]

/-- C11, as amended: in a growth step on a line with a segment, the vertex
stored in `new_rv` is the end of the candidate opposite to the frontier vertex.
When it is `L` (the frontier vertex was at the position of `R`) the points of
all the segments are added in decreasing `at` order, from the last segment
down to the first.  When it is `R` and not `L` (the frontier vertex was at the
position of `L`) the points of the segments after the first are added in
increasing `at` order and the position of `R` is added last.  (Seen from the
growing side, the points added come before the old ones, the last one added
first.) -/
theorem growth_step_order (E : Extern) (lines : List LANPR_RenderLine)
    (ba : LANPR_BoundingArea) (rv : LANPR_RenderVert) (p : Nat) (nrl : LANPR_RenderLine)
    (new_rv : LANPR_RenderVert) (side : Side) (pool : Nat) (rlc : LANPR_RenderLineChain)
    (hget : lanpr_GetConnectedRenderLine E lines ba rv = some (p, nrl, new_rv))
    (hseg : nrl.Segments ≠ []) :
    ∃ r, emitLine E side (markPicked E nrl) new_rv pool rlc = some r ∧
      ((new_rv = nrl.L ∧ rv.FrameBufferCoord = nrl.R.FrameBufferCoord ∧
          viewPts side r.2 =
            (nrl.Segments.reverse.map (segPoint nrl)).reverse ++ viewPts side rlc) ∨
        (new_rv ≠ nrl.L ∧ new_rv = nrl.R ∧ rv.FrameBufferCoord = nrl.L.FrameBufferCoord ∧
          viewPts side r.2 =
            (nrl.Segments.tail.map (segPoint nrl) ++ [nrl.R.FrameBufferCoord]).reverse ++
              viewPts side rlc)) := by
  obtain ⟨-, -, -, hconn⟩ := getConnectedLoop_spec E lines rv ba.LinkedLines p nrl new_rv hget
  have hpt : ∀ s, segPoint (markPicked E nrl) s = segPoint nrl s := fun _ => rfl
  unfold emitLine
  by_cases hL : new_rv = nrl.L
  · have hL' : new_rv = (markPicked E nrl).L := hL
    rw [if_pos hL']
    refine ⟨_, rfl, Or.inl ⟨hL, ?_, ?_⟩⟩
    · rcases hconn with ⟨hc, h2⟩ | ⟨hc, -⟩
      · rw [hc, ← hL, h2]
      · exact hc
    · rw [emitOwnLevel_view]
      rfl
  · have hL' : ¬ new_rv = (markPicked E nrl).L := hL
    rw [if_neg hL']
    have hR : new_rv = nrl.R := by
      rcases hconn with ⟨-, h2⟩ | ⟨-, h2⟩
      · exact h2
      · exact absurd h2 hL
    have hc : rv.FrameBufferCoord = nrl.L.FrameBufferCoord := by
      rcases hconn with ⟨hc, -⟩ | ⟨-, h2⟩
      · exact hc
      · exact absurd h2 hL
    have hR' : new_rv = (markPicked E nrl).R := hR
    rw [if_pos hR']
    cases hs : nrl.Segments with
    | nil => exact absurd hs hseg
    | cons s rest =>
      have hs' : (markPicked E nrl).Segments = s :: rest := hs
      rw [hs']
      refine ⟨_, rfl, Or.inr ⟨hL, hR, hc, ?_⟩⟩
      rw [emitLastLevel_view]
      rfl

/-- C11 fails as stated: the frontier vertex is the `R` end of the line
`(0,0)-(2,0)` with segments at 0 and 1/2; the lookup stores the `L` end in
`new_rv`, and the step to the right appends the point at 1/2 and then the
point at 0: decreasing `at` order, and the last point added is the position of
`L`, not that of `R`. -/
theorem frontier_at_R_counterexample :
    lanpr_GetConnectedRenderLine exampleExtern [twoSegmentLine] { LinkedLines := [0] }
        twoSegmentLine.R = some (0, twoSegmentLine, twoSegmentLine.L) ∧
      (emitLine exampleExtern Side.right (markPicked exampleExtern twoSegmentLine)
          twoSegmentLine.L 0 { Chain := [], picked := [0], raw := [] }).map
        (fun r => r.2.Chain.map fun (i : LANPR_RenderLineChainItem) => i.pos) =
        some [(1, 0), (0, 0)] ∧
      twoSegmentLine.R.FrameBufferCoord = (2, 0) := by
  have b1 : (2 &&& 63 : ℕ) = 2 := by decide
  have b2 : (2 &&& 64 : ℕ) = 0 := by decide
  refine ⟨?_, ?_, rfl⟩
  · simp [lanpr_GetConnectedRenderLine, getConnectedLoop, twoSegmentLine, notPickable,
      exampleExtern, LANPR_OTHER_RV, b1, b2]
  · norm_num [emitLine, twoSegmentLine, markPicked, emitOwnLevel, addPoint,
      lanpr_append_render_line_chain_point, tnsLinearItp, exampleExtern]

/-- The amended C11 on the line with two segments, reached at its `R` end. -/
theorem growth_step_order_witness :
    lanpr_GetConnectedRenderLine exampleExtern [twoSegmentLine] { LinkedLines := [0] }
        twoSegmentLine.R = some (0, twoSegmentLine, twoSegmentLine.L) ∧
      twoSegmentLine.Segments ≠ [] ∧
      ∃ r, emitLine exampleExtern Side.right (markPicked exampleExtern twoSegmentLine)
          twoSegmentLine.L 0 { Chain := [], picked := [0], raw := [] } = some r ∧
        ((twoSegmentLine.L = twoSegmentLine.L ∧
            twoSegmentLine.R.FrameBufferCoord = twoSegmentLine.R.FrameBufferCoord ∧
            viewPts Side.right r.2 =
              (twoSegmentLine.Segments.reverse.map (segPoint twoSegmentLine)).reverse ++
                viewPts Side.right { Chain := [], picked := [0], raw := [] }) ∨
          (twoSegmentLine.L ≠ twoSegmentLine.L ∧ twoSegmentLine.L = twoSegmentLine.R ∧
            twoSegmentLine.R.FrameBufferCoord = twoSegmentLine.L.FrameBufferCoord ∧
            viewPts Side.right r.2 =
              (twoSegmentLine.Segments.tail.map (segPoint twoSegmentLine) ++
                [twoSegmentLine.R.FrameBufferCoord]).reverse ++
                viewPts Side.right { Chain := [], picked := [0], raw := [] })) := by
  have b1 : (2 &&& 63 : ℕ) = 2 := by decide
  have b2 : (2 &&& 64 : ℕ) = 0 := by decide
  have hget : lanpr_GetConnectedRenderLine exampleExtern [twoSegmentLine] { LinkedLines := [0] }
      twoSegmentLine.R = some (0, twoSegmentLine, twoSegmentLine.L) := by
    simp [lanpr_GetConnectedRenderLine, getConnectedLoop, twoSegmentLine, notPickable,
      exampleExtern, LANPR_OTHER_RV, b1, b2]
  have hseg : twoSegmentLine.Segments ≠ [] := by simp [twoSegmentLine]
  exact ⟨hget, hseg, growth_step_order exampleExtern [twoSegmentLine] { LinkedLines := [0] }
    twoSegmentLine.R 0 twoSegmentLine twoSegmentLine.L Side.right 0
    { Chain := [], picked := [0], raw := [] } hget hseg⟩

/-! ### Draw command: primitives and attributes -/

theorem primOf_eq_primAt (vc n k b : Nat) : primOf vc n k (b + k) = primAt vc b n k := by
  unfold primOf primAt
  split_ifs <;> rfl

/-- The primitives the inner loop adds from position `k` on. -/
theorem drawItemsLoop_elb_eq (vc : Nat) (t : ℚ) (lengths : List ℚ) (n : Nat)
    (items : List LANPR_RenderLineChainItem) (k b : Nat) (vbo : List ChainVert)
    (elb : List (Nat × Nat × Nat × Nat)) (hk : k + items.length = n) :
    (drawItemsLoop vc t lengths n items k (b + k) vbo elb).2.2 =
      elb ++ (List.range' k (items.length - 1)).map (primAt vc b n) := by
  induction items generalizing k vbo elb with
  | nil => simp [drawItemsLoop]
  | cons x xs ih =>
    simp only [List.length_cons] at hk
    rw [drawItemsLoop_cons]
    have e : b + k + 1 = b + (k + 1) := by omega
    rw [e, ih (k + 1) _ _ (by omega)]
    unfold headElb
    by_cases hlast : k + 1 = n
    · have hx : xs.length = 0 := by omega
      rw [if_pos hlast]
      simp [hx]
    · rw [if_neg hlast, primOf_eq_primAt]
      have hx : xs.length - 1 + 1 = xs.length := by omega
      simp only [List.length_cons, Nat.add_sub_cancel, List.append_assoc, List.singleton_append]
      congr 1
      rw [← hx, List.range'_succ]
      simp [hx]

/-- The primitives the outer loop adds. -/
theorem drawChainsLoop_elb_eq (E : Extern) (vc : Nat) (cs : List LANPR_RenderLineChain)
    (i : Nat) (lengths : List ℚ) (vbo : List ChainVert) (elb : List (Nat × Nat × Nat × Nat))
    (r : Nat × List ℚ × List ChainVert × List (Nat × Nat × Nat × Nat))
    (h : drawChainsLoop E vc cs i lengths vbo elb = some r) :
    r.2.2.2 = elb ++ allPrims vc cs i := by
  induction cs generalizing i lengths vbo elb with
  | nil =>
    simp only [drawChainsLoop, Option.some.injEq] at h
    subst h
    simp [allPrims]
  | cons c rest ih =>
    rw [drawChainsLoop] at h
    cases hL : lanpr_ComputeChainLength E c lengths i with
    | none => rw [hL] at h; simp at h
    | some tl =>
      obtain ⟨t, L1⟩ := tl
      rw [hL] at h
      simp only at h
      have := ih _ _ _ _ h
      rw [this, drawItemsLoop_fst]
      have e := drawItemsLoop_elb_eq vc t L1 c.Chain.length c.Chain 0 i vbo elb (by omega)
      rw [Nat.add_zero] at e
      rw [e, allPrims, chainPrims, List.range_eq_range', List.append_assoc]

theorem allPrims_append (vc : Nat) (pre : List LANPR_RenderLineChain) (c : LANPR_RenderLineChain)
    (post : List LANPR_RenderLineChain) (b : Nat) :
    allPrims vc (pre ++ c :: post) b =
      allPrims vc pre b ++ chainPrims vc (b + chainsCount pre) c.Chain.length ++
        allPrims vc post (b + chainsCount pre + c.Chain.length) := by
  induction pre generalizing b with
  | nil => simp [allPrims, chainsCount_nil]
  | cons p pre ih =>
    rw [List.cons_append, allPrims, ih, allPrims, chainsCount_cons]
    simp only [List.append_assoc, Nat.add_assoc]

/-- C18: on chains none of which is empty, the index buffer holds, chain after
chain, for the chain of `n` points that starts at vertex index `b` the `n - 1`
primitives `(prev, b + k, b + k + 1, next)` for `k = 0 .. n - 2` in order,
where `prev` is the sentinel index `vert_count` for `k = 0` and `b + k - 1`
otherwise, and `next` is the sentinel index when `b + k + 1` is the last vertex
of the chain and `b + k + 2` otherwise. -/
theorem generateDrawCommand_primitives (E : Extern) (rb : LANPR_RenderBuffer)
    (hne : ∀ c ∈ rb.Chains, c.Chain ≠ []) :
    ∃ batch, lanpr_ChainGenerateDrawCommand E rb = some batch ∧
      batch.elb = allPrims ((rb.Chains.map fun c => lanpr_CountChain c).sum) rb.Chains 0 ∧
      ∀ (pre : List LANPR_RenderLineChain) (c : LANPR_RenderLineChain)
        (post : List LANPR_RenderLineChain), rb.Chains = pre ++ c :: post →
        ∃ before after, batch.elb =
          before ++
            (List.range (c.Chain.length - 1)).map (fun k =>
              (if k = 0 then (rb.Chains.map fun c => lanpr_CountChain c).sum
                else (pre.map fun c => lanpr_CountChain c).sum + k - 1,
               (pre.map fun c => lanpr_CountChain c).sum + k,
               (pre.map fun c => lanpr_CountChain c).sum + k + 1,
               if k + 2 = c.Chain.length then (rb.Chains.map fun c => lanpr_CountChain c).sum
                else (pre.map fun c => lanpr_CountChain c).sum + k + 2)) ++
            after := by
  obtain ⟨r, hr, hb⟩ := generateDrawCommand_unfold E rb hne
  have helb := drawChainsLoop_elb_eq E _ _ _ _ _ _ r hr
  rw [List.nil_append] at helb
  refine ⟨_, hb, helb, ?_⟩
  intro pre c post hs
  refine ⟨allPrims (chainsCount rb.Chains) pre 0,
    allPrims (chainsCount rb.Chains) post (0 + chainsCount pre + c.Chain.length), ?_⟩
  have key : ∀ V, allPrims V rb.Chains 0 =
      allPrims V pre 0 ++ chainPrims V (chainsCount pre) c.Chain.length ++
        allPrims V post (0 + chainsCount pre + c.Chain.length) := by
    intro V
    rw [hs, allPrims_append, Nat.zero_add]
  show r.2.2.2 = _
  rw [helb, key]
  rfl

/-- C18 on the buffer of one chain of three points. -/
theorem generateDrawCommand_primitives_witness :
    (∀ c ∈ exampleDrawBuffer.Chains, c.Chain ≠ []) ∧
      ∃ batch, lanpr_ChainGenerateDrawCommand exampleExtern exampleDrawBuffer = some batch ∧
        batch.elb = [(3, 0, 1, 2), (0, 1, 2, 3)] := by
  refine ⟨exampleDrawBuffer_nonempty, ?_⟩
  obtain ⟨batch, h1, h2, -⟩ :=
    generateDrawCommand_primitives exampleExtern exampleDrawBuffer exampleDrawBuffer_nonempty
  refine ⟨batch, h1, ?_⟩
  rw [h2]
  decide

/-- The vertices of the batch: the vertex of each item holds the item's
position and a distance pair, its other attributes as allocated; the vertex at
`vert_count` holds the sentinel position, its other attributes as allocated. -/
theorem generateDrawCommand_vertices (E : Extern) (rb : LANPR_RenderBuffer)
    (hne : ∀ c ∈ rb.Chains, c.Chain ≠ []) :
    ∃ batch, lanpr_ChainGenerateDrawCommand E rb = some batch ∧
      (∀ (pre : List LANPR_RenderLineChain) (c : LANPR_RenderLineChain)
        (post : List LANPR_RenderLineChain), rb.Chains = pre ++ c :: post →
        ∀ (m : Nat) (rlci : LANPR_RenderLineChainItem), c.Chain[m]? = some rlci →
          ∃ u, batch.vbo[chainsCount pre + m]? = some (packVert unsetVert rlci.pos u)) ∧
      batch.vbo[chainsCount rb.Chains]? =
        some { unsetVert with pos := some (3 * 10 ^ 30, 3 * 10 ^ 30) } := by
  obtain ⟨r, hr, hb⟩ := generateDrawCommand_unfold E rb hne
  obtain ⟨r', hr', -, -, h3, h4, -⟩ := drawChainsLoop_spec E (chainsCount rb.Chains) rb.Chains 0
    (List.replicate (chainsCount rb.Chains) 0)
    (List.replicate (chainsCount rb.Chains + 1) unsetVert) [] hne (by simp) (by simp)
  rw [hr] at hr'
  obtain rfl := Option.some.inj hr'
  refine ⟨_, hb, ?_, ?_⟩
  · intro pre c post hs m rlci hm
    have hmlt : m < c.Chain.length := (List.getElem?_eq_some_iff.mp hm).1
    obtain ⟨d, -, hv⟩ := h4 pre c post hs m rlci hm
    have hcount : chainsCount pre + m < chainsCount rb.Chains := by
      rw [hs]
      simp only [chainsCount, List.map_append, List.sum_append, List.map_cons, List.sum_cons,
        lanpr_CountChain_eq]
      omega
    have hinit : (List.replicate (chainsCount rb.Chains + 1) unsetVert)[chainsCount pre + m]? =
        some unsetVert := by
      rw [List.getElem?_replicate]; simp; omega
    rw [Nat.zero_add, hinit] at hv
    refine ⟨uvsOf ((chainRunning E c.Chain).getLastD 0) c.Chain.length m d, ?_⟩
    show (attrSetPos _ _ _)[chainsCount pre + m]? = _
    rw [attrSetPos_get, if_neg (by omega), hv]
    rfl
  · have hs : r.2.2.1[chainsCount rb.Chains]? = some unsetVert := by
      rw [h3 _ (Or.inr (by omega)), List.getElem?_replicate]; simp
    show (attrSetPos _ _ _)[chainsCount rb.Chains]? = _
    rw [attrSetPos_get, if_pos rfl, hs]
    rfl

/-- C13, at a failing input: for the chain of three points of line type 2 the
vertex written for the first item has the item's position, and its `type` and
`level` attributes are as allocated: no call sets them. -/
theorem vertex_type_level_unset :
    exampleChain.Chain[0]? = some { pos := (0, 0), LineType := 2, OccludeLevel := 0 } ∧
    ∃ batch v, lanpr_ChainGenerateDrawCommand exampleExtern exampleDrawBuffer = some batch ∧
      batch.vbo[0]? = some v ∧ v.pos = some (0, 0) ∧ v.type = none ∧ v.level = none := by
  refine ⟨rfl, ?_⟩
  obtain ⟨batch, h1, h2, -⟩ :=
    generateDrawCommand_vertices exampleExtern exampleDrawBuffer exampleDrawBuffer_nonempty
  obtain ⟨u, hu⟩ := h2 [] exampleChain [] rfl 0 _ rfl
  exact ⟨batch, _, h1, hu, rfl, rfl, rfl⟩

/-- C14 fails as stated: with no chain the batch is the sentinel vertex alone,
whose `pos` attribute is `(3e30, 3e30)` and whose `uvs` attribute is as
allocated, not set to the sentinel value. -/
theorem sentinel_uvs_counterexample :
    lanpr_ChainGenerateDrawCommand exampleExtern emptyBuffer =
      some { vbo := [{ pos := some (3 * 10 ^ 30, 3 * 10 ^ 30), uvs := none,
                       type := none, level := none }],
             elb := [] } := by
  simp [lanpr_ChainGenerateDrawCommand, emptyBuffer, vertCountLoop, drawChainsLoop, attrSetPos,
    unsetVert]

/-- C14, as amended: on chains none of which is empty, the vertex at index
`vert_count` has its `pos` attribute set to 3e30 in both components, and its
`uvs` attribute is not written. -/
theorem generateDrawCommand_sentinel (E : Extern) (rb : LANPR_RenderBuffer)
    (hne : ∀ c ∈ rb.Chains, c.Chain ≠ []) :
    ∃ batch v, lanpr_ChainGenerateDrawCommand E rb = some batch ∧
      batch.vbo[(rb.Chains.map fun c => lanpr_CountChain c).sum]? = some v ∧
      v.pos = some (3 * 10 ^ 30, 3 * 10 ^ 30) ∧ v.uvs = none := by
  obtain ⟨batch, h1, -, h3⟩ := generateDrawCommand_vertices E rb hne
  exact ⟨batch, _, h1, h3, rfl, rfl⟩

/-- The amended C14 on the buffer of one chain of three points. -/
theorem generateDrawCommand_sentinel_witness :
    (∀ c ∈ exampleDrawBuffer.Chains, c.Chain ≠ []) ∧
      ∃ batch v, lanpr_ChainGenerateDrawCommand exampleExtern exampleDrawBuffer = some batch ∧
        batch.vbo[3]? = some v ∧ v.pos = some (3 * 10 ^ 30, 3 * 10 ^ 30) ∧ v.uvs = none :=
  ⟨exampleDrawBuffer_nonempty,
    generateDrawCommand_sentinel exampleExtern exampleDrawBuffer exampleDrawBuffer_nonempty⟩

/-! ### Simplifier: split and collapse -/

theorem candItems_cons (t x : LANPR_RenderLineChainItem)
    (rest : List LANPR_RenderLineChainItem) :
    candItems t (x :: rest) =
      if (nextOf rest t).OccludeLevel ≠ x.OccludeLevel ∨ (nextOf rest t).LineType ≠ x.LineType
      then candItems t rest else x :: candItems t rest := rfl

theorem removeLoop_snd (f t : LANPR_RenderLineChainItem) (mid : List LANPR_RenderLineChainItem) :
    (removeLoop f t mid).2.map (fun e => e.rlci) = candItems t mid := by
  induction mid with
  | nil => rfl
  | cons x xs ih =>
    simp only [removeLoop, candItems_cons]
    by_cases h : metaBreak x (some (nextOf xs t)) = true
    · rw [if_pos h, if_pos ((metaBreak_iff _ _).mp h), ih]
    · rw [if_neg h, if_neg (fun h' => h ((metaBreak_iff _ _).mpr h'))]
      simp [ih]

/-- The first loop changes nothing when no candidate is both beyond the
threshold and beyond the current maximum. -/
theorem findMaxLoop_unchanged (E : Extern) (tol : ℚ) (f t : LANPR_RenderLineChainItem)
    (mid : List LANPR_RenderLineChainItem) (i : Nat) (md : ℚ) (mi : Option Nat)
    (h : ∀ x ∈ candItems t mid,
      ¬ (E.dist_to_line_segment_v2 x.pos f.pos t.pos > tol ∧
        E.dist_to_line_segment_v2 x.pos f.pos t.pos > md)) :
    findMaxLoop E tol f t mid i md mi = (md, mi) := by
  induction mid generalizing i with
  | nil => rfl
  | cons x xs ih =>
    rw [findMaxLoop]
    rw [candItems_cons] at h
    by_cases hb : metaBreak x (some (nextOf xs t)) = true
    · rw [if_pos hb]
      rw [if_pos ((metaBreak_iff _ _).mp hb)] at h
      exact ih _ h
    · rw [if_neg hb]
      rw [if_neg (fun h' => hb ((metaBreak_iff _ _).mpr h'))] at h
      simp only
      rw [if_neg (h x (List.mem_cons_self _ _))]
      exact ih _ (fun y hy => h y (List.mem_cons_of_mem _ hy))

/-- The first loop selects the first candidate that attains the maximum, when
that maximum is beyond the threshold and beyond the starting value. -/
theorem findMaxLoop_argmax (E : Extern) (tol : ℚ) (f t : LANPR_RenderLineChainItem)
    (a : List LANPR_RenderLineChainItem) (m : LANPR_RenderLineChainItem)
    (b : List LANPR_RenderLineChainItem) (i : Nat) (md : ℚ) (mi : Option Nat)
    (hm : ¬ ((nextOf b t).OccludeLevel ≠ m.OccludeLevel ∨ (nextOf b t).LineType ≠ m.LineType))
    (htol : E.dist_to_line_segment_v2 m.pos f.pos t.pos > tol)
    (hmd : E.dist_to_line_segment_v2 m.pos f.pos t.pos > md)
    (hbefore : ∀ x ∈ candItems m a,
      E.dist_to_line_segment_v2 x.pos f.pos t.pos < E.dist_to_line_segment_v2 m.pos f.pos t.pos)
    (hafter : ∀ x ∈ candItems t b,
      E.dist_to_line_segment_v2 x.pos f.pos t.pos ≤ E.dist_to_line_segment_v2 m.pos f.pos t.pos) :
    (findMaxLoop E tol f t (a ++ m :: b) i md mi).2 = some (i + a.length) := by
  induction a generalizing i md mi with
  | nil =>
    rw [List.nil_append, findMaxLoop]
    rw [if_neg (fun h' => hm ((metaBreak_iff _ _).mp h'))]
    simp only
    rw [if_pos ⟨htol, hmd⟩, findMaxLoop_unchanged]
    · simp
    · intro x hx hc
      exact absurd hc.2 (not_lt.mpr (hafter x hx))
  | cons x xs ih =>
    rw [List.cons_append, findMaxLoop, nextOf_append]
    rw [candItems_cons] at hbefore
    have hlen : i + (x :: xs).length = (i + 1) + xs.length := by
      simp only [List.length_cons]; omega
    rw [hlen]
    by_cases hb : metaBreak x (some (nextOf xs m)) = true
    · rw [if_pos hb]
      rw [if_pos ((metaBreak_iff _ _).mp hb)] at hbefore
      exact ih _ _ _ hmd hbefore
    · rw [if_neg hb]
      rw [if_neg (fun h' => hb ((metaBreak_iff _ _).mpr h'))] at hbefore
      simp only
      have hx := hbefore x (List.mem_cons_self _ _)
      have hrest : ∀ y ∈ candItems m xs,
          E.dist_to_line_segment_v2 y.pos f.pos t.pos <
            E.dist_to_line_segment_v2 m.pos f.pos t.pos :=
        fun y hy => hbefore y (List.mem_cons_of_mem _ hy)
      split
      · exact ih _ _ _ hx hrest
      · exact ih _ _ _ hmd hrest

/-- With more fuel than interior items the result does not depend on the fuel. -/
theorem reduceRange_fuel (E : Extern) (tol : ℚ) :
    ∀ (fuel1 fuel2 : Nat) (f : LANPR_RenderLineChainItem)
      (mid : List LANPR_RenderLineChainItem) (t : LANPR_RenderLineChainItem),
      mid.length < fuel1 → mid.length < fuel2 →
      reduceRange E tol fuel1 f mid t = reduceRange E tol fuel2 f mid t := by
  intro fuel1
  induction fuel1 with
  | zero => intro fuel2 f mid t h; omega
  | succ n ih =>
    intro fuel2 f mid t h1 h2
    cases fuel2 with
    | zero => omega
    | succ n2 =>
      rw [reduceRange, reduceRange]
      cases hmax : (findMaxLoop E tol f t mid 0 0 none).2 with
      | none => rfl
      | some k =>
        simp only
        cases hk : mid[k]? with
        | none => rfl
        | some mk =>
          simp only
          have hklt : k < mid.length := (List.getElem?_eq_some_iff.mp hk).1
          have e1 : reduceRange E tol n f (mid.take k) mk =
              reduceRange E tol n2 f (mid.take k) mk :=
            ih n2 f (mid.take k) mk (by simp; omega) (by simp; omega)
          have e2 : reduceRange E tol n mk (mid.drop (k + 1)) t =
              reduceRange E tol n2 mk (mid.drop (k + 1)) t :=
            ih n2 mk (mid.drop (k + 1)) t (by simp; omega) (by simp; omega)
          rw [e1, e2]

theorem reduceRange_nil (E : Extern) (tol : ℚ) (fuel : Nat)
    (f t : LANPR_RenderLineChainItem) :
    reduceRange E tol (fuel + 1) f [] t = some ([], []) := by
  rw [reduceRange]
  simp [findMaxLoop]

/-- With more fuel than interior items the call returns. -/
theorem reduceRange_isSome (E : Extern) (tol : ℚ) (fuel : Nat)
    (f : LANPR_RenderLineChainItem) (mid : List LANPR_RenderLineChainItem)
    (t : LANPR_RenderLineChainItem) (h : mid.length < fuel) :
    ∃ r, reduceRange E tol fuel f mid t = some r := by
  obtain ⟨r, hr, -⟩ := reduceRange_induct E tol (fun _ _ _ _ => True)
    (fun _ _ _ _ => trivial) (fun _ _ _ _ _ _ _ _ _ _ => trivial) fuel f mid t h
  exact ⟨r, hr⟩

/-- A call in which the first loop selects the item after `a` is made of the
two recursive calls around that item. -/
theorem reduceRange_of_some (E : Extern) (tol : ℚ) (fuel : Nat)
    (f : LANPR_RenderLineChainItem) (a : List LANPR_RenderLineChainItem)
    (m : LANPR_RenderLineChainItem) (b : List LANPR_RenderLineChainItem)
    (t : LANPR_RenderLineChainItem)
    (h : (findMaxLoop E tol f t (a ++ m :: b) 0 0 none).2 = some a.length)
    (hfuel : 0 < fuel)
    (l r : List LANPR_RenderLineChainItem × List Removed)
    (hl : reduceRange E tol fuel f a m = some l)
    (hr : reduceRange E tol fuel m b t = some r) :
    reduceRange E tol (fuel + 1) f (a ++ m :: b) t = some (l.1 ++ m :: r.1, l.2 ++ r.2) := by
  obtain ⟨n, rfl⟩ : ∃ n, fuel = n + 1 := ⟨fuel - 1, by omega⟩
  rw [reduceRange, h]
  simp only
  have hget : (a ++ m :: b)[a.length]? = some m := by
    rw [List.getElem?_append_right (le_refl _)]; simp
  have htake : (a ++ m :: b).take a.length = a := by simp
  have hdrop : (a ++ m :: b).drop (a.length + 1) = b := by simp
  rw [hget, htake, hdrop]
  simp only
  have hl' : (if a ≠ [] then reduceRange E tol (n + 1) f a m else some ([], [])) = some l := by
    by_cases ha : a = []
    · subst ha
      rw [if_neg (by simp), ← hl, reduceRange_nil]
    · rw [if_pos ha, hl]
  have hr' : (if b ≠ [] then reduceRange E tol (n + 1) m b t else some ([], [])) = some r := by
    by_cases hb : b = []
    · subst hb
      rw [if_neg (by simp), ← hr, reduceRange_nil]
    · rw [if_pos hb, hr]
  rw [hl']
  simp only
  rw [hr']

theorem lanpr_reduce_eq (E : Extern) (tol : ℚ) (f : LANPR_RenderLineChainItem)
    (mid : List LANPR_RenderLineChainItem) (t : LANPR_RenderLineChainItem) :
    lanpr_reduce_render_line_chain_recursive E tol (f :: mid ++ [t]) =
      (reduceRange E tol (mid.length + 2) f mid t).map fun r => (f :: r.1 ++ [t], r.2) := by
  have h1 : (mid ++ [t]).getLast? = some t := by simp
  have h2 : (mid ++ [t]).dropLast = mid := by simp
  have h3 : (mid ++ [t]).length + 1 = mid.length + 2 := by simp
  simp only [lanpr_reduce_render_line_chain_recursive, List.cons_append, h1, h2, h3]
  cases reduceRange E tol (mid.length + 2) f mid t <;> rfl

/-- C15, as amended: with a threshold that is not negative, let `m` be a
candidate of the range `from_, a..., m, b..., to_` whose distance to the
segment `from_`-`to_` is beyond the threshold, greater than that of every
candidate before it and not less than that of every candidate after it.  Then
the call keeps `m`, and what it leaves is what the calls on the ranges
`from_, a..., m` and `m, b..., to_` leave, joined at `m`. -/
theorem reduce_splits_at_argmax (E : Extern) (dist_threshold : ℚ)
    (hpos : 0 ≤ dist_threshold)
    (from_ : LANPR_RenderLineChainItem) (a : List LANPR_RenderLineChainItem)
    (m : LANPR_RenderLineChainItem) (b : List LANPR_RenderLineChainItem)
    (to_ : LANPR_RenderLineChainItem)
    (hm : (nextOf b to_).OccludeLevel = m.OccludeLevel ∧ (nextOf b to_).LineType = m.LineType)
    (hbeyond : E.dist_to_line_segment_v2 m.pos from_.pos to_.pos > dist_threshold)
    (hbefore : ∀ x ∈ candItems m a,
      E.dist_to_line_segment_v2 x.pos from_.pos to_.pos <
        E.dist_to_line_segment_v2 m.pos from_.pos to_.pos)
    (hafter : ∀ x ∈ candItems to_ b,
      E.dist_to_line_segment_v2 x.pos from_.pos to_.pos ≤
        E.dist_to_line_segment_v2 m.pos from_.pos to_.pos)
    (e1 e2 e3 : Nat) :
    ∃ l r, reduceRange E dist_threshold (a.length + 1 + e1) from_ a m = some l ∧
      reduceRange E dist_threshold (b.length + 1 + e2) m b to_ = some r ∧
      reduceRange E dist_threshold ((a ++ m :: b).length + 1 + e3) from_ (a ++ m :: b) to_ =
        some (l.1 ++ m :: r.1, l.2 ++ r.2) := by
  have hfind : (findMaxLoop E dist_threshold from_ to_ (a ++ m :: b) 0 0 none).2 =
      some a.length := by
    have := findMaxLoop_argmax E dist_threshold from_ to_ a m b 0 0 none
      (by rintro (h | h); exact h hm.1; exact h hm.2) hbeyond (lt_of_le_of_lt hpos hbeyond)
      hbefore hafter
    simpa using this
  obtain ⟨l, hl⟩ := reduceRange_isSome E dist_threshold (a.length + 1 + e1) from_ a m (by omega)
  obtain ⟨r, hr⟩ := reduceRange_isSome E dist_threshold (b.length + 1 + e2) m b to_ (by omega)
  refine ⟨l, r, hl, hr, ?_⟩
  have hlen : (a ++ m :: b).length + 1 + e3 = (a.length + b.length + 1 + e3) + 1 := by
    simp only [List.length_append, List.length_cons]; omega
  rw [hlen]
  refine reduceRange_of_some E dist_threshold _ from_ a m b to_ hfind (by omega) l r ?_ ?_
  · rw [reduceRange_fuel E dist_threshold _ (a.length + 1 + e1) from_ a m (by omega) (by omega)]
    exact hl
  · rw [reduceRange_fuel E dist_threshold _ (b.length + 1 + e2) m b to_ (by omega) (by omega)]
    exact hr

theorem findMax_straightChain :
    (findMaxLoop exampleExtern (-1)
      { pos := (0, 0), LineType := 2, OccludeLevel := 0 }
      { pos := (2, 0), LineType := 2, OccludeLevel := 0 }
      [{ pos := (1, 0), LineType := 2, OccludeLevel := 0 }] 0 0 none).2 = none := by
  norm_num [findMaxLoop, metaBreak, nextOf, exampleExtern, dist_to_line_segment_v2,
    closest_to_line_segment_v2, len_v2v2, sqrtf]

/-- C15 fails as stated: with threshold -1 the only candidate `(1,0)` of the
three points `(0,0) (1,0) (2,0)` is at distance 0 from the segment of the two
ends, which is beyond the threshold, and the call removes it. -/
theorem negative_threshold_counterexample :
    lanpr_reduce_render_line_chain_recursive exampleExtern (-1) straightChain =
      some ([{ pos := (0, 0), LineType := 2, OccludeLevel := 0 },
             { pos := (2, 0), LineType := 2, OccludeLevel := 0 }],
            [{ rlci := { pos := (1, 0), LineType := 2, OccludeLevel := 0 },
               from_ := { pos := (0, 0), LineType := 2, OccludeLevel := 0 },
               to_ := { pos := (2, 0), LineType := 2, OccludeLevel := 0 } }]) ∧
      exampleExtern.dist_to_line_segment_v2 ((1 : ℚ), (0 : ℚ)) (0, 0) (2, 0) = 0 ∧
      (0 : ℚ) > -1 := by
  refine ⟨?_, ?_, by norm_num⟩
  · simp only [lanpr_reduce_render_line_chain_recursive, straightChain, List.getLast?_cons_cons,
      List.getLast?_singleton, List.dropLast, List.length_cons, List.length_nil]
    rw [reduceRange_of_none _ _ _ _ _ _ findMax_straightChain]
    simp [removeLoop, metaBreak, nextOf]
  · norm_num [exampleExtern, dist_to_line_segment_v2, closest_to_line_segment_v2, len_v2v2,
      sqrtf]

/-- The amended C15 on the range `(0,0) (2,3) (4,0)` with threshold 1: the
point `(2,3)`, at distance 3, is kept. -/
theorem reduce_splits_at_argmax_witness :
    (0 : ℚ) ≤ 1 ∧
    exampleExtern.dist_to_line_segment_v2 ((2 : ℚ), (3 : ℚ)) (0, 0) (4, 0) > 1 ∧
    ∃ l r, reduceRange exampleExtern 1 (([] : List LANPR_RenderLineChainItem).length + 1 + 0)
        { pos := (0, 0), LineType := 2, OccludeLevel := 0 } []
        { pos := (2, 3), LineType := 2, OccludeLevel := 0 } = some l ∧
      reduceRange exampleExtern 1 (([] : List LANPR_RenderLineChainItem).length + 1 + 0)
        { pos := (2, 3), LineType := 2, OccludeLevel := 0 } []
        { pos := (4, 0), LineType := 2, OccludeLevel := 0 } = some r ∧
      reduceRange exampleExtern 1
        (([] ++ ({ pos := (2, 3), LineType := 2, OccludeLevel := 0 } :
            LANPR_RenderLineChainItem) :: []).length + 1 + 0)
        { pos := (0, 0), LineType := 2, OccludeLevel := 0 }
        ([] ++ { pos := (2, 3), LineType := 2, OccludeLevel := 0 } :: [])
        { pos := (4, 0), LineType := 2, OccludeLevel := 0 } =
        some (l.1 ++ { pos := (2, 3), LineType := 2, OccludeLevel := 0 } :: r.1, l.2 ++ r.2) := by
  have hd : exampleExtern.dist_to_line_segment_v2 ((2 : ℚ), (3 : ℚ)) (0, 0) (4, 0) > 1 := by
    have h9 : Nat.sqrt 9 = 3 := by norm_num
    have hto : Int.toNat 9 = 9 := rfl
    norm_num [exampleExtern, dist_to_line_segment_v2, closest_to_line_segment_v2, len_v2v2,
      sqrtf, hto, h9]
  exact ⟨by norm_num, hd,
    reduce_splits_at_argmax exampleExtern 1 (by norm_num)
      { pos := (0, 0), LineType := 2, OccludeLevel := 0 } []
      { pos := (2, 3), LineType := 2, OccludeLevel := 0 } []
      { pos := (4, 0), LineType := 2, OccludeLevel := 0 } ⟨rfl, rfl⟩ hd
      (fun x hx => by simp [candItems] at hx) (fun x hx => by simp [candItems] at hx) 0 0 0⟩

/-- C16: when no candidate of a range is at a distance beyond the threshold,
the call leaves between the two ends exactly the interior items whose successor
differs in occlusion level or line type, in their order, and removes exactly
the other interior items. -/
theorem reduce_collapses_range (E : Extern) (dist_threshold : ℚ)
    (from_ : LANPR_RenderLineChainItem) (mid : List LANPR_RenderLineChainItem)
    (to_ : LANPR_RenderLineChainItem)
    (hnone : ∀ x ∈ candItems to_ mid,
      ¬ (E.dist_to_line_segment_v2 x.pos from_.pos to_.pos > dist_threshold))
    (extra : Nat) :
    ∃ r, reduceRange E dist_threshold (mid.length + 1 + extra) from_ mid to_ = some r ∧
      r.1 = breakItems to_ mid ∧ r.2.map (fun e => e.rlci) = candItems to_ mid := by
  have hfind : (findMaxLoop E dist_threshold from_ to_ mid 0 0 none).2 = none := by
    rw [findMaxLoop_unchanged E dist_threshold from_ to_ mid 0 0 none
      (fun x hx hc => hnone x hx hc.1)]
  have hfuel : mid.length + 1 + extra = (mid.length + extra) + 1 := by omega
  rw [hfuel, reduceRange_of_none _ _ _ _ _ _ hfind]
  exact ⟨_, rfl, removeLoop_fst from_ to_ mid, removeLoop_snd from_ to_ mid⟩

/-- C16 on the three points `(0,0) (1,0) (2,0)` with threshold 1. -/
theorem reduce_collapses_range_witness :
    (∀ x ∈ candItems { pos := (2, 0), LineType := 2, OccludeLevel := 0 }
        [{ pos := (1, 0), LineType := 2, OccludeLevel := 0 }],
      ¬ (exampleExtern.dist_to_line_segment_v2 x.pos
          ({ pos := (0, 0), LineType := 2, OccludeLevel := 0 } : LANPR_RenderLineChainItem).pos
          ({ pos := (2, 0), LineType := 2, OccludeLevel := 0 } : LANPR_RenderLineChainItem).pos
          > 1)) ∧
    ∃ r, reduceRange exampleExtern 1
        (([{ pos := (1, 0), LineType := 2, OccludeLevel := 0 }] :
          List LANPR_RenderLineChainItem).length + 1 + 0)
        { pos := (0, 0), LineType := 2, OccludeLevel := 0 }
        [{ pos := (1, 0), LineType := 2, OccludeLevel := 0 }]
        { pos := (2, 0), LineType := 2, OccludeLevel := 0 } = some r ∧
      r.1 = breakItems { pos := (2, 0), LineType := 2, OccludeLevel := 0 }
        [{ pos := (1, 0), LineType := 2, OccludeLevel := 0 }] ∧
      r.2.map (fun e => e.rlci) = candItems { pos := (2, 0), LineType := 2, OccludeLevel := 0 }
        [{ pos := (1, 0), LineType := 2, OccludeLevel := 0 }] := by
  have h : ∀ x ∈ candItems { pos := (2, 0), LineType := 2, OccludeLevel := 0 }
      [{ pos := (1, 0), LineType := 2, OccludeLevel := 0 }],
      ¬ (exampleExtern.dist_to_line_segment_v2 x.pos
          ({ pos := (0, 0), LineType := 2, OccludeLevel := 0 } : LANPR_RenderLineChainItem).pos
          ({ pos := (2, 0), LineType := 2, OccludeLevel := 0 } : LANPR_RenderLineChainItem).pos
          > 1) := by
    intro x hx
    simp only [candItems, nextOf, ne_eq, not_true_eq_false, or_self, if_false,
      List.mem_singleton] at hx
    subst hx
    norm_num [exampleExtern, dist_to_line_segment_v2, closest_to_line_segment_v2, len_v2v2,
      sqrtf]
  exact ⟨h, reduce_collapses_range exampleExtern 1 _ _ _ h 0⟩

/-- C17: on a chain of at least two items, first item `from_` and last item
`to_`, the simplifier returns, and the chain it leaves is a sublist of the
chain it was given (items are removed, none is added, changed or moved) that
still begins with `from_` and ends with `to_`. -/
theorem reduce_is_sublist (E : Extern) (dist_threshold : ℚ)
    (from_ : LANPR_RenderLineChainItem) (mid : List LANPR_RenderLineChainItem)
    (to_ : LANPR_RenderLineChainItem) :
    ∃ r, lanpr_reduce_render_line_chain_recursive E dist_threshold (from_ :: mid ++ [to_]) =
        some r ∧
      List.Sublist r.1 (from_ :: mid ++ [to_]) ∧
      r.1.head? = some from_ ∧ r.1.getLast? = some to_ := by
  have hbreak : ∀ (t : LANPR_RenderLineChainItem) (xs : List LANPR_RenderLineChainItem),
      List.Sublist (breakItems t xs) xs := by
    intro t xs
    induction xs with
    | nil => exact List.Sublist.refl _
    | cons x xs ih =>
      rw [breakItems_cons]
      split
      · exact ih.cons₂ x
      · exact ih.cons x
  obtain ⟨r, hr, hs⟩ := reduceRange_induct E dist_threshold
    (fun _ mid _ r => List.Sublist r.1 mid)
    (fun f mid t _ => by
      beta_reduce
      rw [removeLoop_fst]
      exact hbreak t mid)
    (fun f a m b t l r _ hl hr => by
      beta_reduce at hl hr ⊢
      exact List.Sublist.append hl (hr.cons₂ m))
    (mid.length + 2) from_ mid to_ (by omega)
  refine ⟨(from_ :: r.1 ++ [to_], r.2), ?_, ?_, ?_, ?_⟩
  · rw [lanpr_reduce_eq, hr]; rfl
  · exact (List.Sublist.append hs (List.Sublist.refl [to_])).cons₂ from_
  · rfl
  · show (from_ :: r.1 ++ [to_]).getLast? = some to_
    rw [List.getLast?_append]; rfl

/-! ### Lengths and draw command: further properties -/

/-- The running sum of rank `k`: the start value, the first distance (from the
point before the chain) and the arc length up to rank `k`. -/
theorem runningLengths_get (E : Extern) (x : LANPR_RenderLineChainItem)
    (xs : List LANPR_RenderLineChainItem) (acc : ℚ) (last : Pos) (k : Nat)
    (hk : k < (x :: xs).length) :
    (runningLengths E (x :: xs) acc last)[k]? =
      some (acc + E.len_v2v2 x.pos last + arcLength E (x :: xs) k) := by
  induction xs generalizing x acc last k with
  | nil =>
    have : k = 0 := by simpa using hk
    subst this
    simp [runningLengths, arcLength]
  | cons y ys ih =>
    cases k with
    | zero => simp [runningLengths, arcLength]
    | succ k =>
      have hk' : k < (y :: ys).length := by simpa using hk
      rw [runningLengths, List.getElem?_cons_succ, ih y _ _ k hk']
      simp only [arcLength, segLens, List.take_succ_cons, List.sum_cons]
      congr 1
      ring

theorem chainRunning_get (E : Extern) (hself : ∀ a, E.len_v2v2 a a = 0)
    (chain : List LANPR_RenderLineChainItem) (k : Nat) (hk : k < chain.length) :
    (chainRunning E chain)[k]? = some (arcLength E chain k) := by
  cases chain with
  | nil => simp at hk
  | cons x xs =>
    rw [chainRunning, runningLengths_get E x xs 0 x.pos k hk, hself]
    simp

theorem chainRunning_last (E : Extern) (hself : ∀ a, E.len_v2v2 a a = 0)
    (chain : List LANPR_RenderLineChainItem) (hne : chain ≠ []) :
    (chainRunning E chain).getLastD 0 = arcLength E chain (chain.length - 1) := by
  have hlen := chainRunning_length E chain
  have hpos : 0 < chain.length := List.length_pos.mpr hne
  have hg := chainRunning_get E hself chain (chain.length - 1) (by omega)
  generalize chainRunning E chain = rs at hlen hg
  rw [← hlen] at hg
  cases hr : rs.getLast? with
  | none =>
    rw [List.getLast?_eq_none_iff] at hr
    subst hr
    simp at hlen
    omega
  | some v =>
    rw [List.getLast?_eq_getElem?, hg] at hr
    rw [List.getLastD_eq_getLast?, List.getLast?_eq_getElem?, hg, hlen]
    rfl

theorem exampleExtern_len_self (a : Pos) : exampleExtern.len_v2v2 a a = 0 := by
  simp [exampleExtern, len_v2v2, sqrtf]

/-- C21: on a non-empty chain of `n` points whose entries fit the array (the
distance of a point to itself being 0), `lanpr_ComputeChainLength` returns; the
entry `begin_index + k` it leaves is the sum over `j = 1 .. k` of
`|p_j - p_(j-1)|` for every `k < n`, so the entry `begin_index` is 0; every
other entry is as before; and the value returned is the entry
`begin_index + n - 1`. -/
theorem computeChainLength_arc_sums (E : Extern) (hself : ∀ a, E.len_v2v2 a a = 0)
    (rlc : LANPR_RenderLineChain) (lengths : List ℚ) (begin_index : Nat)
    (hne : rlc.Chain ≠ []) (hfit : begin_index + rlc.Chain.length ≤ lengths.length) :
    ∃ total out, lanpr_ComputeChainLength E rlc lengths begin_index = some (total, out) ∧
      out.length = lengths.length ∧
      (∀ k, k < rlc.Chain.length →
        out[begin_index + k]? = some (arcLength E rlc.Chain k)) ∧
      out[begin_index]? = some 0 ∧
      (∀ j, j < begin_index ∨ begin_index + rlc.Chain.length ≤ j → out[j]? = lengths[j]?) ∧
      out[begin_index + (rlc.Chain.length - 1)]? = some total := by
  obtain ⟨t, out, hL⟩ := computeChainLength_isSome E rlc lengths begin_index hne
  obtain ⟨ht, hlen, hget⟩ := computeChainLength_spec E rlc lengths begin_index t out hL
  have hpos : 0 < rlc.Chain.length := List.length_pos.mpr hne
  have hk : ∀ k, k < rlc.Chain.length →
      out[begin_index + k]? = some (arcLength E rlc.Chain k) := by
    intro k hk
    rw [hget _ (by omega), if_pos (by omega), Nat.add_sub_cancel_left,
      chainRunning_get E hself _ k hk]
  refine ⟨t, out, hL, hlen, hk, ?_, ?_, ?_⟩
  · have := hk 0 hpos
    simpa [arcLength] using this
  · intro j hj
    by_cases hjl : j < lengths.length
    · rw [hget j hjl, if_neg (by omega)]
    · rw [List.getElem?_eq_none (by omega), List.getElem?_eq_none (by omega)]
  · rw [hk _ (by omega), ht, chainRunning_last E hself _ hne]

/-- C21 on the chain of three points `(0,0) (1,0) (2,0)`, written from entry
1 of an array of five entries. -/
theorem computeChainLength_arc_sums_witness :
    (∀ a, exampleExtern.len_v2v2 a a = 0) ∧ exampleChain.Chain ≠ [] ∧
      1 + exampleChain.Chain.length ≤ [(7 : ℚ), 7, 7, 7, 7].length ∧
      ∃ total out, lanpr_ComputeChainLength exampleExtern exampleChain [7, 7, 7, 7, 7] 1 =
          some (total, out) ∧
        out.length = [(7 : ℚ), 7, 7, 7, 7].length ∧
        (∀ k, k < exampleChain.Chain.length →
          out[1 + k]? = some (arcLength exampleExtern exampleChain.Chain k)) ∧
        out[1]? = some 0 ∧
        (∀ j, j < 1 ∨ 1 + exampleChain.Chain.length ≤ j →
          out[j]? = [(7 : ℚ), 7, 7, 7, 7][j]?) ∧
        out[1 + (exampleChain.Chain.length - 1)]? = some total :=
  ⟨exampleExtern_len_self, by simp [exampleChain], by simp [exampleChain],
    computeChainLength_arc_sums exampleExtern exampleExtern_len_self exampleChain
      [7, 7, 7, 7, 7] 1 (by simp [exampleChain]) (by simp [exampleChain])⟩

/-- The distance pair of each vertex of the batch, in terms of arc lengths. -/
theorem generateDrawCommand_uvs (E : Extern) (hself : ∀ a, E.len_v2v2 a a = 0)
    (rb : LANPR_RenderBuffer) (hne : ∀ c ∈ rb.Chains, c.Chain ≠ []) :
    ∃ batch, lanpr_ChainGenerateDrawCommand E rb = some batch ∧
      ∀ (pre : List LANPR_RenderLineChain) (c : LANPR_RenderLineChain)
        (post : List LANPR_RenderLineChain), rb.Chains = pre ++ c :: post →
        ∀ m, m < c.Chain.length →
          ∃ v : ChainVert, batch.vbo[chainsCount pre + m]? = some v ∧
            v.uvs = some (uvsOf (arcLength E c.Chain (c.Chain.length - 1)) c.Chain.length m
              (arcLength E c.Chain m)) := by
  obtain ⟨r, hr, hb⟩ := generateDrawCommand_unfold E rb hne
  obtain ⟨r', hr', -, -, -, h4, -⟩ := drawChainsLoop_spec E (chainsCount rb.Chains) rb.Chains 0
    (List.replicate (chainsCount rb.Chains) 0)
    (List.replicate (chainsCount rb.Chains + 1) unsetVert) [] hne (by simp) (by simp)
  rw [hr] at hr'
  obtain rfl := Option.some.inj hr'
  refine ⟨_, hb, ?_⟩
  intro pre c post hs m hm
  have hcne : c.Chain ≠ [] := hne c (by rw [hs]; simp)
  obtain ⟨d, hd, hv⟩ := h4 pre c post hs m (c.Chain[m]) (List.getElem?_eq_getElem hm)
  rw [chainRunning_get E hself _ m hm] at hd
  obtain rfl := Option.some.inj hd
  have hcount : chainsCount pre + m < chainsCount rb.Chains := by
    rw [hs]
    simp only [chainsCount, List.map_append, List.sum_append, List.map_cons, List.sum_cons,
      lanpr_CountChain_eq]
    omega
  have hinit : (List.replicate (chainsCount rb.Chains + 1) unsetVert)[chainsCount pre + m]? =
      some unsetVert := by
    rw [List.getElem?_replicate]; simp; omega
  rw [Nat.zero_add, hinit, chainRunning_last E hself _ hcne] at hv
  refine ⟨packVert unsetVert c.Chain[m].pos
    (uvsOf (arcLength E c.Chain (c.Chain.length - 1)) c.Chain.length m
      (arcLength E c.Chain m)), ?_, rfl⟩
  show (attrSetPos _ _ _)[chainsCount pre + m]? = _
  rw [attrSetPos_get, if_neg (by omega), hv]
  rfl

/-- C28: for a chain of exactly two points the vertex of the last point has
the distance pair `(total_length, total_length)` and the vertex of the first
point has `(0, total_length)`; for a chain of three points or more every vertex
has the pair `(d, total_length - d)`, which for the last vertex is
`(total_length, 0)`.  Here `total_length` is the value that
`lanpr_ComputeChainLength` returns for the chain, and the distance of a point
to itself is 0. -/
theorem generateDrawCommand_two_point_override (E : Extern)
    (hself : ∀ a, E.len_v2v2 a a = 0) (rb : LANPR_RenderBuffer)
    (hne : ∀ c ∈ rb.Chains, c.Chain ≠ []) :
    ∃ batch, lanpr_ChainGenerateDrawCommand E rb = some batch ∧
      ∀ (pre : List LANPR_RenderLineChain) (c : LANPR_RenderLineChain)
        (post : List LANPR_RenderLineChain), rb.Chains = pre ++ c :: post →
      ∀ (lengths : List ℚ) (begin_index : Nat) (total_length : ℚ) (out : List ℚ),
        lanpr_ComputeChainLength E c lengths begin_index = some (total_length, out) →
        (c.Chain.length = 2 →
          ∃ v0 v1 : ChainVert,
            batch.vbo[(pre.map fun c => lanpr_CountChain c).sum]? = some v0 ∧
            v0.uvs = some (0, total_length) ∧
            batch.vbo[(pre.map fun c => lanpr_CountChain c).sum + 1]? = some v1 ∧
            v1.uvs = some (total_length, total_length)) ∧
        (3 ≤ c.Chain.length →
          (∀ k, k < c.Chain.length → ∃ (v : ChainVert) (d : ℚ),
            batch.vbo[(pre.map fun c => lanpr_CountChain c).sum + k]? = some v ∧
            v.uvs = some (d, total_length - d)) ∧
          ∃ v : ChainVert,
            batch.vbo[(pre.map fun c => lanpr_CountChain c).sum + (c.Chain.length - 1)]? =
              some v ∧
            v.uvs = some (total_length, 0)) := by
  obtain ⟨batch, hb, huv⟩ := generateDrawCommand_uvs E hself rb hne
  refine ⟨batch, hb, ?_⟩
  intro pre c post hs lengths b t out hL
  have hcne : c.Chain ≠ [] := hne c (by rw [hs]; simp)
  obtain ⟨ht, -, -⟩ := computeChainLength_spec E c lengths b t out hL
  rw [chainRunning_last E hself _ hcne] at ht
  constructor
  · intro h2
    obtain ⟨v0, hv0, hu0⟩ := huv pre c post hs 0 (by omega)
    obtain ⟨v1, hv1, hu1⟩ := huv pre c post hs 1 (by omega)
    refine ⟨v0, v1, hv0, ?_, hv1, ?_⟩
    · rw [hu0, ← ht]
      simp [uvsOf, arcLength]
    · have ht1 : t = arcLength E c.Chain 1 := by rw [ht, h2]
      rw [hu1, ← ht, h2, ← ht1]
      simp [uvsOf]
  · intro h3
    constructor
    · intro k hk
      obtain ⟨v, hv, hu⟩ := huv pre c post hs k hk
      refine ⟨v, arcLength E c.Chain k, hv, ?_⟩
      rw [hu, ← ht]
      simp only [uvsOf]
      rw [if_neg (by omega)]
    · obtain ⟨v, hv, hu⟩ := huv pre c post hs (c.Chain.length - 1) (by omega)
      refine ⟨v, hv, ?_⟩
      rw [hu, ← ht]
      simp only [uvsOf]
      rw [if_neg (by omega)]
      simp

theorem twoPointBuffer_nonempty : ∀ c ∈ twoPointBuffer.Chains, c.Chain ≠ [] := by
  intro c hc
  simp only [twoPointBuffer, List.mem_singleton] at hc
  subst hc
  simp

/-- C28 on the chain of the two points `(0,0)` and `(3,4)`, of length 5: the
pairs are `(0, 5)` and `(5, 5)`. -/
theorem generateDrawCommand_two_point_override_witness :
    (∀ a, exampleExtern.len_v2v2 a a = 0) ∧
    (∀ c ∈ twoPointBuffer.Chains, c.Chain ≠ []) ∧
    ∃ batch, lanpr_ChainGenerateDrawCommand exampleExtern twoPointBuffer = some batch ∧
      ∃ v0 v1 : ChainVert, batch.vbo[0]? = some v0 ∧ v0.uvs = some (0, 5) ∧
        batch.vbo[1]? = some v1 ∧ v1.uvs = some (5, 5) := by
  refine ⟨exampleExtern_len_self, twoPointBuffer_nonempty, ?_⟩
  obtain ⟨batch, hb, h⟩ := generateDrawCommand_two_point_override exampleExtern
    exampleExtern_len_self twoPointBuffer twoPointBuffer_nonempty
  refine ⟨batch, hb, ?_⟩
  have h25 : Nat.sqrt 25 = 5 := by norm_num
  have hto : Int.toNat 25 = 25 := rfl
  have hL : lanpr_ComputeChainLength exampleExtern
      { Chain := [{ pos := (0, 0), LineType := 2, OccludeLevel := 0 },
                  { pos := (3, 4), LineType := 2, OccludeLevel := 0 }]
        picked := [0], raw := [] } [0, 0] 0 = some (5, [0, 5]) := by
    norm_num [lanpr_ComputeChainLength, chainLengthLoop, exampleExtern, len_v2v2, sqrtf,
      hto, h25]
  exact (h [] _ [] rfl [0, 0] 0 5 [0, 5] hL).1 rfl

/-- The primitives of a list of chains are those of its chains. -/
theorem mem_allPrims (vc : Nat) (cs : List LANPR_RenderLineChain) (b : Nat)
    (q : Nat × Nat × Nat × Nat) (hq : q ∈ allPrims vc cs b) :
    ∃ pre c post k, cs = pre ++ c :: post ∧ k + 1 < c.Chain.length ∧
      q = primAt vc (b + chainsCount pre) c.Chain.length k := by
  induction cs generalizing b with
  | nil => simp [allPrims] at hq
  | cons c rest ih =>
    rw [allPrims, List.mem_append] at hq
    rcases hq with hq | hq
    · simp only [chainPrims, List.mem_map, List.mem_range] at hq
      obtain ⟨k, hk, rfl⟩ := hq
      exact ⟨[], c, rest, k, rfl, by omega, by simp [chainsCount_nil]⟩
    · obtain ⟨pre, c', post, k, h1, h2, h3⟩ := ih _ hq
      refine ⟨c :: pre, c', post, k, by rw [h1]; rfl, h2, ?_⟩
      rw [h3, chainsCount_cons, Nat.add_assoc]

/-- C30: on chains of at least two points each, every primitive of the index
buffer belongs to one chain: its two middle indices lie in the vertex range of
that chain (so neither is the sentinel index `vert_count`), and each of its
two outer indices is the sentinel index or lies in the same range. -/
theorem generateDrawCommand_within_chain (E : Extern) (rb : LANPR_RenderBuffer)
    (htwo : ∀ c ∈ rb.Chains, 2 ≤ c.Chain.length) :
    ∃ batch, lanpr_ChainGenerateDrawCommand E rb = some batch ∧
      ∀ q ∈ batch.elb, ∃ (pre : List LANPR_RenderLineChain) (c : LANPR_RenderLineChain)
        (post : List LANPR_RenderLineChain), rb.Chains = pre ++ c :: post ∧
        (q.1 = (rb.Chains.map fun c => lanpr_CountChain c).sum ∨ inChainRange pre c q.1) ∧
        inChainRange pre c q.2.1 ∧ inChainRange pre c q.2.2.1 ∧
        (q.2.2.2 = (rb.Chains.map fun c => lanpr_CountChain c).sum ∨
          inChainRange pre c q.2.2.2) ∧
        q.2.1 ≠ (rb.Chains.map fun c => lanpr_CountChain c).sum ∧
        q.2.2.1 ≠ (rb.Chains.map fun c => lanpr_CountChain c).sum := by
  have hne : ∀ c ∈ rb.Chains, c.Chain ≠ [] := by
    intro c hc h
    have := htwo c hc
    rw [h] at this
    simp at this
  obtain ⟨r, hr, hb⟩ := generateDrawCommand_unfold E rb hne
  have helb := drawChainsLoop_elb_eq E _ _ _ _ _ _ r hr
  rw [List.nil_append] at helb
  refine ⟨_, hb, ?_⟩
  intro q hq
  have hq' : q ∈ allPrims (chainsCount rb.Chains) rb.Chains 0 := by rw [← helb]; exact hq
  obtain ⟨pre, c, post, k, hs, hk, rfl⟩ := mem_allPrims _ _ _ _ hq'
  have hcount : chainsCount pre + c.Chain.length ≤ chainsCount rb.Chains := by
    rw [hs]
    simp only [chainsCount, List.map_append, List.sum_append, List.map_cons, List.sum_cons,
      lanpr_CountChain_eq]
    omega
  simp only [chainsCount, lanpr_CountChain_eq] at hcount
  refine ⟨pre, c, post, hs, ?_, ?_, ?_, ?_, ?_, ?_⟩ <;>
    simp only [primAt, inChainRange, chainsCount, lanpr_CountChain_eq] <;>
    first
      | omega
      | (split_ifs <;> omega)

/-- C30 on the buffer of one chain of three points. -/
theorem generateDrawCommand_within_chain_witness :
    (∀ c ∈ exampleDrawBuffer.Chains, 2 ≤ c.Chain.length) ∧
      ∃ batch, lanpr_ChainGenerateDrawCommand exampleExtern exampleDrawBuffer = some batch ∧
        ∀ q ∈ batch.elb, q.2.1 ≠ 3 ∧ q.2.2.1 ≠ 3 := by
  refine ⟨exampleDrawBuffer_two, ?_⟩
  obtain ⟨batch, h1, h2⟩ :=
    generateDrawCommand_within_chain exampleExtern exampleDrawBuffer exampleDrawBuffer_two
  refine ⟨batch, h1, ?_⟩
  intro q hq
  obtain ⟨pre, c, post, -, -, -, -, -, h5, h6⟩ := h2 q hq
  exact ⟨h5, h6⟩

/-- C27: on a buffer with no line and no chain, the chain builder returns
with no chain, and the packer then builds a batch whose vertex buffer is the
sentinel vertex alone, at index 0, and whose index buffer has no primitive. -/
theorem empty_line_list_batch (E : Extern) (rb : LANPR_RenderBuffer) (dist_threshold : ℚ)
    (hlines : rb.AllRenderLines = []) (hchains : rb.Chains = []) :
    ∃ out, lanpr_ChainFeatureLines_NO_THREAD E rb dist_threshold = some out ∧
      out.Chains = [] ∧
      ∃ batch, lanpr_ChainGenerateDrawCommand E out = some batch ∧
        batch.vbo = [{ pos := some (3 * 10 ^ 30, 3 * 10 ^ 30), uvs := none,
                       type := none, level := none }] ∧
        batch.elb = [] := by
  have hd : lanpr_ChainGenerateDrawCommand E rb =
      some { vbo := [{ pos := some (3 * 10 ^ 30, 3 * 10 ^ 30), uvs := none,
                       type := none, level := none }],
             elb := [] } := by
    simp [lanpr_ChainGenerateDrawCommand, hchains, vertCountLoop, drawChainsLoop, attrSetPos,
      unsetVert]
  refine ⟨rb, ?_, hchains, _, hd, rfl, rfl⟩
  simp [lanpr_ChainFeatureLines_NO_THREAD, hlines, chainLoop]

/-- C27 on the buffer with no line and no chain, with threshold 1/100. -/
theorem empty_line_list_batch_witness :
    emptyBuffer.AllRenderLines = [] ∧ emptyBuffer.Chains = [] ∧
    ∃ out, lanpr_ChainFeatureLines_NO_THREAD exampleExtern emptyBuffer (1 / 100) = some out ∧
      out.Chains = [] ∧
      ∃ batch, lanpr_ChainGenerateDrawCommand exampleExtern out = some batch ∧
        batch.vbo = [{ pos := some (3 * 10 ^ 30, 3 * 10 ^ 30), uvs := none,
                       type := none, level := none }] ∧
        batch.elb = [] :=
  ⟨rfl, rfl, empty_line_list_batch exampleExtern emptyBuffer (1 / 100) rfl rfl⟩

/-! ### Simplifier: metadata and idempotence -/

theorem meta_ne_iff (n x : LANPR_RenderLineChainItem) :
    (n.OccludeLevel ≠ x.OccludeLevel ∨ n.LineType ≠ x.LineType) ↔ metaOf n ≠ metaOf x := by
  simp only [metaOf, ne_eq, Prod.mk.injEq, not_and_or]
  exact or_comm

theorem collapseRuns_cons (a : Nat × Int) (l : List (Nat × Int)) :
    collapseRuns (a :: l) =
      if l.head? = some a then collapseRuns l else a :: collapseRuns l := by
  cases l with
  | nil => simp [collapseRuns]
  | cons b l =>
    simp only [collapseRuns, List.head?_cons, Option.some.injEq]
    by_cases h : a = b
    · rw [if_pos h, if_pos h.symm]
    · rw [if_neg h, if_neg (fun h' => h h'.symm)]

theorem head_append_cons (xs : List LANPR_RenderLineChainItem) (t : LANPR_RenderLineChainItem)
    (O : List LANPR_RenderLineChainItem) : (xs ++ t :: O).head? = some (nextOf xs t) := by
  cases xs <;> rfl

theorem Thinned.head {kept chain : List LANPR_RenderLineChainItem} (h : Thinned kept chain) :
    kept.head?.map metaOf = chain.head?.map metaOf := by
  induction h with
  | nil => rfl
  | keep x _ _ => rfl
  | drop x y hxy _ _ => simp [hxy]

theorem Thinned.collapse {kept chain : List LANPR_RenderLineChainItem}
    (h : Thinned kept chain) :
    collapseRuns (kept.map metaOf) = collapseRuns (chain.map metaOf) := by
  induction h with
  | nil => rfl
  | keep x hk ih =>
    rw [List.map_cons, List.map_cons, collapseRuns_cons, collapseRuns_cons, ih,
      List.head?_map, List.head?_map, hk.head]
  | drop x y hxy hk ih =>
    have hh := hk.head
    simp only [List.map_cons, List.head?_cons, Option.map_some'] at ih hh ⊢
    rw [collapseRuns_cons (metaOf x), List.head?_map, ← hh, if_pos (by rw [hxy]), ih]

/-- The second loop on a range, followed by items that are thinned already. -/
theorem thinned_breakItems (t : LANPR_RenderLineChainItem)
    (mid K O : List LANPR_RenderLineChainItem) (h : Thinned K O) :
    Thinned (breakItems t mid ++ t :: K) (mid ++ t :: O) := by
  induction mid with
  | nil => exact Thinned.keep t h
  | cons x xs ih =>
    rw [breakItems_cons]
    by_cases hb : (nextOf xs t).OccludeLevel ≠ x.OccludeLevel ∨
        (nextOf xs t).LineType ≠ x.LineType
    · rw [if_pos hb]
      exact Thinned.keep x ih
    · rw [if_neg hb]
      have hm : metaOf (nextOf xs t) = metaOf x := by
        by_contra hne
        exact hb ((meta_ne_iff _ _).mpr hne)
      have hh := ih.head
      rw [head_append_cons xs t O] at hh
      cases hk : breakItems t xs ++ t :: K with
      | nil => simp at hk
      | cons y k =>
        rw [hk] at ih hh
        simp only [List.head?_cons, Option.map_some', Option.some.injEq] at hh
        exact Thinned.drop x y (by rw [hh, hm]) ih

/-- C24: whatever the chain of at least two items and the threshold, the
simplifier returns; each item it removes has the line type and the occlusion
level of the first item left after it; and the sequence of (line type,
occlusion level) values with consecutive duplicates collapsed is the same for
the chain left and for the chain given. -/
theorem reduce_keeps_meta_runs (E : Extern) (dist_threshold : ℚ)
    (from_ : LANPR_RenderLineChainItem) (mid : List LANPR_RenderLineChainItem)
    (to_ : LANPR_RenderLineChainItem) :
    ∃ r, lanpr_reduce_render_line_chain_recursive E dist_threshold (from_ :: mid ++ [to_]) =
        some r ∧
      Thinned r.1 (from_ :: mid ++ [to_]) ∧
      collapseRuns (r.1.map metaOf) = collapseRuns ((from_ :: mid ++ [to_]).map metaOf) := by
  obtain ⟨r, hr, hs⟩ := reduceRange_induct E dist_threshold
    (fun _ mid t r => ∀ K O, Thinned K O → Thinned (r.1 ++ t :: K) (mid ++ t :: O))
    (fun f mid t _ => by
      beta_reduce
      intro K O h
      rw [removeLoop_fst]
      exact thinned_breakItems t mid K O h)
    (fun f a m b t l r _ hl hr => by
      beta_reduce at hl hr ⊢
      intro K O h
      have h1 := hl _ _ (hr K O h)
      simpa using h1)
    (mid.length + 2) from_ mid to_ (by omega)
  have hth : Thinned (from_ :: r.1 ++ [to_]) (from_ :: mid ++ [to_]) :=
    Thinned.keep from_ (hs [] [] Thinned.nil)
  refine ⟨(from_ :: r.1 ++ [to_], r.2), ?_, hth, hth.collapse⟩
  rw [lanpr_reduce_eq, hr]
  rfl

theorem candItems_append (a : List LANPR_RenderLineChainItem) (b t : LANPR_RenderLineChainItem)
    (c : List LANPR_RenderLineChainItem) :
    candItems t (a ++ b :: c) = candItems b a ++ candItems t (b :: c) := by
  induction a with
  | nil => rfl
  | cons x xs ih =>
    rw [List.cons_append, candItems_cons, candItems_cons b x, nextOf_append, ih]
    split <;> simp

/-- Among the items the second loop leaves there is no candidate, and the
first of them (or `to`) has the line type and occlusion level of the first
item of the range (or `to`). -/
theorem breakItems_no_cand (t : LANPR_RenderLineChainItem)
    (mid : List LANPR_RenderLineChainItem) :
    candItems t (breakItems t mid) = [] ∧
      metaOf (nextOf (breakItems t mid) t) = metaOf (nextOf mid t) := by
  induction mid with
  | nil => exact ⟨rfl, rfl⟩
  | cons x xs ih =>
    rw [breakItems_cons]
    by_cases hb : (nextOf xs t).OccludeLevel ≠ x.OccludeLevel ∨
        (nextOf xs t).LineType ≠ x.LineType
    · rw [if_pos hb]
      refine ⟨?_, rfl⟩
      rw [candItems_cons, if_pos, ih.1]
      rw [meta_ne_iff, ih.2, ← meta_ne_iff]
      exact hb
    · rw [if_neg hb]
      refine ⟨ih.1, ?_⟩
      rw [ih.2]
      by_contra hne
      exact hb ((meta_ne_iff _ _).mpr hne)

/-- The second loop removes nothing from a range without candidate. -/
theorem removeLoop_no_cand (f t : LANPR_RenderLineChainItem)
    (mid : List LANPR_RenderLineChainItem) (h : candItems t mid = []) :
    removeLoop f t mid = (mid, []) := by
  induction mid with
  | nil => rfl
  | cons x xs ih =>
    rw [candItems_cons] at h
    by_cases hb : (nextOf xs t).OccludeLevel ≠ x.OccludeLevel ∨
        (nextOf xs t).LineType ≠ x.LineType
    · rw [if_pos hb] at h
      rw [removeLoop, if_pos ((metaBreak_iff _ _).mpr hb), ih h]
    · rw [if_neg hb] at h
      simp at h

/-- While `max_rlci` stays what it was, no candidate visited is beyond both
the threshold and the running maximum. -/
theorem findMaxLoop_keep (E : Extern) (tol : ℚ) (f t : LANPR_RenderLineChainItem)
    (b : List LANPR_RenderLineChainItem) (i : Nat) (md : ℚ) (j : Nat) (hj : j < i)
    (h : (findMaxLoop E tol f t b i md (some j)).2 = some j) :
    ∀ x ∈ candItems t b,
      ¬ (E.dist_to_line_segment_v2 x.pos f.pos t.pos > tol ∧
        E.dist_to_line_segment_v2 x.pos f.pos t.pos > md) := by
  induction b generalizing i with
  | nil => intro x hx; simp [candItems] at hx
  | cons y ys ih =>
    rw [findMaxLoop] at h
    rw [candItems_cons]
    by_cases hb : metaBreak y (some (nextOf ys t)) = true
    · rw [if_pos hb] at h
      rw [if_pos ((metaBreak_iff _ _).mp hb)]
      exact ih (i + 1) (by omega) h
    · rw [if_neg hb] at h
      rw [if_neg (fun h' => hb ((metaBreak_iff _ _).mpr h'))]
      simp only at h
      by_cases hd : E.dist_to_line_segment_v2 y.pos f.pos t.pos > tol ∧
          E.dist_to_line_segment_v2 y.pos f.pos t.pos > md
      · rw [if_pos hd] at h
        rcases findMaxLoop_bound E tol f t ys (i + 1) _ (some i) j h with h' | h'
        · simp only [Option.some.injEq] at h'; omega
        · omega
      · rw [if_neg hd] at h
        intro x hx
        rcases List.mem_cons.mp hx with rfl | hx
        · exact hd
        · exact ih (i + 1) (by omega) h x hx

/-- What the selection of the item after `a` by the first loop means: that
item is a candidate beyond the threshold and the starting maximum, every
candidate before it is nearer to the segment and no candidate after it is
farther. -/
theorem findMaxLoop_inv (E : Extern) (tol : ℚ) (f t : LANPR_RenderLineChainItem)
    (a : List LANPR_RenderLineChainItem) (m : LANPR_RenderLineChainItem)
    (b : List LANPR_RenderLineChainItem) (i : Nat) (md : ℚ) (mi : Option Nat)
    (hmi : ∀ j, mi = some j → j < i)
    (h : (findMaxLoop E tol f t (a ++ m :: b) i md mi).2 = some (i + a.length)) :
    ¬ ((nextOf b t).OccludeLevel ≠ m.OccludeLevel ∨ (nextOf b t).LineType ≠ m.LineType) ∧
      E.dist_to_line_segment_v2 m.pos f.pos t.pos > tol ∧
      E.dist_to_line_segment_v2 m.pos f.pos t.pos > md ∧
      (∀ x ∈ candItems m a,
        E.dist_to_line_segment_v2 x.pos f.pos t.pos <
          E.dist_to_line_segment_v2 m.pos f.pos t.pos) ∧
      (∀ x ∈ candItems t b,
        E.dist_to_line_segment_v2 x.pos f.pos t.pos ≤
          E.dist_to_line_segment_v2 m.pos f.pos t.pos) := by
  induction a generalizing i md mi with
  | nil =>
    rw [List.nil_append, findMaxLoop] at h
    simp only [List.length_nil, Nat.add_zero] at h
    have hno : ∀ md', (findMaxLoop E tol f t b (i + 1) md' mi).2 ≠ some i := by
      intro md' h'
      rcases findMaxLoop_bound E tol f t b (i + 1) md' mi i h' with h'' | h''
      · exact absurd (hmi i h'') (by omega)
      · omega
    by_cases hb : metaBreak m (some (nextOf b t)) = true
    · rw [if_pos hb] at h
      exact absurd h (hno _)
    · rw [if_neg hb] at h
      by_cases hd : E.dist_to_line_segment_v2 m.pos f.pos t.pos > tol ∧
          E.dist_to_line_segment_v2 m.pos f.pos t.pos > md
      · rw [if_pos hd] at h
        refine ⟨fun h' => hb ((metaBreak_iff _ _).mpr h'), hd.1, hd.2, ?_, ?_⟩
        · intro x hx; simp [candItems] at hx
        · intro x hx
          have := findMaxLoop_keep E tol f t b (i + 1) _ i (by omega) h x hx
          by_contra hgt
          push_neg at hgt
          exact this ⟨lt_trans hd.1 hgt, hgt⟩
      · rw [if_neg hd] at h
        exact absurd h (hno _)
  | cons x xs ih =>
    rw [List.cons_append, findMaxLoop, nextOf_append] at h
    have hlen : i + (x :: xs).length = (i + 1) + xs.length := by
      simp only [List.length_cons]; omega
    rw [hlen] at h
    rw [candItems_cons]
    by_cases hb : metaBreak x (some (nextOf xs m)) = true
    · rw [if_pos hb] at h
      rw [if_pos ((metaBreak_iff _ _).mp hb)]
      exact ih (i + 1) md mi (fun j hj => by have := hmi j hj; omega) h
    · rw [if_neg hb] at h
      rw [if_neg (fun h' => hb ((metaBreak_iff _ _).mpr h'))]
      simp only at h
      by_cases hd : E.dist_to_line_segment_v2 x.pos f.pos t.pos > tol ∧
          E.dist_to_line_segment_v2 x.pos f.pos t.pos > md
      · rw [if_pos hd] at h
        obtain ⟨h1, h2, h3, h4, h5⟩ := ih (i + 1) _ (some i)
          (fun j hj => by simp only [Option.some.injEq] at hj; omega) h
        refine ⟨h1, h2, lt_trans hd.2 h3, ?_, h5⟩
        intro y hy
        rcases List.mem_cons.mp hy with rfl | hy
        · exact h3
        · exact h4 y hy
      · rw [if_neg hd] at h
        obtain ⟨h1, h2, h3, h4, h5⟩ := ih (i + 1) md mi
          (fun j hj => by have := hmi j hj; omega) h
        refine ⟨h1, h2, h3, ?_, h5⟩
        intro y hy
        rcases List.mem_cons.mp hy with rfl | hy
        · by_contra hge
          push_neg at hge
          exact hd ⟨lt_of_lt_of_le h2 hge, lt_of_lt_of_le h3 hge⟩
        · exact h4 y hy

/-- What a call on a range leaves is a fixed point of the call: no candidate
is new, the first item left has the metadata of the first item given, and a
second call on the items left removes nothing. -/
theorem reduceRange_fixed (E : Extern) (tol : ℚ) (fuel : Nat)
    (f : LANPR_RenderLineChainItem) (mid : List LANPR_RenderLineChainItem)
    (t : LANPR_RenderLineChainItem) (hfuel : mid.length < fuel) :
    ∃ r, reduceRange E tol fuel f mid t = some r ∧
      metaOf (nextOf r.1 t) = metaOf (nextOf mid t) ∧
      (∀ x ∈ candItems t r.1, x ∈ candItems t mid) ∧
      ∀ fuel2, r.1.length < fuel2 → reduceRange E tol fuel2 f r.1 t = some (r.1, []) := by
  refine reduceRange_induct E tol
    (fun f mid t r => metaOf (nextOf r.1 t) = metaOf (nextOf mid t) ∧
      (∀ x ∈ candItems t r.1, x ∈ candItems t mid) ∧
      ∀ fuel2, r.1.length < fuel2 → reduceRange E tol fuel2 f r.1 t = some (r.1, []))
    ?_ ?_ fuel f mid t hfuel
  · intro f mid t _
    beta_reduce
    rw [removeLoop_fst]
    obtain ⟨hc, hm⟩ := breakItems_no_cand t mid
    refine ⟨hm, fun x hx => by rw [hc] at hx; simp at hx, ?_⟩
    intro fuel2 hf2
    obtain ⟨n, rfl⟩ : ∃ n, fuel2 = n + 1 := ⟨fuel2 - 1, by omega⟩
    have hfind : (findMaxLoop E tol f t (breakItems t mid) 0 0 none).2 = none := by
      rw [findMaxLoop_unchanged E tol f t _ 0 0 none
        (fun x hx => by rw [hc] at hx; simp at hx)]
    rw [reduceRange_of_none _ _ _ _ _ _ hfind, removeLoop_no_cand f t _ hc]
  · intro f a m b t l r hfind hl hr
    beta_reduce at hl hr ⊢
    obtain ⟨hl1, hl2, hl3⟩ := hl
    obtain ⟨hr1, hr2, hr3⟩ := hr
    have hfind' : (findMaxLoop E tol f t (a ++ m :: b) 0 0 none).2 = some (0 + a.length) := by
      rw [Nat.zero_add]; exact hfind
    obtain ⟨hm, htol, hmd, hbefore, hafter⟩ :=
      findMaxLoop_inv E tol f t a m b 0 0 none (fun j hj => by simp at hj) hfind'
    have hm' : ¬ ((nextOf r.1 t).OccludeLevel ≠ m.OccludeLevel ∨
        (nextOf r.1 t).LineType ≠ m.LineType) := by
      rw [meta_ne_iff, hr1, ← meta_ne_iff]
      exact hm
    refine ⟨?_, ?_, ?_⟩
    · rw [nextOf_append, nextOf_append]
      exact hl1
    · intro x hx
      rw [candItems_append] at hx ⊢
      rcases List.mem_append.mp hx with hx | hx
      · exact List.mem_append_left _ (hl2 x hx)
      · apply List.mem_append_right
        rw [candItems_cons, if_neg hm'] at hx
        rw [candItems_cons, if_neg hm]
        rcases List.mem_cons.mp hx with rfl | hx
        · exact List.mem_cons_self _ _
        · exact List.mem_cons_of_mem _ (hr2 x hx)
    · intro fuel2 hf2
      simp only [List.length_append, List.length_cons] at hf2
      obtain ⟨n, rfl⟩ : ∃ n, fuel2 = n + 1 := ⟨fuel2 - 1, by omega⟩
      have hfind2 : (findMaxLoop E tol f t (l.1 ++ m :: r.1) 0 0 none).2 = some l.1.length := by
        have := findMaxLoop_argmax E tol f t l.1 m r.1 0 0 none hm' htol hmd
          (fun x hx => hbefore x (hl2 x hx)) (fun x hx => hafter x (hr2 x hx))
        rw [Nat.zero_add] at this
        exact this
      have := reduceRange_of_some E tol n f l.1 m r.1 t hfind2 (by omega) (l.1, []) (r.1, [])
        (hl3 n (by omega)) (hr3 n (by omega))
      simpa using this

/-- C29: whatever the chain of at least two items and the threshold, the
simplifier returns, and run again on the chain it left it returns that chain
and removes nothing. -/
theorem reduce_idempotent (E : Extern) (dist_threshold : ℚ)
    (from_ : LANPR_RenderLineChainItem) (mid : List LANPR_RenderLineChainItem)
    (to_ : LANPR_RenderLineChainItem) :
    ∃ r, lanpr_reduce_render_line_chain_recursive E dist_threshold (from_ :: mid ++ [to_]) =
        some r ∧
      lanpr_reduce_render_line_chain_recursive E dist_threshold r.1 = some (r.1, []) := by
  obtain ⟨r, hr, -, -, hfix⟩ :=
    reduceRange_fixed E dist_threshold (mid.length + 2) from_ mid to_ (by omega)
  refine ⟨(from_ :: r.1 ++ [to_], r.2), ?_, ?_⟩
  · rw [lanpr_reduce_eq, hr]
    rfl
  · show lanpr_reduce_render_line_chain_recursive E dist_threshold (from_ :: r.1 ++ [to_]) = _
    rw [lanpr_reduce_eq, hfix _ (by omega)]
    rfl

/-- On a range whose items all have the metadata of `from` and lie on the
segment from `from` to `to` (distance 0), the call removes every interior
item, whatever the threshold. -/
theorem reduceRange_collinear (E : Extern) (tol : ℚ) (fuel : Nat)
    (f : LANPR_RenderLineChainItem) (mid : List LANPR_RenderLineChainItem)
    (t : LANPR_RenderLineChainItem)
    (hmeta : ∀ x ∈ mid ++ [t], x.LineType = f.LineType ∧ x.OccludeLevel = f.OccludeLevel)
    (hdist : ∀ x ∈ mid, E.dist_to_line_segment_v2 x.pos f.pos t.pos = 0) :
    reduceRange E tol (fuel + 1) f mid t =
      some ([], mid.map fun x => { rlci := x, from_ := f, to_ := t }) := by
  have hcand : ∀ x ∈ candItems t mid, x ∈ mid := by
    intro x hx
    have := removeLoop_perm f t mid
    rw [removeLoop_snd] at this
    exact this.subset (List.mem_append_right _ hx)
  have hfind : (findMaxLoop E tol f t mid 0 0 none).2 = none := by
    rw [findMaxLoop_unchanged E tol f t mid 0 0 none]
    intro x hx hc
    rw [hdist x (hcand x hx)] at hc
    exact absurd hc.2 (lt_irrefl _)
  rw [reduceRange_of_none _ _ _ _ _ _ hfind]
  congr 1
  clear hfind hcand hdist
  induction mid with
  | nil => rfl
  | cons x xs ih =>
    have hx := hmeta x (by simp)
    have hn : (nextOf xs t).LineType = f.LineType ∧ (nextOf xs t).OccludeLevel = f.OccludeLevel := by
      cases xs with
      | nil => exact hmeta t (by simp)
      | cons y ys => exact hmeta y (by simp)
    have hnb : ¬ metaBreak x (some (nextOf xs t)) = true := by
      rw [metaBreak_iff]
      push_neg
      exact ⟨by rw [hn.2, hx.2], by rw [hn.1, hx.1]⟩
    rw [removeLoop, if_neg hnb, ih (fun y hy => hmeta y (by simp at hy ⊢; tauto))]
    rfl

/-! ### Chain builder: termination and isolated seeds -/

/-- A growth loop whose lookup finds nothing returns at once. -/
theorem growLoop_none (E : Extern) (side : Side) (fuel : Nat) (rb : LANPR_RenderBuffer)
    (ba : Option LANPR_BoundingArea) (rv : LANPR_RenderVert) (rlc : LANPR_RenderLineChain)
    (h : ∀ area, ba = some area →
      lanpr_GetConnectedRenderLine E rb.AllRenderLines area rv = none) :
    growLoop E side (fuel + 1) rb ba rv rlc = some (rb, rlc) := by
  cases ba with
  | none => rw [growLoop]
  | some area => rw [growLoop, h area rfl]

/-- Once the seed at position `p` is marked, the lookup at `rv` finds nothing
in a cell whose other entries do not match. -/
theorem lookup_none_of_isolated (E : Extern) (hP : E.LANPR_EDGE_FLAG_CHAIN_PICKED ≠ 0)
    (lines : List LANPR_RenderLine) (p : Nat) (rl0 : LANPR_RenderLine)
    (area : LANPR_BoundingArea) (rv : LANPR_RenderVert)
    (h : ∀ lip ∈ area.LinkedLines, lip ≠ p → isMatch E lines rv lip = false) :
    lanpr_GetConnectedRenderLine E (lines.set p (markPicked E rl0)) area rv = none := by
  have h1 := (getConnectedLoop_find E (lines.set p (markPicked E rl0)) rv area.LinkedLines).1
  have h2 : area.LinkedLines.find? (isMatch E (lines.set p (markPicked E rl0)) rv) = none := by
    apply List.find?_eq_none.mpr
    intro lip hlip
    by_cases hne : lip = p
    · subst hne
      simp only [isMatch, Bool.not_eq_true]
      by_cases hlt : lip < lines.length
      · rw [List.getElem?_set_self hlt]
        simp [notPickable_markPicked E hP rl0]
      · rw [List.getElem?_eq_none (by simp; omega)]
    · have := h lip hlip hne
      simp only [isMatch, List.getElem?_set_ne (Ne.symm hne)] at this ⊢
      simp [this]
  rw [h2] at h1
  unfold lanpr_GetConnectedRenderLine
  cases hr : getConnectedLoop E (lines.set p (markPicked E rl0)) rv area.LinkedLines with
  | none => rfl
  | some r => rw [hr] at h1; simp at h1

/-- On a chain of two items the simplifier returns the chain. -/
theorem reduce_pair (E : Extern) (tol : ℚ) (a b : LANPR_RenderLineChainItem) :
    lanpr_reduce_render_line_chain_recursive E tol [a, b] = some ([a, b], []) := by
  simp [lanpr_reduce_render_line_chain_recursive, reduceRange, findMaxLoop]

/-- C26: for a seed line at position `p` with segments `s0, rest...`, when no
other entry of the cell at its `L` end matches at `L` and no other entry of the
cell at its `R` end matches at `R` (the chain-picked mask not being zero), the
body of the main loop builds, before the simplifier runs, the chain of the
positions `L`, the points at the segments of `rest` in order, `R`.  With one
segment the chain is the two positions `L`, `R`, and the simplifier returns it
unchanged for every threshold. -/
theorem isolated_seed_chain (E : Extern) (hP : E.LANPR_EDGE_FLAG_CHAIN_PICKED ≠ 0)
    (rb : LANPR_RenderBuffer) (p : Nat) (rl0 : LANPR_RenderLine)
    (s0 : LANPR_RenderLineSegment) (rest : List LANPR_RenderLineSegment)
    (hseg : rl0.Segments = s0 :: rest)
    (hL : ∀ area, lanpr_GetPointBoundingArea rb rl0.L.FrameBufferCoord.1
        rl0.L.FrameBufferCoord.2 = some area →
      ∀ lip ∈ area.LinkedLines, lip ≠ p → isMatch E rb.AllRenderLines rl0.L lip = false)
    (hR : ∀ area, lanpr_GetPointBoundingArea rb rl0.R.FrameBufferCoord.1
        rl0.R.FrameBufferCoord.2 = some area →
      ∀ lip ∈ area.LinkedLines, lip ≠ p → isMatch E rb.AllRenderLines rl0.R lip = false)
    (dist_threshold : ℚ) :
    ∃ rb' rlc, buildChain E rb p rl0 = some (rb', rlc) ∧
      (rlc.Chain.map fun (i : LANPR_RenderLineChainItem) => i.pos) =
        rl0.L.FrameBufferCoord :: rest.map (segPoint rl0) ++ [rl0.R.FrameBufferCoord] ∧
      (rest = [] →
        (rlc.Chain.map fun (i : LANPR_RenderLineChainItem) => i.pos) =
          [rl0.L.FrameBufferCoord, rl0.R.FrameBufferCoord] ∧
        lanpr_reduce_render_line_chain_recursive E dist_threshold rlc.Chain =
          some (rlc.Chain, [])) := by
  have hseg' : (markPicked E rl0).Segments = s0 :: rest := hseg
  have key : ∃ rb' rlc, buildChain E rb p rl0 = some (rb', rlc) ∧
      (rlc.Chain.map fun (i : LANPR_RenderLineChainItem) => i.pos) =
        rl0.L.FrameBufferCoord :: rest.map (segPoint rl0) ++ [rl0.R.FrameBufferCoord] := by
    have hg1 := growLoop_none E Side.left rb.AllRenderLines.length
      { AllRenderLines := rb.AllRenderLines.set p (markPicked E rl0), Chains := rb.Chains,
        RenderDataPool :=
          (lanpr_push_render_line_chain_point E (rb.RenderDataPool + 1)
            { Chain := [], picked := [p], raw := [] }
            (markPicked E rl0).L.FrameBufferCoord.1 (markPicked E rl0).L.FrameBufferCoord.2
            (markPicked E rl0).Flags 0).1,
        BoundingAreas := rb.BoundingAreas }
      (lanpr_GetPointBoundingArea
        { AllRenderLines := rb.AllRenderLines.set p (markPicked E rl0), Chains := rb.Chains,
          RenderDataPool := rb.RenderDataPool + 1, BoundingAreas := rb.BoundingAreas }
        (markPicked E rl0).L.FrameBufferCoord.1 (markPicked E rl0).L.FrameBufferCoord.2)
      (markPicked E rl0).L
      (lanpr_push_render_line_chain_point E (rb.RenderDataPool + 1)
        { Chain := [], picked := [p], raw := [] }
        (markPicked E rl0).L.FrameBufferCoord.1 (markPicked E rl0).L.FrameBufferCoord.2
        (markPicked E rl0).Flags 0).2
      (fun area ha => lookup_none_of_isolated E hP rb.AllRenderLines p rl0 area rl0.L
        (hL area ha))
    have hg3 : ∀ (rbX : LANPR_RenderBuffer) (rlcX : LANPR_RenderLineChain),
        rbX.AllRenderLines = rb.AllRenderLines.set p (markPicked E rl0) →
        rbX.BoundingAreas = rb.BoundingAreas →
        growLoop E Side.right (rb.AllRenderLines.length + 1) rbX
          (lanpr_GetPointBoundingArea rbX (markPicked E rl0).R.FrameBufferCoord.1
            (markPicked E rl0).R.FrameBufferCoord.2) (markPicked E rl0).R rlcX =
          some (rbX, rlcX) := by
      intro rbX rlcX h1 h2
      apply growLoop_none
      intro area ha
      rw [h1]
      apply lookup_none_of_isolated E hP rb.AllRenderLines p rl0 area rl0.R
      apply hR area
      unfold lanpr_GetPointBoundingArea at ha ⊢
      rw [← h2]
      exact ha
    unfold buildChain
    simp only
    rw [hg1]
    simp only [hseg']
    refine ⟨_, _, hg3 _ _ rfl rfl, ?_⟩
    have hv := emitOwnLevel_view E Side.right (markPicked E rl0) rest (rb.RenderDataPool + 1 + 1)
      (lanpr_push_render_line_chain_point E (rb.RenderDataPool + 1)
        { Chain := [], picked := [p], raw := [] }
        (markPicked E rl0).L.FrameBufferCoord.1 (markPicked E rl0).L.FrameBufferCoord.2
        (markPicked E rl0).Flags 0).2
    simp only [viewPts, lanpr_append_render_line_chain_point,
      lanpr_push_render_line_chain_point, List.map_append, List.map_cons, List.map_nil,
      List.reverse_cons, List.reverse_nil, List.nil_append] at hv ⊢
    have hv' := congrArg List.reverse hv
    simp only [List.reverse_reverse, List.reverse_append, List.reverse_cons, List.reverse_nil,
      List.nil_append, List.singleton_append] at hv'
    rw [hv']
    rfl
  obtain ⟨rb', rlc, h1, h2⟩ := key
  refine ⟨rb', rlc, h1, h2, ?_⟩
  intro hrest
  subst hrest
  simp only [List.map_nil, List.cons_append, List.nil_append] at h2
  refine ⟨h2, ?_⟩
  obtain ⟨a, b, hab⟩ : ∃ a b, rlc.Chain = [a, b] := by
    have hlen := congrArg List.length h2
    simp only [List.length_map, List.length_cons, List.length_nil] at hlen
    match hc : rlc.Chain, hlen with
    | [a, b], _ => exact ⟨a, b, rfl⟩
  rw [hab]
  exact reduce_pair E dist_threshold a b

/-- C26 on the line from `(0,0)` to `(1,1)` alone in its cell: the chain is
the two ends, and the simplifier with threshold 1/100 returns it unchanged;
the whole run leaves that one chain of two points. -/
theorem isolated_seed_chain_witness :
    exampleExtern.LANPR_EDGE_FLAG_CHAIN_PICKED ≠ 0 ∧
    isolatedBuffer.AllRenderLines[0]? = some isolatedLine ∧
    isolatedLine.Segments = { at_ := 0, OccludeLevel := 0 } :: [] ∧
    (∀ area, lanpr_GetPointBoundingArea isolatedBuffer isolatedLine.L.FrameBufferCoord.1
        isolatedLine.L.FrameBufferCoord.2 = some area →
      ∀ lip ∈ area.LinkedLines, lip ≠ 0 →
        isMatch exampleExtern isolatedBuffer.AllRenderLines isolatedLine.L lip = false) ∧
    (∀ area, lanpr_GetPointBoundingArea isolatedBuffer isolatedLine.R.FrameBufferCoord.1
        isolatedLine.R.FrameBufferCoord.2 = some area →
      ∀ lip ∈ area.LinkedLines, lip ≠ 0 →
        isMatch exampleExtern isolatedBuffer.AllRenderLines isolatedLine.R lip = false) ∧
    (∃ rb' rlc, buildChain exampleExtern isolatedBuffer 0 isolatedLine = some (rb', rlc) ∧
      (rlc.Chain.map fun (i : LANPR_RenderLineChainItem) => i.pos) = [(0, 0), (1, 1)] ∧
      lanpr_reduce_render_line_chain_recursive exampleExtern (1 / 100) rlc.Chain =
        some (rlc.Chain, [])) ∧
    ∃ out, lanpr_ChainFeatureLines_NO_THREAD exampleExtern isolatedBuffer (1 / 100) =
        some out ∧
      out.Chains =
        [{ Chain := [{ pos := (0, 0), LineType := 2, OccludeLevel := 0 },
                     { pos := (1, 1), LineType := 2, OccludeLevel := 0 }]
           picked := [0]
           raw := [{ pos := (0, 0), LineType := 2, OccludeLevel := 0 },
                   { pos := (1, 1), LineType := 2, OccludeLevel := 0 }] }] := by
  have hcell : ∀ (x y : ℚ) (area : LANPR_BoundingArea),
      lanpr_GetPointBoundingArea isolatedBuffer x y = some area →
      ∀ lip ∈ area.LinkedLines, lip ≠ 0 → ∀ rv,
        isMatch exampleExtern isolatedBuffer.AllRenderLines rv lip = false := by
    intro x y area ha lip hlip hne rv
    simp only [lanpr_GetPointBoundingArea, isolatedBuffer, Option.some.injEq] at ha
    subst ha
    simp only [List.mem_singleton] at hlip
    exact absurd hlip hne
  refine ⟨exampleExtern_picked_ne, rfl, rfl, fun area ha lip hlip hne =>
    hcell _ _ area ha lip hlip hne _, fun area ha lip hlip hne =>
    hcell _ _ area ha lip hlip hne _, ?_, ?_⟩
  · obtain ⟨rb', rlc, h1, h2, h3⟩ := isolated_seed_chain exampleExtern exampleExtern_picked_ne
      isolatedBuffer 0 isolatedLine { at_ := 0, OccludeLevel := 0 } [] rfl
      (fun area ha lip hlip hne => hcell _ _ area ha lip hlip hne _)
      (fun area ha lip hlip hne => hcell _ _ area ha lip hlip hne _) (1 / 100)
    exact ⟨rb', rlc, h1, (h3 rfl).1, (h3 rfl).2⟩
  · have b1 : (2 &&& 64 : ℕ) = 0 := by decide
    have b3 : (66 &&& 64 : ℕ) = 64 := by decide
    have b5 : (2 &&& 63 : ℕ) = 2 := by decide
    have b7 : (66 &&& 63 : ℕ) = 2 := by decide
    simp [lanpr_ChainFeatureLines_NO_THREAD, isolatedBuffer, isolatedLine, chainLoop, List.range,
      List.range.loop, notPickable, exampleExtern_all_type, exampleExtern_picked,
      exampleExtern_pool, buildChain, markPicked, lanpr_push_render_line_chain_point,
      lanpr_GetPointBoundingArea, growLoop, lanpr_GetConnectedRenderLine, getConnectedLoop,
      emitOwnLevel, lanpr_append_render_line_chain_point, b1, b3, b5, b7, reduce_pair,
      -Prod.mk_zero_zero]

/-- C22: on lines that each have a segment (the chain-picked mask not being
zero), whatever the spatial index, `lanpr_ChainFeatureLines_NO_THREAD`
returns: no growth loop uses up its fuel.  The list `picked` of a chain holds
its seed and one line for each iteration of its two growth loops; no line
occurs twice in these lists, each line in them had no chain-picked bit at the
start, and so the iterations of all the growth loops together are at most as
many as the lines. -/
theorem chainFeatureLines_terminates (E : Extern) (hP : E.LANPR_EDGE_FLAG_CHAIN_PICKED ≠ 0)
    (rb : LANPR_RenderBuffer) (dist_threshold : ℚ)
    (hseg : ∀ l ∈ rb.AllRenderLines, l.Segments ≠ []) :
    ∃ out new, lanpr_ChainFeatureLines_NO_THREAD E rb dist_threshold = some out ∧
      out.Chains = rb.Chains ++ new ∧
      (∀ c ∈ new, c.picked ≠ []) ∧
      (new.flatMap fun c => c.picked).Nodup ∧
      (∀ c ∈ new, ∀ p ∈ c.picked, ∃ l0, rb.AllRenderLines[p]? = some l0 ∧
        l0.Flags &&& E.LANPR_EDGE_FLAG_CHAIN_PICKED = 0) ∧
      (new.map fun c => c.picked.length).sum ≤ rb.AllRenderLines.length ∧
      (new.map fun c => c.picked.length - 1).sum ≤ rb.AllRenderLines.length := by
  obtain ⟨out, new, h1, h2, h3, h4, -⟩ := chainFeatureLines_total E hP rb dist_threshold hseg
  have hsum : (new.map fun c => c.picked.length).sum ≤ rb.AllRenderLines.length := by
    have := h3.length_le
    simpa [consumedBy, List.length_flatMap] using this
  refine ⟨out, new, h1, h2, fun c hc => (h4 c hc).nonempty, h3.nodup, ?_, hsum, ?_⟩
  · intro c hc p hp
    obtain ⟨l0, hl0, hnp, -⟩ := h3.marked p (List.mem_flatMap.mpr ⟨c, hc, hp⟩)
    exact ⟨l0, hl0, ((notPickable_false_iff E l0).mp hnp).2⟩
  · refine le_trans (List.sum_le_sum ?_) hsum
    intro c _
    exact Nat.sub_le _ _

/-- C22 on the three lines of `starBuffer`, which all leave one vertex. -/
theorem chainFeatureLines_terminates_witness :
    exampleExtern.LANPR_EDGE_FLAG_CHAIN_PICKED ≠ 0 ∧
    (∀ l ∈ starBuffer.AllRenderLines, l.Segments ≠ []) ∧
    ∃ out new, lanpr_ChainFeatureLines_NO_THREAD exampleExtern starBuffer 3 = some out ∧
      out.Chains = starBuffer.Chains ++ new ∧
      (new.map fun c => c.picked.length - 1).sum ≤ 3 := by
  refine ⟨exampleExtern_picked_ne, starBuffer_segments, ?_⟩
  obtain ⟨out, new, h1, h2, -, -, -, -, h7⟩ :=
    chainFeatureLines_terminates exampleExtern exampleExtern_picked_ne starBuffer 3
      starBuffer_segments
  exact ⟨out, new, h1, h2, h7⟩

/-- C23: a line at position `p` with no feature-type bit is skipped as a seed
(the test of line 149 holds), is never the line returned by
`lanpr_GetConnectedRenderLine` (which only returns lines with a feature-type
bit), is in the list `picked` of no chain, and is unchanged after the run. -/
theorem untyped_line_never_chained (E : Extern) (hP : E.LANPR_EDGE_FLAG_CHAIN_PICKED ≠ 0)
    (rb : LANPR_RenderBuffer) (dist_threshold : ℚ)
    (hseg : ∀ l ∈ rb.AllRenderLines, l.Segments ≠ [])
    (p : Nat) (l : LANPR_RenderLine) (hp : rb.AllRenderLines[p]? = some l)
    (hty : l.Flags &&& E.LANPR_EDGE_FLAG_ALL_TYPE = 0) :
    notPickable E l = true ∧
    (∀ (lines : List LANPR_RenderLine) (ba : LANPR_BoundingArea) (rv : LANPR_RenderVert)
      (q : Nat) (nrl : LANPR_RenderLine) (new_rv : LANPR_RenderVert),
      lanpr_GetConnectedRenderLine E lines ba rv = some (q, nrl, new_rv) →
      nrl.Flags &&& E.LANPR_EDGE_FLAG_ALL_TYPE ≠ 0) ∧
    ∃ out new, lanpr_ChainFeatureLines_NO_THREAD E rb dist_threshold = some out ∧
      out.Chains = rb.Chains ++ new ∧
      (∀ c ∈ new, p ∉ c.picked) ∧
      out.AllRenderLines[p]? = some l := by
  have hnp : notPickable E l = true := by simp [notPickable, hty]
  refine ⟨hnp, ?_, ?_⟩
  · intro lines ba rv q nrl new_rv h
    obtain ⟨-, -, h3, -⟩ := getConnectedLoop_spec E lines rv ba.LinkedLines q nrl new_rv h
    exact ((notPickable_false_iff E nrl).mp h3).1
  · obtain ⟨out, new, h1, h2, h3, -, h5⟩ := chainFeatureLines_total E hP rb dist_threshold hseg
    have hnot : p ∉ consumedBy new := by
      intro hmem
      have := (h5 p l hp).mp hmem
      rw [hnp] at this
      exact Bool.noConfusion this
    refine ⟨out, new, h1, h2, ?_, ?_⟩
    · intro c hc hpc
      exact hnot (List.mem_flatMap.mpr ⟨c, hc, hpc⟩)
    · rw [h3.rest p hnot, hp]

theorem untypedBuffer_segments : ∀ l ∈ untypedBuffer.AllRenderLines, l.Segments ≠ [] := by
  intro l hl
  simp only [untypedBuffer, List.mem_cons, List.mem_singleton, List.not_mem_nil, or_false] at hl
  rcases hl with rfl | rfl <;> simp

/-- C23 on `untypedBuffer`, whose second line has no feature-type bit and
starts at the `R` vertex of the first. -/
theorem untyped_line_never_chained_witness :
    exampleExtern.LANPR_EDGE_FLAG_CHAIN_PICKED ≠ 0 ∧
    (∀ l ∈ untypedBuffer.AllRenderLines, l.Segments ≠ []) ∧
    ∃ l, untypedBuffer.AllRenderLines[1]? = some l ∧
      l.Flags &&& exampleExtern.LANPR_EDGE_FLAG_ALL_TYPE = 0 ∧
      ∃ out new, lanpr_ChainFeatureLines_NO_THREAD exampleExtern untypedBuffer 0 = some out ∧
        out.Chains = untypedBuffer.Chains ++ new ∧
        (∀ c ∈ new, 1 ∉ c.picked) ∧
        out.AllRenderLines[1]? = some l := by
  have hty : (0 &&& exampleExtern.LANPR_EDGE_FLAG_ALL_TYPE : ℕ) = 0 := by
    rw [exampleExtern_all_type]; decide
  exact ⟨exampleExtern_picked_ne, untypedBuffer_segments, _, rfl, hty,
    (untyped_line_never_chained exampleExtern exampleExtern_picked_ne untypedBuffer 0
      untypedBuffer_segments 1 _ rfl hty).2.2⟩

theorem reduce_straight (tol : ℚ) :
    lanpr_reduce_render_line_chain_recursive exampleExtern tol
      [{ pos := (0, 0), LineType := 2, OccludeLevel := 0 },
       { pos := (1, 0), LineType := 2, OccludeLevel := 0 },
       { pos := (2, 0), LineType := 2, OccludeLevel := 0 }] =
      some ([{ pos := (0, 0), LineType := 2, OccludeLevel := 0 },
             { pos := (2, 0), LineType := 2, OccludeLevel := 0 }],
            [{ rlci := { pos := (1, 0), LineType := 2, OccludeLevel := 0 },
               from_ := { pos := (0, 0), LineType := 2, OccludeLevel := 0 },
               to_ := { pos := (2, 0), LineType := 2, OccludeLevel := 0 } }]) := by
  have h := lanpr_reduce_eq exampleExtern tol
    { pos := (0, 0), LineType := 2, OccludeLevel := 0 }
    [{ pos := (1, 0), LineType := 2, OccludeLevel := 0 }]
    { pos := (2, 0), LineType := 2, OccludeLevel := 0 }
  rw [reduceRange_collinear exampleExtern tol _ _ _ _
    (by
      intro x hx
      simp only [List.singleton_append, List.mem_cons, List.mem_singleton,
        List.not_mem_nil, or_false] at hx
      rcases hx with rfl | rfl <;> exact ⟨rfl, rfl⟩)
    (by
      intro x hx
      simp only [List.mem_singleton] at hx
      subst hx
      norm_num [exampleExtern, dist_to_line_segment_v2, closest_to_line_segment_v2, len_v2v2,
        sqrtf])] at h
  exact h

set_option maxHeartbeats 1000000 in
/-- C25: on a chain whose items all have the line type and the occlusion level
of the first and whose interior items are at distance 0 from the segment of
its two ends, the simplifier removes every interior item, whatever the
threshold.  And the lines `(0,0)-(1,0)` and `(1,0)-(2,0)` of one type, which
share the vertex at `(1,0)`, are chained with threshold 1/100 into one chain:
before the simplifier it has the points `(0,0) (1,0) (2,0)`, of total length
2, and after it the points `(0,0) (2,0)`, of total length 2. -/
theorem collinear_chain_reduces :
    (∀ (E : Extern) (dist_threshold : ℚ) (from_ : LANPR_RenderLineChainItem)
      (mid : List LANPR_RenderLineChainItem) (to_ : LANPR_RenderLineChainItem),
      (∀ x ∈ mid ++ [to_],
        x.LineType = from_.LineType ∧ x.OccludeLevel = from_.OccludeLevel) →
      (∀ x ∈ mid, E.dist_to_line_segment_v2 x.pos from_.pos to_.pos = 0) →
      lanpr_reduce_render_line_chain_recursive E dist_threshold (from_ :: mid ++ [to_]) =
        some ([from_, to_], mid.map fun x => { rlci := x, from_ := from_, to_ := to_ })) ∧
    ∃ out, lanpr_ChainFeatureLines_NO_THREAD exampleExtern twoLineBuffer (1 / 100) = some out ∧
      out.Chains =
        [{ Chain := [{ pos := (0, 0), LineType := 2, OccludeLevel := 0 },
                     { pos := (2, 0), LineType := 2, OccludeLevel := 0 }]
           picked := [0, 1]
           raw := [{ pos := (0, 0), LineType := 2, OccludeLevel := 0 },
                   { pos := (1, 0), LineType := 2, OccludeLevel := 0 },
                   { pos := (2, 0), LineType := 2, OccludeLevel := 0 }] }] ∧
      lanpr_ComputeChainLength exampleExtern
        { Chain := [{ pos := (0, 0), LineType := 2, OccludeLevel := 0 },
                    { pos := (1, 0), LineType := 2, OccludeLevel := 0 },
                    { pos := (2, 0), LineType := 2, OccludeLevel := 0 }]
          picked := [0, 1], raw := [] } [0, 0, 0] 0 = some (2, [0, 1, 2]) ∧
      lanpr_ComputeChainLength exampleExtern
        { Chain := [{ pos := (0, 0), LineType := 2, OccludeLevel := 0 },
                    { pos := (2, 0), LineType := 2, OccludeLevel := 0 }]
          picked := [0, 1], raw := [] } [0, 0] 0 = some (2, [0, 2]) := by
  refine ⟨?_, ?_⟩
  · intro E tol f mid t hmeta hdist
    rw [lanpr_reduce_eq, reduceRange_collinear E tol _ f mid t hmeta hdist]
    rfl
  · have b1 : (2 &&& 64 : ℕ) = 0 := by decide
    have b3 : (66 &&& 64 : ℕ) = 64 := by decide
    have b5 : (2 &&& 63 : ℕ) = 2 := by decide
    have b7 : (66 &&& 63 : ℕ) = 2 := by decide
    have b10 : (2 &&& 16 : ℕ) = 0 := by decide
    have h4 : Nat.sqrt 4 = 2 := by norm_num
    have hto : Int.toNat 4 = 4 := rfl
    have hrun : ∃ out, lanpr_ChainFeatureLines_NO_THREAD exampleExtern twoLineBuffer (1 / 100) =
          some out ∧
        out.Chains =
          [{ Chain := [{ pos := (0, 0), LineType := 2, OccludeLevel := 0 },
                       { pos := (2, 0), LineType := 2, OccludeLevel := 0 }]
             picked := [0, 1]
             raw := [{ pos := (0, 0), LineType := 2, OccludeLevel := 0 },
                     { pos := (1, 0), LineType := 2, OccludeLevel := 0 },
                     { pos := (2, 0), LineType := 2, OccludeLevel := 0 }] }] := by
      simp [lanpr_ChainFeatureLines_NO_THREAD, twoLineBuffer, chainLoop, List.range,
        List.range.loop, notPickable, exampleExtern_all_type, exampleExtern_picked,
        exampleExtern_intersection, exampleExtern_pool, buildChain, markPicked,
        lanpr_push_render_line_chain_point, lanpr_GetPointBoundingArea, growLoop,
        lanpr_GetConnectedRenderLine, getConnectedLoop, LANPR_OTHER_RV, emitLine, emitOwnLevel,
        emitLastLevel, addPoint, notePicked, lanpr_append_render_line_chain_point, tnsLinearItp,
        b1, b3, b5, b7, b10, reduce_straight, -Prod.mk_zero_zero]
    obtain ⟨out, ho1, ho2⟩ := hrun
    refine ⟨out, ho1, ho2, ?_, ?_⟩
    · norm_num [lanpr_ComputeChainLength, chainLengthLoop, exampleExtern, len_v2v2, sqrtf,
        hto, h4]
    · norm_num [lanpr_ComputeChainLength, chainLengthLoop, exampleExtern, len_v2v2, sqrtf,
        hto, h4]

/-- The first part of C25 on the three points `(0,0) (1,0) (2,0)` with
threshold 1/100. -/
theorem collinear_chain_reduces_witness :
    (∀ x ∈ [({ pos := (1, 0), LineType := 2, OccludeLevel := 0 } : LANPR_RenderLineChainItem)] ++
        [{ pos := (2, 0), LineType := 2, OccludeLevel := 0 }],
      x.LineType = 2 ∧ x.OccludeLevel = 0) ∧
    (∀ x ∈ [({ pos := (1, 0), LineType := 2, OccludeLevel := 0 } : LANPR_RenderLineChainItem)],
      exampleExtern.dist_to_line_segment_v2 x.pos (0, 0) (2, 0) = 0) ∧
    lanpr_reduce_render_line_chain_recursive exampleExtern (1 / 100) straightChain =
      some ([{ pos := (0, 0), LineType := 2, OccludeLevel := 0 },
             { pos := (2, 0), LineType := 2, OccludeLevel := 0 }],
            [{ rlci := { pos := (1, 0), LineType := 2, OccludeLevel := 0 },
               from_ := { pos := (0, 0), LineType := 2, OccludeLevel := 0 },
               to_ := { pos := (2, 0), LineType := 2, OccludeLevel := 0 } }]) := by
  have hm : ∀ x ∈ [({ pos := (1, 0), LineType := 2, OccludeLevel := 0 } :
        LANPR_RenderLineChainItem)] ++ [{ pos := (2, 0), LineType := 2, OccludeLevel := 0 }],
      x.LineType = 2 ∧ x.OccludeLevel = 0 := by
    intro x hx
    simp only [List.singleton_append, List.mem_cons, List.mem_singleton,
      List.not_mem_nil, or_false] at hx
    rcases hx with rfl | rfl <;> exact ⟨rfl, rfl⟩
  have hd : ∀ x ∈ [({ pos := (1, 0), LineType := 2, OccludeLevel := 0 } :
        LANPR_RenderLineChainItem)],
      exampleExtern.dist_to_line_segment_v2 x.pos (0, 0) (2, 0) = 0 := by
    intro x hx
    simp only [List.mem_singleton] at hx
    subst hx
    norm_num [exampleExtern, dist_to_line_segment_v2, closest_to_line_segment_v2, len_v2v2,
      sqrtf]
  exact ⟨hm, hd, collinear_chain_reduces.1 exampleExtern (1 / 100)
    { pos := (0, 0), LineType := 2, OccludeLevel := 0 }
    [{ pos := (1, 0), LineType := 2, OccludeLevel := 0 }]
    { pos := (2, 0), LineType := 2, OccludeLevel := 0 } hm hd⟩

/-! ### Chain sizes and termination of the simplifier -/

/-- On a chain of at least two items the simplifier leaves the first and the
last item where they are. -/
theorem reduce_ends (E : Extern) (tol : ℚ) (chain : List LANPR_RenderLineChainItem)
    (r : List LANPR_RenderLineChainItem × List Removed)
    (h : lanpr_reduce_render_line_chain_recursive E tol chain = some r) :
    r.1.head? = chain.head? ∧ r.1.getLast? = chain.getLast? := by
  unfold lanpr_reduce_render_line_chain_recursive at h
  cases chain with
  | nil => simp at h
  | cons f rest =>
    simp only at h
    cases hl : rest.getLast? with
    | none => rw [hl] at h; simp at h
    | some t =>
      rw [hl] at h
      simp only at h
      cases hr : reduceRange E tol (rest.length + 1) f rest.dropLast t with
      | none => rw [hr] at h; simp at h
      | some q =>
        rw [hr] at h
        simp only [Option.some.injEq] at h
        subst h
        have hne : rest ≠ [] := by
          intro e; subst e; simp at hl
        refine ⟨rfl, ?_⟩
        show (f :: q.1 ++ [t]).getLast? = (f :: rest).getLast?
        rw [List.getLast?_append]
        cases rest with
        | nil => exact absurd rfl hne
        | cons x xs =>
          rw [List.getLast?_cons_cons, hl]
          rfl

/-- C31: on lines that each have a segment (the chain-picked mask not being
zero) the builder returns, and every chain it adds has at least two items
before the simplifier runs and at least two after it; the simplifier leaves the
first and the last item where they are; and `lanpr_ComputeChainLength` on such
a chain, for any array and index, does not read through a null pointer. -/
theorem chainFeatureLines_two_points (E : Extern) (hP : E.LANPR_EDGE_FLAG_CHAIN_PICKED ≠ 0)
    (rb : LANPR_RenderBuffer) (dist_threshold : ℚ)
    (hseg : ∀ l ∈ rb.AllRenderLines, l.Segments ≠ []) :
    ∃ out new, lanpr_ChainFeatureLines_NO_THREAD E rb dist_threshold = some out ∧
      out.Chains = rb.Chains ++ new ∧
      ∀ c ∈ new,
        (∃ log, lanpr_reduce_render_line_chain_recursive E dist_threshold c.raw =
          some (c.Chain, log)) ∧
        2 ≤ c.raw.length ∧ 2 ≤ c.Chain.length ∧
        c.Chain.head? = c.raw.head? ∧ c.Chain.getLast? = c.raw.getLast? ∧
        ∀ (lengths : List ℚ) (begin_index : Nat),
          ∃ total written, lanpr_ComputeChainLength E c lengths begin_index =
            some (total, written) := by
  obtain ⟨out, new, h1, h2, -, h4, -⟩ := chainFeatureLines_total E hP rb dist_threshold hseg
  refine ⟨out, new, h1, h2, ?_⟩
  intro c hc
  have hg := h4 c hc
  obtain ⟨log, hlog⟩ := hg.reduced
  have hends := reduce_ends E dist_threshold c.raw (c.Chain, log) hlog
  refine ⟨⟨log, hlog⟩, hg.raw_two, hg.chain_two, hends.1, hends.2, ?_⟩
  intro lengths b
  apply computeChainLength_isSome
  intro hnil
  have := hg.chain_two
  rw [hnil] at this
  simp at this

/-- C31 on the three lines of `starBuffer`. -/
theorem chainFeatureLines_two_points_witness :
    exampleExtern.LANPR_EDGE_FLAG_CHAIN_PICKED ≠ 0 ∧
    (∀ l ∈ starBuffer.AllRenderLines, l.Segments ≠ []) ∧
    ∃ out new, lanpr_ChainFeatureLines_NO_THREAD exampleExtern starBuffer 3 = some out ∧
      out.Chains = starBuffer.Chains ++ new ∧
      ∀ c ∈ new, 2 ≤ c.raw.length ∧ 2 ≤ c.Chain.length := by
  refine ⟨exampleExtern_picked_ne, starBuffer_segments, ?_⟩
  obtain ⟨out, new, h1, h2, h3⟩ :=
    chainFeatureLines_two_points exampleExtern exampleExtern_picked_ne starBuffer 3
      starBuffer_segments
  exact ⟨out, new, h1, h2, fun c hc => ⟨(h3 c hc).2.1, (h3 c hc).2.2.1⟩⟩

/-- With more fuel than interior items the call returns, and the items it
leaves together with the items it removes are the interior items: nothing
outside the range is removed. -/
theorem reduceRange_perm (E : Extern) (tol : ℚ) (fuel : Nat)
    (f : LANPR_RenderLineChainItem) (mid : List LANPR_RenderLineChainItem)
    (t : LANPR_RenderLineChainItem) (hfuel : mid.length < fuel) :
    ∃ r, reduceRange E tol fuel f mid t = some r ∧
      List.Perm (r.1 ++ r.2.map fun e => e.rlci) mid := by
  refine reduceRange_induct E tol
    (fun _ mid _ r => List.Perm (r.1 ++ r.2.map fun e => e.rlci) mid)
    (fun f mid t _ => removeLoop_perm f t mid) ?_ fuel f mid t hfuel
  intro f a m b t l r _ hl hr
  beta_reduce at hl hr ⊢
  simp only [List.map_append]
  have : List.Perm (l.1 ++ m :: r.1 ++ (l.2.map (fun e => e.rlci) ++ r.2.map fun e => e.rlci))
      ((l.1 ++ l.2.map fun e => e.rlci) ++ m :: (r.1 ++ r.2.map fun e => e.rlci)) := by
    simp only [List.append_assoc, List.cons_append]
    refine List.Perm.append_left _ ?_
    refine List.Perm.trans ?_ (List.perm_middle).symm
    refine List.Perm.cons m ?_
    rw [← List.append_assoc, ← List.append_assoc]
    exact List.Perm.append_right _ List.perm_append_comm
  exact this.trans (List.Perm.append hl (List.Perm.cons m hr))

/-- C32: on a range `from_, mid..., to_`, with more fuel than interior items
the call returns, and the result is the same for every such fuel.  When the
first loop selects an item, its position `k` is that of an interior item
`max_rlci`; the two ranges `from_ .. max_rlci` and `max_rlci .. to_` each have
fewer interior items than the range; the call on the first returns and removes
items of its own interior only, so that `max_rlci`, the items after it and
`to_` are in place for the call on the second; and the result of the call is
made of the two results around `max_rlci`. -/
theorem reduce_terminates (E : Extern) (dist_threshold : ℚ) (fuel : Nat)
    (from_ : LANPR_RenderLineChainItem) (mid : List LANPR_RenderLineChainItem)
    (to_ : LANPR_RenderLineChainItem) (hfuel : mid.length < fuel) :
    ∃ r, reduceRange E dist_threshold fuel from_ mid to_ = some r ∧
      (∀ fuel2, mid.length < fuel2 →
        reduceRange E dist_threshold fuel2 from_ mid to_ = some r) ∧
      ∀ k, (findMaxLoop E dist_threshold from_ to_ mid 0 0 none).2 = some k →
        ∃ max_rlci, mid[k]? = some max_rlci ∧
          (mid.take k).length < mid.length ∧ (mid.drop (k + 1)).length < mid.length ∧
          ∃ l r2,
            reduceRange E dist_threshold ((mid.take k).length + 1) from_ (mid.take k) max_rlci =
              some l ∧
            List.Perm (l.1 ++ l.2.map fun e => e.rlci) (mid.take k) ∧
            reduceRange E dist_threshold ((mid.drop (k + 1)).length + 1) max_rlci
              (mid.drop (k + 1)) to_ = some r2 ∧
            r = (l.1 ++ max_rlci :: r2.1, l.2 ++ r2.2) := by
  obtain ⟨r, hr⟩ := reduceRange_isSome E dist_threshold fuel from_ mid to_ hfuel
  refine ⟨r, hr, ?_, ?_⟩
  · intro fuel2 h2
    rw [reduceRange_fuel E dist_threshold fuel2 fuel from_ mid to_ h2 hfuel, hr]
  · intro k hk
    have hklt : k < mid.length := by
      rcases findMaxLoop_bound E dist_threshold from_ to_ mid 0 0 none k hk with h | h
      · simp at h
      · omega
    have hsplit : mid = mid.take k ++ mid[k] :: mid.drop (k + 1) := by
      rw [← List.drop_eq_getElem_cons hklt, List.take_append_drop]
    have htake : (mid.take k).length = k := by simp; omega
    have hdrop : (mid.drop (k + 1)).length = mid.length - (k + 1) := by simp
    obtain ⟨l, hl, hlp⟩ := reduceRange_perm E dist_threshold ((mid.take k).length + 1) from_
      (mid.take k) mid[k] (by omega)
    obtain ⟨r2, hr2⟩ := reduceRange_isSome E dist_threshold ((mid.drop (k + 1)).length + 1)
      mid[k] (mid.drop (k + 1)) to_ (by omega)
    refine ⟨mid[k], List.getElem?_eq_getElem hklt, by omega, by omega, l, r2, hl, hlp, hr2, ?_⟩
    obtain ⟨n, rfl⟩ : ∃ n, fuel = n + 1 := ⟨fuel - 1, by omega⟩
    have hfind : (findMaxLoop E dist_threshold from_ to_
        (mid.take k ++ mid[k] :: mid.drop (k + 1)) 0 0 none).2 = some (mid.take k).length := by
      rw [← hsplit, htake]; exact hk
    have hcomp := reduceRange_of_some E dist_threshold n from_ (mid.take k) mid[k]
      (mid.drop (k + 1)) to_ hfind (by omega) l r2
      (by
        rw [reduceRange_fuel E dist_threshold n ((mid.take k).length + 1) from_ (mid.take k)
          mid[k] (by omega) (by omega)]
        exact hl)
      (by
        rw [reduceRange_fuel E dist_threshold n ((mid.drop (k + 1)).length + 1) mid[k]
          (mid.drop (k + 1)) to_ (by omega) (by omega)]
        exact hr2)
    rw [← hsplit, hr] at hcomp
    exact Option.some.inj hcomp

/-- C32 on the range `(0,0) (2,3) (4,0)` with threshold 1 and fuel 2: the
call returns. -/
theorem reduce_terminates_witness :
    ([({ pos := (2, 3), LineType := 2, OccludeLevel := 0 } :
        LANPR_RenderLineChainItem)]).length < 2 ∧
    ∃ r, reduceRange exampleExtern 1 2 { pos := (0, 0), LineType := 2, OccludeLevel := 0 }
        [{ pos := (2, 3), LineType := 2, OccludeLevel := 0 }]
        { pos := (4, 0), LineType := 2, OccludeLevel := 0 } = some r ∧
      ∀ fuel2, ([({ pos := (2, 3), LineType := 2, OccludeLevel := 0 } :
          LANPR_RenderLineChainItem)]).length < fuel2 →
        reduceRange exampleExtern 1 fuel2 { pos := (0, 0), LineType := 2, OccludeLevel := 0 }
          [{ pos := (2, 3), LineType := 2, OccludeLevel := 0 }]
          { pos := (4, 0), LineType := 2, OccludeLevel := 0 } = some r := by
  refine ⟨by simp, ?_⟩
  obtain ⟨r, h1, h2, -⟩ := reduce_terminates exampleExtern 1 2
    { pos := (0, 0), LineType := 2, OccludeLevel := 0 }
    [{ pos := (2, 3), LineType := 2, OccludeLevel := 0 }]
    { pos := (4, 0), LineType := 2, OccludeLevel := 0 } (by simp)
  exact ⟨r, h1, h2⟩

/-! ### Chain builder: maximal walks -/

theorem isMatch_congr (E : Extern) (lines lines' : List LANPR_RenderLine)
    (rv : LANPR_RenderVert) (q : Nat) (h : lines[q]? = lines'[q]?) :
    isMatch E lines rv q = isMatch E lines' rv q := by
  unfold isMatch
  rw [h]

/-- When the lookup finds nothing, growth has nothing left at the vertex. -/
theorem stopAt_of_lookup_none (E : Extern) (lines0 lines : List LANPR_RenderLine)
    (consumed : List Nat) (hcore : Core E lines0 lines consumed)
    (cells : ℚ → ℚ → Option LANPR_BoundingArea) (rv : LANPR_RenderVert)
    (h : ∀ area, cells rv.FrameBufferCoord.1 rv.FrameBufferCoord.2 = some area →
      lanpr_GetConnectedRenderLine E lines area rv = none) :
    StopAt E lines0 cells consumed rv := by
  intro area ha q hq hm
  by_contra hnot
  have hnone := h area ha
  have hfind := (getConnectedLoop_find E lines rv area.LinkedLines).1
  have hnone' : getConnectedLoop E lines rv area.LinkedLines = none := hnone
  rw [hnone'] at hfind
  have := List.find?_eq_none.mp hfind.symm q hq
  rw [isMatch_congr E lines lines0 rv q (hcore.rest q hnot), hm] at this
  exact this rfl

theorem StopAt.mono {E : Extern} {lines0 : List LANPR_RenderLine}
    {cells : ℚ → ℚ → Option LANPR_BoundingArea} {consumed consumed' : List Nat}
    {v : LANPR_RenderVert} (h : StopAt E lines0 cells consumed v)
    (hsub : ∀ x ∈ consumed, x ∈ consumed') : StopAt E lines0 cells consumed' v :=
  fun area ha q hq hm => hsub q (h area ha q hq hm)

/-- A growth loop that returns keeps `Track`, and at the frontier vertex it
ends with growth has nothing left. -/
theorem growLoop_track (E : Extern) (hP : E.LANPR_EDGE_FLAG_CHAIN_PICKED ≠ 0)
    (lines0 : List LANPR_RenderLine) (hseg : ∀ l ∈ lines0, l.Segments ≠ [])
    (done : List LANPR_RenderLineChain) (side : Side) (last : LANPR_RenderVert) :
    ∀ (fuel : Nat) (rb : LANPR_RenderBuffer) (ba : Option LANPR_BoundingArea)
      (rv : LANPR_RenderVert) (rlc : LANPR_RenderLineChain)
      (res : LANPR_RenderBuffer × LANPR_RenderLineChain),
      Track E lines0 done side last rb rv rlc →
      ba = rb.BoundingAreas rv.FrameBufferCoord.1 rv.FrameBufferCoord.2 →
      growLoop E side fuel rb ba rv rlc = some res →
      ∃ rv', Track E lines0 done side last res.1 rv' res.2 ∧
        res.1.BoundingAreas = rb.BoundingAreas ∧
        (∀ x ∈ rlc.picked, x ∈ res.2.picked) ∧
        StopAt E lines0 rb.BoundingAreas (consumedBy done ++ res.2.picked) rv' := by
  intro fuel
  induction fuel with
  | zero =>
    intro rb ba rv rlc res _ _ h
    cases ba <;> simp [growLoop] at h
  | succ fuel ih =>
    intro rb ba rv rlc res hT hba h
    cases ba with
    | none =>
      rw [growLoop] at h
      obtain rfl := Option.some.inj h
      refine ⟨rv, hT, rfl, fun _ hx => hx, ?_⟩
      intro area ha
      rw [← hba] at ha
      simp at ha
    | some area =>
      rw [growLoop] at h
      cases hget : lanpr_GetConnectedRenderLine E rb.AllRenderLines area rv with
      | none =>
        rw [hget] at h
        obtain rfl := Option.some.inj h
        refine ⟨rv, hT, rfl, fun _ hx => hx, ?_⟩
        apply stopAt_of_lookup_none E lines0 rb.AllRenderLines _ hT.core
        intro area' ha'
        rw [← hba] at ha'
        obtain rfl := Option.some.inj ha'
        exact hget
      | some found =>
        obtain ⟨p, nrl, rv1⟩ := found
        rw [hget] at h
        simp only at h
        obtain ⟨-, hp, hnp, hconn⟩ := getConnectedLoop_spec E rb.AllRenderLines rv
          area.LinkedLines p nrl rv1 hget
        have hperm : List.Perm (consumedBy done ++ (notePicked side p rlc).picked)
            (p :: (consumedBy done ++ rlc.picked)) :=
          (List.Perm.append_left _ (notePicked_perm side p rlc)).trans List.perm_middle
        have hrv1 : rv1 = nrl.L ∨ rv1 = nrl.R := by
          rcases hconn with h | h
          · exact Or.inr h.2
          · exact Or.inl h.2
        obtain ⟨hnot, h0, -⟩ := hT.core.pick hP p nrl hp hnp _ hperm
        have hsegp : nrl.Segments ≠ [] := hseg nrl (List.getElem?_mem h0)
        obtain ⟨r, hr, hpk, -, -, -⟩ := emitLine_spec E side nrl rv1
          rb.RenderDataPool (notePicked side p rlc) hrv1 hsegp
        rw [hr] at h
        simp only at h
        have hperm' : List.Perm (consumedBy done ++ r.2.picked)
            (p :: (consumedBy done ++ rlc.picked)) := by rw [hpk]; exact hperm
        obtain ⟨-, -, hcore⟩ := hT.core.pick hP p nrl hp hnp _ hperm'
        have hview : viewPicked side r.2 = p :: viewPicked side rlc := by
          rw [viewPicked_congr side r.2 (notePicked side p rlc) hpk]
          exact (notePicked_view side p rlc).2.1
        have hmem : ∀ x ∈ rlc.picked, x ∈ r.2.picked := by
          intro x hx
          rw [hpk]
          exact (notePicked_perm side p rlc).symm.subset (List.mem_cons_of_mem _ hx)
        have hpmem : p ∈ r.2.picked := by
          rw [hpk]
          exact (notePicked_perm side p rlc).symm.subset (List.mem_cons_self _ _)
        have hT' : Track E lines0 done side last
            { rb with AllRenderLines := rb.AllRenderLines.set p (markPicked E nrl),
                      RenderDataPool := r.1 } rv1 r.2 := by
          refine ⟨hcore, ?_⟩
          obtain ⟨verts, hw, hhd, hlast, hends⟩ := hT.walk
          refine ⟨rv1 :: verts, ?_, rfl, ?_, ?_⟩
          · rw [hview, List.map_cons]
            refine IsWalk_cons hw rv.FrameBufferCoord _ p ?_ ⟨nrl, h0, ?_⟩
            · rw [List.head?_map, hhd]; rfl
            · rcases hconn with ⟨hc, h2⟩ | ⟨hc, h2⟩
              · exact Or.inr ⟨by rw [h2], hc⟩
              · exact Or.inl ⟨by rw [h2], hc⟩
          · cases verts with
            | nil => simp at hhd
            | cons a rest => rw [List.getLast?_cons_cons]; exact hlast
          · intro v hv
            rcases List.mem_cons.mp hv with rfl | hv
            · exact ⟨p, nrl, hpmem, h0, hrv1⟩
            · obtain ⟨q, l, hq, hl, he⟩ := hends v hv
              exact ⟨q, l, hmem q hq, hl, he⟩
        obtain ⟨rv', h1, h2, h3, h4⟩ := ih _ _ rv1 r.2 res hT' rfl h
        exact ⟨rv', h1, h2, fun x hx => h3 x (hmem x hx), h4⟩

theorem map_coord_reverse (verts : List LANPR_RenderVert) :
    (verts.reverse.map fun v => v.FrameBufferCoord) =
      (verts.map fun v => v.FrameBufferCoord).reverse := by
  rw [List.map_reverse]

/-- The chain that the body of the main loop builds from an eligible line is a
maximal walk: growth had nothing left at its two end vertices. -/
theorem buildChain_track (E : Extern) (hP : E.LANPR_EDGE_FLAG_CHAIN_PICKED ≠ 0)
    (lines0 : List LANPR_RenderLine) (hseg : ∀ l ∈ lines0, l.Segments ≠ [])
    (done : List LANPR_RenderLineChain) (rb : LANPR_RenderBuffer)
    (hcore : Core E lines0 rb.AllRenderLines (consumedBy done))
    (p : Nat) (rl0 : LANPR_RenderLine) (hp : rb.AllRenderLines[p]? = some rl0)
    (hnp : notPickable E rl0 = false)
    (res : LANPR_RenderBuffer × LANPR_RenderLineChain)
    (hb : buildChain E rb p rl0 = some res) :
    MaximalWalk E lines0 rb.BoundingAreas done res.2 := by
  have hperm0 : List.Perm (consumedBy done ++ [p]) (p :: consumedBy done) :=
    List.perm_append_comm
  obtain ⟨hnot, h0, hcore1⟩ := hcore.pick hP p rl0 hp hnp _ hperm0
  unfold buildChain at hb
  simp only at hb
  -- step 1
  have hT1 : Track E lines0 done Side.left rl0.R
      { rb with AllRenderLines := rb.AllRenderLines.set p (markPicked E rl0),
                RenderDataPool := rb.RenderDataPool + 1 + 1 }
      rl0.L
      (lanpr_push_render_line_chain_point E (rb.RenderDataPool + 1)
        { Chain := [], picked := [p], raw := [] }
        rl0.L.FrameBufferCoord.1 rl0.L.FrameBufferCoord.2 (markPicked E rl0).Flags 0).2 := by
    refine ⟨hcore1, [rl0.L, rl0.R], ?_, rfl, rfl, ?_⟩
    · exact ⟨⟨rl0, h0, Or.inl ⟨rfl, rfl⟩⟩, trivial⟩
    · intro v hv
      refine ⟨p, rl0, List.mem_singleton.mpr rfl, h0, ?_⟩
      simp only [List.mem_cons, List.mem_singleton, List.not_mem_nil, or_false] at hv
      exact hv
  cases hg2 : growLoop E Side.left (rb.AllRenderLines.length + 1)
      { rb with AllRenderLines := rb.AllRenderLines.set p (markPicked E rl0),
                RenderDataPool := rb.RenderDataPool + 1 + 1 }
      (lanpr_GetPointBoundingArea
        { rb with AllRenderLines := rb.AllRenderLines.set p (markPicked E rl0),
                  RenderDataPool := rb.RenderDataPool + 1 }
        rl0.L.FrameBufferCoord.1 rl0.L.FrameBufferCoord.2)
      rl0.L
      (lanpr_push_render_line_chain_point E (rb.RenderDataPool + 1)
        { Chain := [], picked := [p], raw := [] }
        rl0.L.FrameBufferCoord.1 rl0.L.FrameBufferCoord.2 (markPicked E rl0).Flags 0).2 with
  | none =>
    erw [hg2] at hb
    simp at hb
  | some r2 =>
    erw [hg2] at hb
    simp only at hb
    obtain ⟨rv2, hT2, hba2, hmono2, hstop2⟩ := growLoop_track E hP lines0 hseg done Side.left
      rl0.R _ _ _ _ _ r2 hT1 rfl hg2
    cases hs : (markPicked E rl0).Segments with
    | nil =>
      rw [hs] at hb
      simp at hb
    | cons s rest =>
      rw [hs] at hb
      simp only at hb
      obtain ⟨e1, -, -⟩ := emitOwnLevel_info E Side.right (markPicked E rl0) rest
        r2.1.RenderDataPool r2.2
      have hr3p : (lanpr_append_render_line_chain_point E
          (emitOwnLevel E Side.right (markPicked E rl0) rest r2.1.RenderDataPool r2.2).1
          (emitOwnLevel E Side.right (markPicked E rl0) rest r2.1.RenderDataPool r2.2).2
          (markPicked E rl0).R.FrameBufferCoord.1 (markPicked E rl0).R.FrameBufferCoord.2
          (markPicked E rl0).Flags 0).2.picked = r2.2.picked := e1
      obtain ⟨verts, hw, hhd, hlast, hends⟩ := hT2.walk
      have hT3 : Track E lines0 done Side.right rv2
          { r2.1 with RenderDataPool :=
              (lanpr_append_render_line_chain_point E
                (emitOwnLevel E Side.right (markPicked E rl0) rest r2.1.RenderDataPool r2.2).1
                (emitOwnLevel E Side.right (markPicked E rl0) rest r2.1.RenderDataPool r2.2).2
                (markPicked E rl0).R.FrameBufferCoord.1 (markPicked E rl0).R.FrameBufferCoord.2
                (markPicked E rl0).Flags 0).1 }
          (markPicked E rl0).R
          (lanpr_append_render_line_chain_point E
            (emitOwnLevel E Side.right (markPicked E rl0) rest r2.1.RenderDataPool r2.2).1
            (emitOwnLevel E Side.right (markPicked E rl0) rest r2.1.RenderDataPool r2.2).2
            (markPicked E rl0).R.FrameBufferCoord.1 (markPicked E rl0).R.FrameBufferCoord.2
            (markPicked E rl0).Flags 0).2 := by
        refine ⟨?_, verts.reverse, ?_, ?_, ?_, ?_⟩
        · rw [hr3p]; exact hT2.core
        · rw [map_coord_reverse]
          have hv : viewPicked Side.right (lanpr_append_render_line_chain_point E
              (emitOwnLevel E Side.right (markPicked E rl0) rest r2.1.RenderDataPool r2.2).1
              (emitOwnLevel E Side.right (markPicked E rl0) rest r2.1.RenderDataPool r2.2).2
              (markPicked E rl0).R.FrameBufferCoord.1 (markPicked E rl0).R.FrameBufferCoord.2
              (markPicked E rl0).Flags 0).2 = (viewPicked Side.left r2.2).reverse := by
            show List.reverse _ = List.reverse _
            rw [hr3p]
            rfl
          rw [hv]
          exact IsWalk_reverse hw
        · rw [List.head?_reverse, hlast]; rfl
        · rw [List.getLast?_reverse, hhd]
        · intro v hv
          obtain ⟨q, l, hq, hl, he⟩ := hends v (List.mem_reverse.mp hv)
          exact ⟨q, l, by rw [hr3p]; exact hq, hl, he⟩
      obtain ⟨rv4, hT4, hba4, hmono4, hstop4⟩ := growLoop_track E hP lines0 hseg done
        Side.right rv2 _ _ _ _ _ res hT3 rfl hb
      obtain ⟨verts4, hw4, hhd4, hlast4, hends4⟩ := hT4.walk
      refine ⟨verts4.reverse, ?_, ?_, ?_⟩
      · rw [map_coord_reverse]
        have := IsWalk_reverse hw4
        simpa [viewPicked] using this
      · intro v hv
        exact hends4 v (List.mem_reverse.mp hv)
      · intro v hv
        rw [List.head?_reverse, List.getLast?_reverse] at hv
        rcases hv with hv | hv
        · rw [hlast4] at hv
          obtain rfl := Option.some.inj hv
          have hsub : ∀ x ∈ consumedBy done ++ r2.2.picked,
              x ∈ consumedBy done ++ res.2.picked := by
            intro x hx
            rcases List.mem_append.mp hx with hx | hx
            · exact List.mem_append_left _ hx
            · exact List.mem_append_right _ (hmono4 x (by rw [hr3p]; exact hx))
          exact hstop2.mono hsub
        · rw [hhd4] at hv
          obtain rfl := Option.some.inj hv
          have hcells : r2.1.BoundingAreas = rb.BoundingAreas := hba2
          have := hstop4
          rw [show ({ r2.1 with RenderDataPool :=
              (lanpr_append_render_line_chain_point E
                (emitOwnLevel E Side.right (markPicked E rl0) rest r2.1.RenderDataPool r2.2).1
                (emitOwnLevel E Side.right (markPicked E rl0) rest r2.1.RenderDataPool r2.2).2
                (markPicked E rl0).R.FrameBufferCoord.1 (markPicked E rl0).R.FrameBufferCoord.2
                (markPicked E rl0).Flags 0).1 } : LANPR_RenderBuffer).BoundingAreas =
              rb.BoundingAreas from hcells] at this
          exact this

theorem consumedBy_append (a b : List LANPR_RenderLineChain) :
    consumedBy (a ++ b) = consumedBy a ++ consumedBy b := by
  simp [consumedBy]

/-- The main loop over the positions `ps`: when it returns, every chain it
added is a maximal walk with respect to the chains added before it. -/
theorem chainLoop_track (E : Extern) (hP : E.LANPR_EDGE_FLAG_CHAIN_PICKED ≠ 0)
    (lines0 : List LANPR_RenderLine) (hseg : ∀ l ∈ lines0, l.Segments ≠ [])
    (tol : ℚ) (chains0 : List LANPR_RenderLineChain)
    (cells : ℚ → ℚ → Option LANPR_BoundingArea) :
    ∀ (ps : List Nat) (rb : LANPR_RenderBuffer) (new : List LANPR_RenderLineChain)
      (out : LANPR_RenderBuffer),
      (∀ p ∈ ps, p < lines0.length) → rb.Chains = chains0 ++ new →
      rb.BoundingAreas = cells →
      Core E lines0 rb.AllRenderLines (consumedBy new) →
      (∀ pre c post, new = pre ++ c :: post → MaximalWalk E lines0 cells pre c) →
      chainLoop E tol ps rb = some out →
      ∃ new', out.Chains = chains0 ++ new' ∧
        ∀ pre c post, new' = pre ++ c :: post → MaximalWalk E lines0 cells pre c := by
  intro ps
  induction ps with
  | nil =>
    intro rb new out _ hch _ _ hmax h
    rw [chainLoop] at h
    obtain rfl := Option.some.inj h
    exact ⟨new, hch, hmax⟩
  | cons p rest ih =>
    intro rb new out hps hch hcells hcore hmax h
    have hplt : p < rb.AllRenderLines.length := by
      rw [hcore.len]; exact hps p (List.mem_cons_self _ _)
    have hrest : ∀ q ∈ rest, q < lines0.length := fun q hq => hps q (List.mem_cons_of_mem _ hq)
    rw [chainLoop, List.getElem?_eq_getElem hplt] at h
    simp only at h
    by_cases hnp : notPickable E rb.AllRenderLines[p] = true
    · rw [if_pos hnp] at h
      exact ih rb new out hrest hch hcells hcore hmax h
    · rw [if_neg hnp] at h
      have hnp' : notPickable E rb.AllRenderLines[p] = false := by simpa using hnp
      obtain ⟨rb1, rlc, hb, hcore1, hch1, hba1, -, -, htwo, -⟩ :=
        buildChain_spec E hP lines0 hseg new rb hcore p rb.AllRenderLines[p]
          (List.getElem?_eq_getElem hplt) hnp'
      have hmw := buildChain_track E hP lines0 hseg new rb hcore p rb.AllRenderLines[p]
        (List.getElem?_eq_getElem hplt) hnp' (rb1, rlc) hb
      rw [hcells] at hmw
      rw [hb] at h
      simp only at h
      obtain ⟨r, hr, -⟩ := reduce_total E tol rlc.Chain htwo
      rw [hr] at h
      simp only at h
      have hcons : consumedBy (new ++ [{ rlc with Chain := r.1, raw := rlc.Chain }]) =
          consumedBy new ++ rlc.picked := by
        simp [consumedBy]
      refine ih _ (new ++ [{ rlc with Chain := r.1, raw := rlc.Chain }]) out hrest
        (by simp [hch1, hch]) (by rw [← hcells]; exact hba1)
        (by rw [hcons]; exact hcore1) ?_ h
      intro pre c post hsplit
      rcases List.eq_nil_or_concat post with hpost | ⟨post', x, hpost⟩
      · subst hpost
        have h1 : new ++ [{ rlc with Chain := r.1, raw := rlc.Chain }] = pre ++ [c] := hsplit
        obtain ⟨h2, h3⟩ := List.append_inj' h1 rfl
        simp only [List.cons.injEq, and_true] at h3
        subst h2 h3
        exact hmw
      · subst hpost
        have h1 : new ++ [{ rlc with Chain := r.1, raw := rlc.Chain }] =
            (pre ++ c :: post') ++ [x] := by
          rw [hsplit]; simp
        obtain ⟨h2, -⟩ := List.append_inj' h1 rfl
        exact hmax pre c post' h2

/-! ### Chain builder: chains and connected components -/

theorem Adj.symm {E : Extern} {lines : List LANPR_RenderLine} {p q : Nat}
    (h : Adj E lines p q) : Adj E lines q p := by
  obtain ⟨lp, lq, v, h1, h2, h3, h4, h5, h6⟩ := h
  exact ⟨lq, lp, v, h2, h1, h4, h3, h6, h5⟩

theorem isMatch_of_end (E : Extern) (lines : List LANPR_RenderLine) (q : Nat)
    (l : LANPR_RenderLine) (v : LANPR_RenderVert) (hl : lines[q]? = some l)
    (hnp : notPickable E l = false) (hv : endOf l v) : isMatch E lines v q = true := by
  unfold isMatch
  rw [hl]
  simp only [hnp, Bool.not_false, Bool.true_and]
  unfold connectsAt
  rcases hv with h | h <;> simp [h]

/-- With complete cells, shared vertices and no branching: a line adjacent to
a line of the chain `c` is consumed by the time `c` is complete. -/
theorem adj_consumed (E : Extern) (rb : LANPR_RenderBuffer)
    (lines : List LANPR_RenderLine) (new : List LANPR_RenderLineChain)
    (hcore : Core E rb.AllRenderLines lines (consumedBy new))
    (hmax : ∀ pre c post, new = pre ++ c :: post →
      MaximalWalk E rb.AllRenderLines rb.BoundingAreas pre c)
    (hcells : CellsComplete E rb) (hshared : SharedVerts E rb.AllRenderLines)
    (hnb : NoBranching E rb.AllRenderLines)
    (pre : List LANPR_RenderLineChain) (c : LANPR_RenderLineChain)
    (post : List LANPR_RenderLineChain) (hsplit : new = pre ++ c :: post)
    (p q : Nat) (hp : p ∈ c.picked) (hadj : Adj E rb.AllRenderLines p q) :
    q ∈ consumedBy pre ++ c.picked := by
  obtain ⟨verts, hw, hends, hstop⟩ := hmax pre c post hsplit
  obtain ⟨lp, lq, v, hlp, hlq, hep, heq_, hvp, hvq⟩ := hadj
  have hcmem : ∀ x ∈ c.picked, x ∈ consumedBy new := by
    intro x hx
    rw [hsplit]
    exact List.mem_flatMap.mpr ⟨c, by simp, hx⟩
  have helig : ∀ x ∈ c.picked, ∀ l, rb.AllRenderLines[x]? = some l → notPickable E l = false := by
    intro x hx l hl
    obtain ⟨l0, h1, h2, -⟩ := hcore.marked x (hcmem x hx)
    rw [hl] at h1
    rw [Option.some.inj h1]; exact h2
  have hnodup : c.picked.Nodup := by
    have := hcore.nodup
    rw [hsplit, consumedBy_append] at this
    have h2 := (List.nodup_append.mp this).2.1
    have e : consumedBy (c :: post) = c.picked ++ consumedBy post := by simp [consumedBy]
    rw [e] at h2
    exact (List.nodup_append.mp h2).1
  have hev : eligibleEnd E rb.AllRenderLines v := ⟨p, lp, hlp, hep, hvp⟩
  -- an end position of an eligible line of the chain that is the position of `v`
  -- is `v` itself
  have hsame : ∀ x ∈ c.picked, ∀ l, rb.AllRenderLines[x]? = some l →
      (l.L.FrameBufferCoord = v.FrameBufferCoord ∨ l.R.FrameBufferCoord = v.FrameBufferCoord) →
      endOf l v := by
    intro x hx l hl hpos
    rcases hpos with h | h
    · have := hshared l.L v ⟨x, l, hl, helig x hx l hl, Or.inl rfl⟩ hev h
      exact Or.inl this.symm
    · have := hshared l.R v ⟨x, l, hl, helig x hx l hl, Or.inr rfl⟩ hev h
      exact Or.inr this.symm
  obtain ⟨k, hk⟩ := List.mem_iff_getElem?.mp hp
  have hklt : k < c.picked.length := (List.getElem?_eq_some_iff.mp hk).1
  obtain ⟨hlen, hidx⟩ := IsWalk_index hw
  have hvlen : verts.length = c.picked.length + 1 := by simpa using hlen
  -- the vertex of rank `j` of the walk, for `j = k` or `j = k + 1`, is `v`
  have hj : ∃ j, (j = k ∨ j = k + 1) ∧ verts[j]? = some v := by
    obtain ⟨l, a, b, hl, ha, hb, hab⟩ := hidx k p hk
    rw [hlp] at hl
    obtain rfl := Option.some.inj hl
    have hpos : a = v.FrameBufferCoord ∨ b = v.FrameBufferCoord := by
      rcases hvp with h | h <;> rcases hab with ⟨h1, h2⟩ | ⟨h1, h2⟩
      · left; rw [h1, h]
      · right; rw [h2, h]
      · right; rw [h2, h]
      · left; rw [h1, h]
    have hget : ∀ (j : Nat) (c' : Pos), (verts.map fun v => v.FrameBufferCoord)[j]? = some c' →
        c' = v.FrameBufferCoord → verts[j]? = some v := by
      intro j c' hc hcv
      rw [List.getElem?_map] at hc
      cases hu : verts[j]? with
      | none => rw [hu] at hc; simp at hc
      | some u =>
        rw [hu] at hc
        simp only [Option.map_some', Option.some.injEq] at hc
        obtain ⟨x, l, hx, hl, he⟩ := hends u (List.getElem?_mem hu)
        have := hshared u v ⟨x, l, hl, helig x hx l hl, he⟩ hev (by rw [hc, hcv])
        rw [this]
    rcases hpos with h | h
    · exact ⟨k, Or.inl rfl, hget k a ha h⟩
    · exact ⟨k + 1, Or.inr rfl, hget (k + 1) b hb h⟩
  obtain ⟨j, hjk, hvj⟩ := hj
  have hjle : j ≤ c.picked.length := by omega
  have hfromstop : StopAt E rb.AllRenderLines rb.BoundingAreas (consumedBy pre ++ c.picked) v →
      q ∈ consumedBy pre ++ c.picked := by
    intro hs
    obtain ⟨area, ha, hq⟩ := hcells q lq v hlq heq_ hvq
    exact hs area ha q hq (isMatch_of_end E _ q lq v hlq heq_ hvq)
  by_cases hj0 : j = 0
  · subst hj0
    apply hfromstop
    apply hstop v
    left
    rw [List.head?_eq_getElem?]; exact hvj
  by_cases hjn : j = c.picked.length
  · apply hfromstop
    apply hstop v
    right
    rw [List.getLast?_eq_getElem?, hvlen, Nat.add_sub_cancel, ← hjn]; exact hvj
  · -- an interior vertex of the walk: two lines of the chain end there
    have h1lt : j - 1 < c.picked.length := by omega
    have h2lt : j < c.picked.length := by omega
    have hp1 : c.picked[j - 1]? = some c.picked[j - 1] := List.getElem?_eq_getElem h1lt
    have hp2 : c.picked[j]? = some c.picked[j] := List.getElem?_eq_getElem h2lt
    have hvpos : (verts.map fun v => v.FrameBufferCoord)[j]? = some v.FrameBufferCoord := by
      rw [List.getElem?_map, hvj]; rfl
    obtain ⟨l1, a1, b1, hl1, ha1, hb1, hab1⟩ := hidx (j - 1) _ hp1
    obtain ⟨l2, a2, b2, hl2, ha2, hb2, hab2⟩ := hidx j _ hp2
    have e1 : j - 1 + 1 = j := by omega
    rw [e1, hvpos] at hb1
    rw [hvpos] at ha2
    obtain rfl := Option.some.inj hb1
    obtain rfl := Option.some.inj ha2
    have hm1 : c.picked[j - 1] ∈ c.picked := List.getElem_mem _
    have hm2 : c.picked[j] ∈ c.picked := List.getElem_mem _
    have hend1 : endOf l1 v := by
      apply hsame _ hm1 l1 hl1
      rcases hab1 with ⟨-, h⟩ | ⟨-, h⟩
      · exact Or.inr h.symm
      · exact Or.inl h.symm
    have hend2 : endOf l2 v := by
      apply hsame _ hm2 l2 hl2
      rcases hab2 with ⟨h, -⟩ | ⟨h, -⟩
      · exact Or.inl h.symm
      · exact Or.inr h.symm
    have hne : c.picked[j - 1] ≠ c.picked[j] := by
      intro he
      have := (List.Nodup.getElem_inj_iff hnodup).mp he
      omega
    rcases hnb v _ _ q l1 l2 lq hl1 hl2 hlq (helig _ hm1 l1 hl1) (helig _ hm2 l2 hl2) heq_
      hend1 hend2 hvq with h | h | h
    · exact absurd h hne
    · rw [← h]; exact List.mem_append_right _ hm1
    · rw [← h]; exact List.mem_append_right _ hm2

/-- With complete cells, shared vertices and no branching: a line adjacent to
a line of a chain is in that chain. -/
theorem adj_same_chain (E : Extern) (rb : LANPR_RenderBuffer)
    (lines : List LANPR_RenderLine) (new : List LANPR_RenderLineChain)
    (hcore : Core E rb.AllRenderLines lines (consumedBy new))
    (hmax : ∀ pre c post, new = pre ++ c :: post →
      MaximalWalk E rb.AllRenderLines rb.BoundingAreas pre c)
    (hcells : CellsComplete E rb) (hshared : SharedVerts E rb.AllRenderLines)
    (hnb : NoBranching E rb.AllRenderLines)
    (c : LANPR_RenderLineChain) (hc : c ∈ new)
    (p q : Nat) (hp : p ∈ c.picked) (hadj : Adj E rb.AllRenderLines p q) :
    q ∈ c.picked := by
  obtain ⟨pre, post, hsplit⟩ := List.append_of_mem hc
  have h1 := adj_consumed E rb lines new hcore hmax hcells hshared hnb pre c post hsplit p q hp
    hadj
  rcases List.mem_append.mp h1 with hq | hq
  · exfalso
    obtain ⟨c', hc', hqc'⟩ := List.mem_flatMap.mp hq
    obtain ⟨pre', post', hsplit'⟩ := List.append_of_mem hc'
    have hnew : new = pre' ++ c' :: (post' ++ c :: post) := by
      rw [hsplit, hsplit']; simp
    have h2 := adj_consumed E rb lines new hcore hmax hcells hshared hnb pre' c'
      (post' ++ c :: post) hnew q p hqc' hadj.symm
    have hnd := hcore.nodup
    have e : consumedBy new =
        (consumedBy pre' ++ c'.picked) ++ consumedBy (post' ++ c :: post) := by
      rw [hnew]; simp [consumedBy]
    rw [e] at hnd
    have hdis := (List.nodup_append.mp hnd).2.2
    have hp2 : p ∈ consumedBy (post' ++ c :: post) :=
      List.mem_flatMap.mpr ⟨c, by simp, hp⟩
    exact hdis h2 hp2
  · exact hq

/-- Lines of a chain that follow each other are adjacent, when ends at the
same position are the same vertex. -/
theorem chain_reachable (E : Extern) (lines0 lines : List LANPR_RenderLine)
    (new : List LANPR_RenderLineChain) (hcore : Core E lines0 lines (consumedBy new))
    (hshared : SharedVerts E lines0) (c : LANPR_RenderLineChain) (hc : c ∈ new)
    (hlinked : List.Chain' (touch lines0) c.picked) :
    ∀ p ∈ c.picked, ∀ q ∈ c.picked, Relation.ReflTransGen (Adj E lines0) p q := by
  have helig : ∀ x ∈ c.picked, ∀ l, lines0[x]? = some l → notPickable E l = false := by
    intro x hx l hl
    obtain ⟨l0, h1, h2, -⟩ := hcore.marked x (List.mem_flatMap.mpr ⟨c, hc, hx⟩)
    rw [hl] at h1
    rw [Option.some.inj h1]; exact h2
  have hadj : ∀ x y, x ∈ c.picked ∧ y ∈ c.picked ∧ touch lines0 x y → Adj E lines0 x y := by
    rintro x y ⟨hx, hy, l, l', hl, hl', ht⟩
    have ex := helig x hx l hl
    have ey := helig y hy l' hl'
    have hv : ∀ (v w : LANPR_RenderVert), endOf l v → endOf l' w →
        v.FrameBufferCoord = w.FrameBufferCoord → Adj E lines0 x y := by
      intro v w hv hw hpos
      have := hshared v w ⟨x, l, hl, ex, hv⟩ ⟨y, l', hl', ey, hw⟩ hpos
      subst this
      exact ⟨l, l', v, hl, hl', ex, ey, hv, hw⟩
    rcases ht with h | h | h | h
    · exact hv _ _ (Or.inl rfl) (Or.inl rfl) h
    · exact hv _ _ (Or.inl rfl) (Or.inr rfl) h
    · exact hv _ _ (Or.inr rfl) (Or.inl rfl) h
    · exact hv _ _ (Or.inr rfl) (Or.inr rfl) h
  have hch : List.Chain' (Relation.ReflTransGen (Adj E lines0)) c.picked :=
    (List.Chain'.iff_mem.mp hlinked).imp
      (fun x y h => Relation.ReflTransGen.single (hadj x y h))
  haveI : IsTrans Nat (Relation.ReflTransGen (Adj E lines0)) :=
    ⟨fun _ _ _ => Relation.ReflTransGen.trans⟩
  have hpair : List.Pairwise (Relation.ReflTransGen (Adj E lines0)) c.picked :=
    List.chain'_iff_pairwise.mp hch
  have hsymm : Symmetric (Relation.ReflTransGen (Adj E lines0)) :=
    Relation.ReflTransGen.symmetric (fun _ _ h => h.symm)
  exact hpair.forall_of_forall hsymm (fun _ _ => Relation.ReflTransGen.refl)

/-- C9, as amended: the builder returns, and of the chains it adds
 (1) each consumes at least one line, and consecutive lines of a chain have an
  end at the same position;
 (2) no line is consumed twice, and every line that had a feature-type bit and
  was not picked is consumed into a chain;
 (3) each is a maximal walk: there are vertices, each an end of a line of the
  chain, whose positions walk along its lines, and at the first and the last of
  them every line of the cell that is eligible for the lookup and connected to
  the vertex is consumed, into this chain or into one built before it (growth
  stopped at both ends only because nothing was left to take);
 (4) when the spatial index returns for each end of an eligible line a cell that
  lists the line, ends at the same position are the same vertex, and no vertex
  is an end of three eligible lines, the lines of a chain are exactly the
  lines of one connected component of the graph of eligible lines (adjacent
  when they have an end vertex in common): the chains are the components. -/
theorem chainFeatureLines_chain_connected (E : Extern)
    (hP : E.LANPR_EDGE_FLAG_CHAIN_PICKED ≠ 0)
    (rb : LANPR_RenderBuffer) (dist_threshold : ℚ)
    (hseg : ∀ l ∈ rb.AllRenderLines, l.Segments ≠ []) :
    ∃ out new, lanpr_ChainFeatureLines_NO_THREAD E rb dist_threshold = some out ∧
      out.Chains = rb.Chains ++ new ∧
      (∀ c ∈ new, c.picked ≠ [] ∧ List.Chain' (touch rb.AllRenderLines) c.picked) ∧
      (new.flatMap fun c => c.picked).Nodup ∧
      (∀ (p : Nat) (l0 : LANPR_RenderLine), rb.AllRenderLines[p]? = some l0 →
        l0.Flags &&& E.LANPR_EDGE_FLAG_ALL_TYPE ≠ 0 →
        l0.Flags &&& E.LANPR_EDGE_FLAG_CHAIN_PICKED = 0 →
        ∃ c ∈ new, p ∈ c.picked) ∧
      (∀ pre c post, new = pre ++ c :: post →
        MaximalWalk E rb.AllRenderLines rb.BoundingAreas pre c) ∧
      (CellsComplete E rb → SharedVerts E rb.AllRenderLines →
        NoBranching E rb.AllRenderLines →
        ∀ c ∈ new, ∀ p ∈ c.picked, ∀ q,
          q ∈ c.picked ↔ Relation.ReflTransGen (Adj E rb.AllRenderLines) p q) := by
  obtain ⟨out, new, h1, h2, h3, h4, h5⟩ := chainFeatureLines_total E hP rb dist_threshold hseg
  have hmax : ∀ pre c post, new = pre ++ c :: post →
      MaximalWalk E rb.AllRenderLines rb.BoundingAreas pre c := by
    obtain ⟨new', hn1, hn2⟩ := chainLoop_track E hP rb.AllRenderLines hseg dist_threshold
      rb.Chains rb.BoundingAreas (List.range rb.AllRenderLines.length) rb [] out
      (fun p hp => List.mem_range.mp hp) (by simp) rfl
      ⟨rfl, List.nodup_nil, fun i hi => by simp [consumedBy] at hi, fun _ _ => rfl⟩
      (fun pre c post h => by simp at h) h1
    rw [h2] at hn1
    have := List.append_cancel_left hn1
    rw [this]
    exact hn2
  refine ⟨out, new, h1, h2, fun c hc => ⟨(h4 c hc).nonempty, (h4 c hc).linked⟩, h3.nodup, ?_,
    hmax, ?_⟩
  · intro p l0 hp hty hpk
    have := (h5 p l0 hp).mpr ((notPickable_false_iff E l0).mpr ⟨hty, hpk⟩)
    obtain ⟨c, hc, hpc⟩ := List.mem_flatMap.mp this
    exact ⟨c, hc, hpc⟩
  · intro hcells hshared hnb c hc p hp q
    constructor
    · intro hq
      exact chain_reachable E rb.AllRenderLines out.AllRenderLines new h3 hshared c hc
        (h4 c hc).linked p hp q hq
    · intro hreach
      induction hreach with
      | refl => exact hp
      | tail _ hbc ih =>
        exact adj_same_chain E rb out.AllRenderLines new h3 hmax hcells hshared hnb c hc _ _ ih
          hbc

theorem twoLineBuffer_segments : ∀ l ∈ twoLineBuffer.AllRenderLines, l.Segments ≠ [] := by
  intro l hl
  simp only [twoLineBuffer, List.mem_cons, List.mem_singleton, List.not_mem_nil, or_false] at hl
  rcases hl with rfl | rfl <;> simp

theorem twoLineBuffer_index (q : Nat) (l : LANPR_RenderLine)
    (h : twoLineBuffer.AllRenderLines[q]? = some l) :
    (q = 0 ∧ l = { L := { addr := 0, FrameBufferCoord := (0, 0) },
                   R := { addr := 1, FrameBufferCoord := (1, 0) },
                   Flags := 2, Segments := [{ at_ := 0, OccludeLevel := 0 }] }) ∨
    (q = 1 ∧ l = { L := { addr := 1, FrameBufferCoord := (1, 0) },
                   R := { addr := 2, FrameBufferCoord := (2, 0) },
                   Flags := 2, Segments := [{ at_ := 0, OccludeLevel := 0 }] }) := by
  have hlt : q < 2 := (List.getElem?_eq_some_iff.mp h).1
  have hq : q = 0 ∨ q = 1 := by omega
  rcases hq with rfl | rfl
  · left; exact ⟨rfl, (Option.some.inj h).symm⟩
  · right; exact ⟨rfl, (Option.some.inj h).symm⟩

theorem twoLineBuffer_cells : CellsComplete exampleExtern twoLineBuffer := by
  intro q l v hl _ _
  refine ⟨{ LinkedLines := [0, 1] }, rfl, ?_⟩
  rcases twoLineBuffer_index q l hl with ⟨rfl, -⟩ | ⟨rfl, -⟩ <;> simp

theorem twoLineBuffer_shared : SharedVerts exampleExtern twoLineBuffer.AllRenderLines := by
  have hv : ∀ v, eligibleEnd exampleExtern twoLineBuffer.AllRenderLines v →
      v = { addr := 0, FrameBufferCoord := (0, 0) } ∨
      v = { addr := 1, FrameBufferCoord := (1, 0) } ∨
      v = { addr := 2, FrameBufferCoord := (2, 0) } := by
    rintro v ⟨q, l, hl, -, he⟩
    rcases twoLineBuffer_index q l hl with ⟨-, rfl⟩ | ⟨-, rfl⟩ <;> rcases he with rfl | rfl <;>
      simp
  intro v w h1 h2 hpos
  rcases hv v h1 with rfl | rfl | rfl <;> rcases hv w h2 with rfl | rfl | rfl <;>
    first
      | rfl
      | exact absurd (congrArg Prod.fst hpos) (by norm_num)

theorem twoLineBuffer_noBranching : NoBranching exampleExtern twoLineBuffer.AllRenderLines := by
  intro v p q r lp lq lr hp hq hr _ _ _ _ _ _
  have h1 : p < 2 := (List.getElem?_eq_some_iff.mp hp).1
  have h2 : q < 2 := (List.getElem?_eq_some_iff.mp hq).1
  have h3 : r < 2 := (List.getElem?_eq_some_iff.mp hr).1
  omega

/-- The amended C9 on the two lines of `twoLineBuffer`, which share the vertex
at `(1,0)`: the hypotheses of the last part hold, and the lines of each chain
are a connected component. -/
theorem chainFeatureLines_chain_connected_witness :
    exampleExtern.LANPR_EDGE_FLAG_CHAIN_PICKED ≠ 0 ∧
    (∀ l ∈ twoLineBuffer.AllRenderLines, l.Segments ≠ []) ∧
    CellsComplete exampleExtern twoLineBuffer ∧
    SharedVerts exampleExtern twoLineBuffer.AllRenderLines ∧
    NoBranching exampleExtern twoLineBuffer.AllRenderLines ∧
    ∃ out new, lanpr_ChainFeatureLines_NO_THREAD exampleExtern twoLineBuffer 0 = some out ∧
      out.Chains = twoLineBuffer.Chains ++ new ∧
      (∀ c ∈ new, c.picked ≠ [] ∧ List.Chain' (touch twoLineBuffer.AllRenderLines) c.picked) ∧
      (∀ pre c post, new = pre ++ c :: post →
        MaximalWalk exampleExtern twoLineBuffer.AllRenderLines twoLineBuffer.BoundingAreas
          pre c) ∧
      ∀ c ∈ new, ∀ p ∈ c.picked, ∀ q,
        q ∈ c.picked ↔
          Relation.ReflTransGen (Adj exampleExtern twoLineBuffer.AllRenderLines) p q := by
  refine ⟨exampleExtern_picked_ne, twoLineBuffer_segments, twoLineBuffer_cells,
    twoLineBuffer_shared, twoLineBuffer_noBranching, ?_⟩
  obtain ⟨out, new, h1, h2, h3, -, -, h6, h7⟩ :=
    chainFeatureLines_chain_connected exampleExtern exampleExtern_picked_ne twoLineBuffer 0
      twoLineBuffer_segments
  exact ⟨out, new, h1, h2, h3, h6,
    h7 twoLineBuffer_cells twoLineBuffer_shared twoLineBuffer_noBranching⟩

theorem reduce_cross :
    lanpr_reduce_render_line_chain_recursive exampleExtern 0
      [{ pos := (0, 0), LineType := 2, OccludeLevel := 0 },
       { pos := (1, 0), LineType := 2, OccludeLevel := 0 },
       { pos := (1, 1), LineType := 16, OccludeLevel := 0 }] =
      some ([{ pos := (0, 0), LineType := 2, OccludeLevel := 0 },
             { pos := (1, 0), LineType := 2, OccludeLevel := 0 },
             { pos := (1, 1), LineType := 16, OccludeLevel := 0 }], []) := by
  simp only [lanpr_reduce_render_line_chain_recursive, List.getLast?_cons_cons,
    List.getLast?_singleton, List.dropLast, List.length_cons, List.length_nil]
  rw [reduceRange_of_none _ _ _ _ _ _ (by simp [findMaxLoop, metaBreak, nextOf])]
  simp [removeLoop, metaBreak, nextOf]

theorem crossBufferSwapped_cells : CellsComplete exampleExtern crossBufferSwapped := by
  intro q l v hl _ _
  refine ⟨{ LinkedLines := [0, 1] }, rfl, ?_⟩
  have hlt : q < 2 := (List.getElem?_eq_some_iff.mp hl).1
  have hq : q = 0 ∨ q = 1 := by omega
  rcases hq with rfl | rfl <;> simp

theorem crossBufferSwapped_noBranching :
    NoBranching exampleExtern crossBufferSwapped.AllRenderLines := by
  intro v p q r lp lq lr hp hq hr _ _ _ _ _ _
  have h1 : p < 2 := (List.getElem?_eq_some_iff.mp hp).1
  have h2 : q < 2 := (List.getElem?_eq_some_iff.mp hq).1
  have h3 : r < 2 := (List.getElem?_eq_some_iff.mp hr).1
  omega

theorem crossBufferSwapped_not_adj :
    ¬ Relation.ReflTransGen (Adj exampleExtern crossBufferSwapped.AllRenderLines) 0 1 := by
  have hstep : ∀ q, Adj exampleExtern crossBufferSwapped.AllRenderLines 0 q → q = 0 := by
    rintro q ⟨lp, lq, v, hp, hq, -, -, hv, hw⟩
    have hlt : q < 2 := (List.getElem?_eq_some_iff.mp hq).1
    have hq' : q = 0 ∨ q = 1 := by omega
    rcases hq' with rfl | rfl
    · rfl
    · exfalso
      have e1 := (Option.some.inj hp).symm
      have e2 := (Option.some.inj hq).symm
      subst e1 e2
      rcases hv with rfl | rfl <;> rcases hw with h | h <;>
        exact absurd (congrArg LANPR_RenderVert.addr h) (by decide)
  have hall : ∀ q, Relation.ReflTransGen (Adj exampleExtern crossBufferSwapped.AllRenderLines)
      0 q → q = 0 := by
    intro q hq
    induction hq with
    | refl => rfl
    | tail _ hbc ih => subst ih; exact hstep _ hbc
  intro h
  exact absurd (hall 1 h) (by decide)

set_option maxHeartbeats 2000000 in
/-- Why the last part of the amended C9 asks that ends at the same position
be the same vertex.  The intersection line `X` and the contour line `A` have
an end at `(1,0)`, through two vertices, and no vertex is an end of three
lines.  With `X` first the builder makes two chains of two lines that touch
(the lookup from an end of `X` does not accept `A`, which is not an
intersection line).  With `A` first, in a buffer whose index lists every line
and that has no branching vertex, it makes one chain of two lines that have no
vertex in common (the lookup from the end of `A` accepts `X` by its
coordinates). -/
theorem intersection_lines_order_dependence :
    (touch crossBuffer.AllRenderLines 0 1 ∧
      ∃ out, lanpr_ChainFeatureLines_NO_THREAD exampleExtern crossBuffer 0 = some out ∧
      (out.Chains.map fun c => c.picked) = [[0], [1]] ∧
      (out.Chains.map fun c => c.raw.map fun (i : LANPR_RenderLineChainItem) => i.pos) =
        [[(1, 0), (1, 1)], [(0, 0), (1, 0)]]) ∧
    (CellsComplete exampleExtern crossBufferSwapped ∧
      NoBranching exampleExtern crossBufferSwapped.AllRenderLines ∧
      ¬ Relation.ReflTransGen (Adj exampleExtern crossBufferSwapped.AllRenderLines) 0 1 ∧
      ∃ out, lanpr_ChainFeatureLines_NO_THREAD exampleExtern crossBufferSwapped 0 = some out ∧
      (out.Chains.map fun c => c.picked) = [[0, 1]] ∧
      (out.Chains.map fun c => c.raw.map fun (i : LANPR_RenderLineChainItem) => i.pos) =
        [[(0, 0), (1, 0), (1, 1)]]) := by
  have b1 : (2 &&& 64 : ℕ) = 0 := by decide
  have b2 : (16 &&& 64 : ℕ) = 0 := by decide
  have b3 : (66 &&& 64 : ℕ) = 64 := by decide
  have b4 : (80 &&& 64 : ℕ) = 64 := by decide
  have b5 : (2 &&& 63 : ℕ) = 2 := by decide
  have b6 : (16 &&& 63 : ℕ) = 16 := by decide
  have b7 : (66 &&& 63 : ℕ) = 2 := by decide
  have b8 : (80 &&& 63 : ℕ) = 16 := by decide
  have b9 : (2 &&& 16 : ℕ) = 0 := by decide
  have b10 : (16 &&& 16 : ℕ) = 16 := by decide
  have b11 : (16 ||| 64 : ℕ) = 80 := by decide
  have b12 : (2 ||| 64 : ℕ) = 66 := by decide
  refine ⟨⟨⟨_, _, rfl, rfl, Or.inr (Or.inl rfl)⟩, ?_⟩,
    crossBufferSwapped_cells, crossBufferSwapped_noBranching, crossBufferSwapped_not_adj, ?_⟩
  · simp [lanpr_ChainFeatureLines_NO_THREAD, crossBuffer, chainLoop, List.range, List.range.loop,
      notPickable, exampleExtern_all_type, exampleExtern_picked, exampleExtern_intersection,
      exampleExtern_pool, buildChain, markPicked, lanpr_push_render_line_chain_point,
      lanpr_GetPointBoundingArea, growLoop, lanpr_GetConnectedRenderLine, getConnectedLoop,
      LANPR_OTHER_RV, emitLine, emitOwnLevel, emitLastLevel, addPoint, notePicked,
      lanpr_append_render_line_chain_point, tnsLinearItp, b1, b2, b3, b4, b5, b6, b7, b8, b9,
      b10, b11, b12, reduce_pair, -Prod.mk_zero_zero, -Prod.mk_one_one]
  · simp [lanpr_ChainFeatureLines_NO_THREAD, crossBufferSwapped, chainLoop, List.range,
      List.range.loop, notPickable, exampleExtern_all_type, exampleExtern_picked,
      exampleExtern_intersection, exampleExtern_pool, buildChain, markPicked,
      lanpr_push_render_line_chain_point, lanpr_GetPointBoundingArea, growLoop,
      lanpr_GetConnectedRenderLine, getConnectedLoop, LANPR_OTHER_RV, emitLine, emitOwnLevel,
      emitLastLevel, addPoint, notePicked, lanpr_append_render_line_chain_point, tnsLinearItp,
      b1, b2, b3, b4, b5, b6, b7, b8, b9, b10, b11, b12, reduce_cross, -Prod.mk_zero_zero, -Prod.mk_one_one]

end Lanpr
